import Mathlib

/-!
# Monad explorer exporter: hex codec and window aggregation

A shallow embedding of `docker-apps/monad-explorer/exporter/main.go`
(the aggregated exporter), of the helper `hexToUint64`, which it shares
verbatim with `docker-apps/monad-explorer/main.go`, and of the collection
cycle of the latter (the per-block exporter).

Conventions of the embedding

* A Go `string` is its sequence of bytes, `GoString := List Nat`; `len`
  is `List.length` and `s[2:]` is `List.drop 2` (guarded by the bounds
  check Go performs).  No definition looks at a byte except through
  comparisons with ASCII codes, so values above 255 behave like any other
  non-digit byte.
* `uint64` values are naturals below `2 ^ 64`; every `uint64` addition,
  subtraction and multiplication is written with an explicit `% 2 ^ 64`.
* Go `int` counters (lengths and counts of transactions) are naturals:
  they count elements of slices held in memory and stay far below `2 ^ 63`.
* A run-time panic is the `none` of an `Option` (or `Result.panic`).
* `float64` gauge values are idealised as exact rationals, with one
  exception: the conversion `float64(totalValue)` of the value total, an
  amount in wei that exceeds `2 ^ 53` in practice, is modelled exactly
  (`roundToFloat64`).
* `time.Sleep`, logging and the latency histogram (wall-clock effects) are
  left out; the collection-time gauge is set by `CollectMetricsTimed`, with
  the measured duration as a parameter.
* The constant `blocksToAnalyze` (5 in exporter/main.go, 10 in main.go) is a
  parameter of `CollectMetrics`.
* The node is a function from requests to replies; the JSON layer between
  `makeRequest` and the decoded structs is kept abstract.
-/

namespace MonadExporter

/-! ## Strings -/

/-- A Go string: an immutable sequence of bytes, each kept as its value. -/
abbrev GoString := List Nat

/-- The bytes (UTF-8) of a string literal of the source. -/
def str (s : String) : GoString := s.toUTF8.data.toList.map UInt8.toNat

/-! ## strconv.ParseUint (s, 16, 64) -/

/-- The largest `uint64`. -/
def maxUint64 : Nat := 2 ^ 64 - 1

/-- The two error kinds of `strconv.NumError`. -/
inductive NumError where
  | ErrSyntax
  | ErrRange
  deriving DecidableEq, Repr

/-- Function `lower` of strconv: `c | ('x' - 'X')`. -/
def lower (c : Nat) : Nat := c ||| 32

/-- The digit switch of `ParseUint` (the underscore case needs base 0 and is
never taken here): `none` stands for the `default:` syntax error. -/
def digitOf (c : Nat) : Option Nat :=
  if 48 ≤ c ∧ c ≤ 57 then some (c - 48)                       -- '0' <= c && c <= '9'
  else if 97 ≤ lower c ∧ lower c ≤ 122 then some (lower c - 97 + 10) -- 'a' <= lower(c) <= 'z'
  else none

/-- The value `cutoff` of `ParseUint` for base 16: `maxUint64/16 + 1`. -/
def cutoff : Nat := maxUint64 / 16 + 1

/-- The digit loop of `ParseUint` for base 16 and bit size 64, with `n` the
value accumulated so far.  It returns the pair `(value, error)`. -/
def parseLoop : GoString → Nat → Nat × Option NumError
  | [], n => (n, none)
  | c :: s, n =>
    match digitOf c with
    | none => (0, some NumError.ErrSyntax)
    | some d =>
      if 16 ≤ d then (0, some NumError.ErrSyntax)               -- d >= byte(base)
      else if cutoff ≤ n then (maxUint64, some NumError.ErrRange) -- n*base overflows
      else
        let n16 := (n * 16) % 2 ^ 64
        let n1 := (n16 + d) % 2 ^ 64
        if n1 < n16 ∨ maxUint64 < n1 then (maxUint64, some NumError.ErrRange)
        else parseLoop s n1

/-- The call `strconv.ParseUint(s, 16, 64)`: the pair `(value, error)`. -/
def ParseUint (s : GoString) : Nat × Option NumError :=
  if s = [] then (0, some NumError.ErrSyntax) else parseLoop s 0

/-! ## hexToUint64 -/

/-- Function `hexToUint64` (exporter/main.go 335-341, main.go 332-338).
`none` is the run-time panic of `hexStr[2:]` on a string shorter than two
bytes; the error of `ParseUint` is discarded and its value returned. -/
def hexToUint64 (hexStr : GoString) : Option Nat :=
  if hexStr = str "" ∨ hexStr = str "0x" then some 0
  else if hexStr.length < 2 then none
  else some (ParseUint (hexStr.drop 2)).1

/-! ## fmt.Sprintf with the verbs %x and %d -/

/-- The digit table `ldigits` of package fmt. -/
def ldigits : GoString := str "0123456789abcdefx"

/-- The digit loop of `fmtInteger` for base 16: digits are written from the
end of the buffer, `buf` being the part already written.  The first
argument bounds the number of iterations and is at least `u` at every call. -/
def fmtHexLoop : Nat → Nat → GoString → GoString
  | 0, u, buf => ldigits.getD u 0 :: buf
  | fuel + 1, u, buf =>
    if 16 ≤ u then fmtHexLoop fuel (u / 16) (ldigits.getD (u % 16) 0 :: buf)
    else ldigits.getD u 0 :: buf

/-- The verb `%x` applied to an unsigned integer. -/
def fmtHex (u : Nat) : GoString := fmtHexLoop u u []

/-- The call `fmt.Sprintf("0x%x", n)`. -/
def sprintf0x (n : Nat) : GoString := str "0x" ++ fmtHex n

/-- The call `fmt.Sprintf("%d", n)` for an unsigned integer. -/
def sprintfD (n : Nat) : GoString := (Nat.toDigits 10 n).map Char.toNat

/-! ## Data model (exporter/main.go 35-66) -/

/-- Struct `Transaction`; an absent JSON field leaves the empty string. -/
structure Transaction where
  Hash : GoString := []
  From : GoString := []
  To : GoString := []
  Value : GoString := []
  Gas : GoString := []
  GasPrice : GoString := []
  MaxFeePerGas : GoString := []
  MaxPriorityFeePerGas : GoString := []
  Input : GoString := []
  /-- The field `Type` of the source (a reserved word here). -/
  Type_ : GoString := []
  Nonce : GoString := []
  TransactionIndex : GoString := []
  BlockNumber : GoString := []
  BlockHash : GoString := []

/-- Struct `Block`. -/
structure Block where
  Number : GoString := []
  Hash : GoString := []
  ParentHash : GoString := []
  Timestamp : GoString := []
  GasLimit : GoString := []
  GasUsed : GoString := []
  BaseFeePerGas : GoString := []
  Transactions : List Transaction := []
  Size : GoString := []
  Difficulty : GoString := []
  TotalDifficulty : GoString := []
  Miner : GoString := []
  ExtraData : GoString := []

/-! ## The published series (exporter/main.go 69-196) -/

/-- The registry of published series.  A gauge starts at 0; a labelled series
exists (`some`) once it has been set.  The latency histogram and the
collection-time gauge record wall-clock durations and are left out. -/
structure Metrics where
  currentBlockNumber : ℚ := 0
  gasPrice : ℚ := 0
  gasPriceGwei : ℚ := 0
  maxPriorityFeePerGas : ℚ := 0
  currentBlockGasUsed : ℚ := 0
  currentBlockGasLimit : ℚ := 0
  currentBlockGasUtilization : ℚ := 0
  currentBlockSize : ℚ := 0
  currentBlockTransactionCount : ℚ := 0
  avgBlockTime : ℚ := 0
  avgTransactionsPerBlock : ℚ := 0
  avgGasUtilization : ℚ := 0
  avgGasPriceWei : ℚ := 0
  transactionTypes : GoString → Option ℚ := fun _ => none
  totalContractCalls : ℚ := 0
  totalSimpleTransfers : ℚ := 0
  avgUniqueAddressesPerBlock : ℚ := 0
  totalValueTransferredWei : ℚ := 0
  transactionsPerSecond : ℚ := 0
  rpcErrors : GoString → Nat := fun _ => 0
  lastBlockTimestamp : ℚ := 0
  chainInfo : GoString → GoString → GoString → Option ℚ := fun _ _ _ => none

/-! ## The remote node, seen through makeRequest (exporter/main.go 233-271) -/

/-- The `result` field of a response, as far as the type assertion
`result.(string)` tells values apart. -/
inductive JSONValue where
  | string (s : GoString)
  | other

/-- What `makeRequest` hands back for a single-value method: an error
(transport, decoding of the envelope, or a populated error field) with its
message, or the result. -/
inductive Reply where
  | failure (msg : GoString)
  | result (v : JSONValue)

/-- What a block request yields: `makeRequest` fails; or it succeeds and the
result does not decode into the target struct; or it decodes. -/
inductive BlockReply where
  | failure (msg : GoString)
  | undecodable (msg : GoString)
  | block (b : Block)

/-- The node: its answer to each request of a collection cycle.  A cycle
sends every request at most once, so the answers are a function of the
request. -/
structure Node where
  eth_chainId : Reply
  web3_clientVersion : Reply
  eth_blockNumber : Reply
  eth_gasPrice : Reply
  eth_maxPriorityFeePerGas : Reply
  eth_getBlockByNumber : GoString → Bool → BlockReply

/-- Go error values, kept structured instead of rendered to text. -/
inductive Error where
  | rpc (msg : GoString)
  | json (msg : GoString)
  | num (e : NumError) (s : GoString)
  | wrap (what : GoString) (e : Error)

/-- The outcome of an accessor: a panic, or the registry after the call
together with an error or a value. -/
inductive Call (α : Type) where
  | panic
  | fail (m : Metrics) (err : Error)
  | done (m : Metrics) (v : α)

/-- The increment `rpcErrors.WithLabelValues(method).Inc()`. -/
def countError (m : Metrics) (method : GoString) : Metrics :=
  { m with rpcErrors := fun k => if k = method then m.rpcErrors k + 1 else m.rpcErrors k }

/-- A single-value request followed by `result.(string)` (273-279, 327-333). -/
def stringCall (method : GoString) (r : Reply) (m : Metrics) : Call GoString :=
  match r with
  | Reply.failure msg => Call.fail (countError m method) (Error.rpc msg)
  | Reply.result JSONValue.other => Call.panic
  | Reply.result (JSONValue.string s) => Call.done m s

/-- A single-value request followed by `result.(string)` and
`strconv.ParseUint(hexStr[2:], 16, 64)` (281-288, 309-325). -/
def quantityCall (method : GoString) (r : Reply) (m : Metrics) : Call Nat :=
  match r with
  | Reply.failure msg => Call.fail (countError m method) (Error.rpc msg)
  | Reply.result JSONValue.other => Call.panic
  | Reply.result (JSONValue.string hexStr) =>
    if hexStr.length < 2 then Call.panic
    else
      match ParseUint (hexStr.drop 2) with
      | (v, none) => Call.done m v
      | (_, some e) => Call.fail m (Error.num e (hexStr.drop 2))

/-- Method `GetChainID` (273-279). -/
def GetChainID (c : Node) (m : Metrics) : Call GoString :=
  stringCall (str "eth_chainId") c.eth_chainId m

/-- Method `GetBlockNumber` (281-288). -/
def GetBlockNumber (c : Node) (m : Metrics) : Call Nat :=
  quantityCall (str "eth_blockNumber") c.eth_blockNumber m

/-- Method `GetBlock` (290-307). -/
def GetBlock (c : Node) (blockNumber : GoString) (fullTx : Bool) (m : Metrics) : Call Block :=
  match c.eth_getBlockByNumber blockNumber fullTx with
  | BlockReply.failure msg => Call.fail (countError m (str "eth_getBlockByNumber")) (Error.rpc msg)
  | BlockReply.undecodable msg => Call.fail m (Error.json msg)
  | BlockReply.block b => Call.done m b

/-- Method `GetGasPrice` (309-316). -/
def GetGasPrice (c : Node) (m : Metrics) : Call Nat :=
  quantityCall (str "eth_gasPrice") c.eth_gasPrice m

/-- Method `GetMaxPriorityFeePerGas` (318-325). -/
def GetMaxPriorityFeePerGas (c : Node) (m : Metrics) : Call Nat :=
  quantityCall (str "eth_maxPriorityFeePerGas") c.eth_maxPriorityFeePerGas m

/-- Method `GetClientVersion` (327-333). -/
def GetClientVersion (c : Node) (m : Metrics) : Call GoString :=
  stringCall (str "web3_clientVersion") c.web3_clientVersion m

/-! ## CollectMetrics (exporter/main.go 343-576) -/

/-- Addition of `uint64`. -/
def add64 (a b : Nat) : Nat := (a + b) % 2 ^ 64

/-- Subtraction of `uint64`. -/
def sub64 (a b : Nat) : Nat := (a + (2 ^ 64 - b % 2 ^ 64)) % 2 ^ 64

/-- The spacing of the `float64` values around a `uint64` `u`: 1 below
`2 ^ 53`, and doubling with every further bit of `u`, up to `2 ^ 11`.  The
call `float64Ulp 11 1 u` starts from the spacing 1. -/
def float64Ulp : Nat → Nat → Nat → Nat
  | 0, ulp, _ => ulp
  | fuel + 1, ulp, u => if u < 2 ^ 53 * ulp then ulp else float64Ulp fuel (2 * ulp) u

/-- The conversion `float64(u)` of a `uint64`, as the integer it denotes: the
multiple of the spacing nearest to `u`, the even multiple when `u` is halfway
between two (IEEE 754 round to nearest, ties to even). -/
def roundToFloat64 (u : Nat) : Nat :=
  let ulp := float64Ulp 11 1 u
  let q := u / ulp
  let r := u % ulp
  if 2 * r < ulp then q * ulp
  else if 2 * r > ulp then (q + 1) * ulp
  else if q % 2 = 0 then q * ulp else (q + 1) * ulp

/-- The local accumulators of `CollectMetrics` (386-392).  The map
`txTypeCountTotal` gives `none` for a key that is not in it. -/
structure Totals where
  totalTxs : Nat := 0
  totalGasUsed : Nat := 0
  totalGasLimit : Nat := 0
  totalContractCallsCount : Nat := 0
  totalSimpleTransfersCount : Nat := 0
  totalUniqueAddresses : Nat := 0
  totalValue : Nat := 0
  totalGasPrice : Nat := 0
  totalGasPriceCount : Nat := 0
  txTypeCountTotal : GoString → Option Nat := fun _ => none

/-- The per-block locals of the transaction analysis (448-449); the map
`uniqueAddrs` is the list of its keys. -/
structure BlockLocals where
  contractCallCount : Nat := 0
  simpleTransferCount : Nat := 0
  uniqueAddrs : List GoString := []

/-- The transaction type analysis (468-481): `none` when `hexToUint64` panics. -/
def txTypeOf (tx : Transaction) : Option GoString :=
  if tx.Type_ ≠ str "" then
    match hexToUint64 tx.Type_ with
    | none => none
    | some 0 => some (str "legacy")
    | some 1 => some (str "eip2930")
    | some 2 => some (str "eip1559")
    | some _ => some (str "unknown")
  else some (str "legacy")

/-- The statement `txTypeCountTotal[txType]++` (482). -/
def incrCount (counts : GoString → Option Nat) (txType : GoString) : GoString → Option Nat :=
  fun k => if k = txType then some ((counts k).getD 0 + 1) else counts k

/-- The test of line 485: `tx.Input != "0x" && len(tx.Input) > 2`. -/
def isContractCall (tx : Transaction) : Bool :=
  decide (tx.Input ≠ str "0x" ∧ tx.Input.length > 2)

/-- One iteration of the loop over the transactions of a block (451-490). -/
def txStep (t : Totals) (l : BlockLocals) (tx : Transaction) : Option (Totals × BlockLocals) :=
  match hexToUint64 tx.GasPrice with
  | none => none
  | some gasPrice0 =>
  match (if gasPrice0 = 0 then hexToUint64 tx.MaxFeePerGas else some gasPrice0) with
  | none => none
  | some txGasPrice =>
  match hexToUint64 tx.Value with
  | none => none
  | some value =>
  let uniqueAddrs := List.insert tx.From l.uniqueAddrs
  let uniqueAddrs := if tx.To ≠ str "" then List.insert tx.To uniqueAddrs else uniqueAddrs
  match txTypeOf tx with
  | none => none
  | some txType =>
  some
    ({ t with
        totalGasPrice := add64 t.totalGasPrice txGasPrice
        totalGasPriceCount := t.totalGasPriceCount + 1
        totalValue := add64 t.totalValue value
        txTypeCountTotal := incrCount t.txTypeCountTotal txType },
     { contractCallCount := if isContractCall tx then l.contractCallCount + 1
                            else l.contractCallCount
       simpleTransferCount := if isContractCall tx then l.simpleTransferCount
                              else l.simpleTransferCount + 1
       uniqueAddrs := uniqueAddrs })

/-- The loop `for _, tx := range block.Transactions` (451-490). -/
def txLoop : List Transaction → Totals → BlockLocals → Option (Totals × BlockLocals)
  | [], t, l => some (t, l)
  | tx :: rest, t, l =>
    match txStep t l tx with
    | none => none
    | some (t1, l1) => txLoop rest t1 l1

/-- The transaction analysis of one block (446-495). -/
def analyzeTransactions (txs : List Transaction) (t : Totals) : Option Totals :=
  if txs.length > 0 then
    match txLoop txs t { contractCallCount := 0, simpleTransferCount := 0, uniqueAddrs := [] } with
    | none => none
    | some (t1, l) =>
      some { t1 with
        totalContractCallsCount := t1.totalContractCallsCount + l.contractCallCount
        totalSimpleTransfersCount := t1.totalSimpleTransfersCount + l.simpleTransferCount
        totalUniqueAddresses := t1.totalUniqueAddresses + l.uniqueAddrs.length }
  else some t

/-- The current-block gauges, set for `i == 0` (421-433). -/
def setCurrentBlock (m : Metrics) (gasUsed gasLimit timestamp size txCount : Nat) : Metrics :=
  let m1 : Metrics := { m with
    currentBlockGasUsed := (gasUsed : ℚ)
    currentBlockGasLimit := (gasLimit : ℚ)
    currentBlockSize := (size : ℚ)
    currentBlockTransactionCount := (txCount : ℚ) }
  let m2 : Metrics :=
    if gasLimit > 0 then
      { m1 with currentBlockGasUtilization := (gasUsed : ℚ) / (gasLimit : ℚ) * 100 }
    else m1
  { m2 with lastBlockTimestamp := (timestamp : ℚ) }

/-- The accumulation of a decoded block into the totals (435-495). -/
def accumulate (gasUsed gasLimit : Nat) (txs : List Transaction) (t : Totals) : Option Totals :=
  analyzeTransactions txs
    { t with
      totalGasUsed := add64 t.totalGasUsed gasUsed
      totalGasLimit := add64 t.totalGasLimit gasLimit
      totalTxs := t.totalTxs + txs.length }

/-- The body of the window loop after a successful fetch (413-495): `none`
when a `hexToUint64` panics. -/
def processBlock (i : Nat) (block : Block) (m : Metrics) (t : Totals) :
    Option (Metrics × Totals) :=
  match hexToUint64 block.GasUsed with
  | none => none
  | some gasUsed =>
  match hexToUint64 block.GasLimit with
  | none => none
  | some gasLimit =>
  match hexToUint64 block.Timestamp with
  | none => none
  | some timestamp =>
  match hexToUint64 block.Size with
  | none => none
  | some size =>
  let m1 := if i = 0 then
      setCurrentBlock m gasUsed gasLimit timestamp size block.Transactions.length
    else m
  match accumulate gasUsed gasLimit block.Transactions t with
  | none => none
  | some t1 => some (m1, t1)

/-- One iteration of the window loop (394-496): a failed fetch is skipped. -/
def loopBody (c : Node) (currentBlock : Nat) (i : Nat) (m : Metrics) (t : Totals) :
    Option (Metrics × Totals) :=
  let blockNum := sub64 currentBlock (i % 2 ^ 64)
  let blockHex := sprintf0x blockNum
  match GetBlock c blockHex true m with
  | Call.panic => none
  | Call.fail m1 _ => some (m1, t)
  | Call.done m1 block => processBlock i block m1 t

/-- The window loop over the given values of `i` (394-496). -/
def windowLoop (c : Node) (currentBlock : Nat) :
    List Nat → Metrics → Totals → Option (Metrics × Totals)
  | [], m, t => some (m, t)
  | i :: rest, m, t =>
    match loopBody c currentBlock i m t with
    | none => none
    | some (m1, t1) => windowLoop c currentBlock rest m1 t1

/-- The aggregated gauges (498-520).  The loop over the map sets the series
of exactly the keys of the map; `float64(totalValue)` is `roundToFloat64`. -/
def setAggregated (blocksToAnalyze : Nat) (m : Metrics) (t : Totals) : Metrics :=
  let m1 : Metrics :=
    if blocksToAnalyze > 0 then
      let a : Metrics := { m with
        avgTransactionsPerBlock := (t.totalTxs : ℚ) / (blocksToAnalyze : ℚ) }
      let b : Metrics :=
        if t.totalGasLimit > 0 then
          { a with avgGasUtilization := (t.totalGasUsed : ℚ) / (t.totalGasLimit : ℚ) * 100 }
        else a
      let d : Metrics :=
        if t.totalGasPriceCount > 0 then
          { b with avgGasPriceWei := (t.totalGasPrice : ℚ) / (t.totalGasPriceCount : ℚ) }
        else b
      { d with
        avgUniqueAddressesPerBlock := (t.totalUniqueAddresses : ℚ) / (blocksToAnalyze : ℚ) }
    else m
  { m1 with
    totalContractCalls := (t.totalContractCallsCount : ℚ)
    totalSimpleTransfers := (t.totalSimpleTransfersCount : ℚ)
    totalValueTransferredWei := ((roundToFloat64 t.totalValue : Nat) : ℚ)
    transactionTypes := fun k =>
      match t.txTypeCountTotal k with
      | some count => some (count : ℚ)
      | none => m1.transactionTypes k }

/-- The gauges set from the two timestamps (551-566). -/
def setBlockTime (blocksToAnalyze : Nat) (m : Metrics) (totalTxs : Nat)
    (firstTimestamp currentTimestamp : Nat) : Metrics :=
  if currentTimestamp > firstTimestamp then
    let totalTime : ℚ := ((sub64 currentTimestamp firstTimestamp : Nat) : ℚ)
    let avgBlockTimeValue : ℚ := totalTime / ((blocksToAnalyze - 1 : Nat) : ℚ)
    let m1 : Metrics := { m with avgBlockTime := avgBlockTimeValue }
    if avgBlockTimeValue > 0 then
      let avgTxsPerBlock : ℚ := (totalTxs : ℚ) / (blocksToAnalyze : ℚ)
      { m1 with transactionsPerSecond := avgTxsPerBlock / avgBlockTimeValue }
    else m1
  else m

/-- A timestamp-only block request (529-537, 541-549): `none` is a panic of
`hexToUint64`; otherwise the registry and the timestamp if there is one. -/
def fetchTimestamp (c : Node) (blockHex : GoString) (m : Metrics) :
    Option (Metrics × Option Nat) :=
  match c.eth_getBlockByNumber blockHex false with
  | BlockReply.failure _ => some (countError m (str "eth_getBlockByNumber"), none)
  | BlockReply.undecodable _ => some (m, none)
  | BlockReply.block b =>
    match hexToUint64 b.Timestamp with
    | none => none
    | some ts => some (m, some ts)

/-- The block time and TPS computation (522-573). -/
def blockTimePhase (blocksToAnalyze : Nat) (c : Node) (currentBlock : Nat) (totalTxs : Nat)
    (m : Metrics) : Option Metrics :=
  if blocksToAnalyze > 1 then
    let firstBlockNum := sub64 currentBlock ((blocksToAnalyze - 1) % 2 ^ 64)
    match fetchTimestamp c (sprintf0x firstBlockNum) m with
    | none => none
    | some (m1, none) => some m1
    | some (m1, some firstTimestamp) =>
      match fetchTimestamp c (sprintf0x currentBlock) m1 with
      | none => none
      | some (m2, none) => some m2
      | some (m2, some currentTimestamp) =>
        some (setBlockTime blocksToAnalyze m2 totalTxs firstTimestamp currentTimestamp)
  else some m

/-- The first part of `CollectMetrics` (349-382): chain information, head
block number and gas prices.  It yields the head block number. -/
def chainPhase (c : Node) (m : Metrics) : Call Nat :=
  match GetChainID c m with
  | Call.panic => Call.panic
  | Call.fail m1 err => Call.fail m1 (Error.wrap (str "failed to get chain ID") err)
  | Call.done m1 chainID =>
  match GetClientVersion c m1 with
  | Call.panic => Call.panic
  | Call.fail m2 err => Call.fail m2 (Error.wrap (str "failed to get client version") err)
  | Call.done m2 clientVersion =>
  match hexToUint64 chainID with
  | none => Call.panic
  | some chainIDDecimal =>
  let m3 : Metrics := { m2 with
    chainInfo := fun a b d =>
      if a = sprintfD chainIDDecimal ∧ b = clientVersion ∧ d = str "monad-testnet" then some 1
      else m2.chainInfo a b d }
  match GetBlockNumber c m3 with
  | Call.panic => Call.panic
  | Call.fail m4 err => Call.fail m4 (Error.wrap (str "failed to get current block") err)
  | Call.done m4 currentBlock =>
  let m5 : Metrics := { m4 with currentBlockNumber := (currentBlock : ℚ) }
  match GetGasPrice c m5 with
  | Call.panic => Call.panic
  | Call.fail m6 err => Call.fail m6 (Error.wrap (str "failed to get gas price") err)
  | Call.done m6 currentGasPrice =>
  let m7 : Metrics := { m6 with
    gasPrice := (currentGasPrice : ℚ)
    gasPriceGwei := (currentGasPrice : ℚ) / 1000000000 }
  match GetMaxPriorityFeePerGas c m7 with
  | Call.panic => Call.panic
  | Call.fail m8 _ => Call.done m8 currentBlock
  | Call.done m8 maxPriorityFee =>
    Call.done { m8 with maxPriorityFeePerGas := (maxPriorityFee : ℚ) } currentBlock

/-- The second part of `CollectMetrics` (384-573): the window loop, the
aggregated gauges and the block time.  `none` is a panic. -/
def windowPhase (blocksToAnalyze : Nat) (c : Node) (currentBlock : Nat) (m : Metrics) :
    Option Metrics :=
  match windowLoop c currentBlock (List.range blocksToAnalyze) m {} with
  | none => none
  | some (m1, t) =>
    blockTimePhase blocksToAnalyze c currentBlock t.totalTxs
      (setAggregated blocksToAnalyze m1 t)

/-- The result of a collection cycle: a panic, or the registry left behind
and the returned error (`none` for `nil`). -/
inductive Result where
  | panic
  | returned (m : Metrics) (err : Option Error)

/-- Method `CollectMetrics` (343-576), with the constant `blocksToAnalyze`
(5 in the source) as a parameter. -/
def CollectMetrics (blocksToAnalyze : Nat) (c : Node) (m : Metrics) : Result :=
  match chainPhase c m with
  | Call.panic => Result.panic
  | Call.fail m1 err => Result.returned m1 (some err)
  | Call.done m1 currentBlock =>
    match windowPhase blocksToAnalyze c currentBlock m1 with
    | none => Result.panic
    | some m2 => Result.returned m2 none

/-- Method `CollectMetrics` with its deferred call (343-347): the outcome of the
body, and the collection-time gauge after the call.  The deferred function
runs on every way out of the body, a panic included, and sets the gauge to the
wall-clock time `elapsed` that the cycle took, whatever the gauge held before.
The latency histogram, to which `makeRequest` adds the duration of every
request (234-237), is not modelled. -/
def CollectMetricsTimed (blocksToAnalyze : Nat) (c : Node) (m : Metrics) (elapsed : ℚ) :
    Result × ℚ :=
  (CollectMetrics blocksToAnalyze c m, elapsed)

/-! ## Reference notions used to state the claims -/

/-- A byte is a hexadecimal digit: `0-9`, `a-f` or `A-F`. -/
def isHexDigit (c : Nat) : Prop :=
  (48 ≤ c ∧ c ≤ 57) ∨ (97 ≤ c ∧ c ≤ 102) ∨ (65 ≤ c ∧ c ≤ 70)

instance (c : Nat) : Decidable (isHexDigit c) := by
  unfold isHexDigit; infer_instance

/-- A byte is a lowercase hexadecimal digit: `0-9` or `a-f`. -/
def isLowerHexDigit (c : Nat) : Prop := (48 ≤ c ∧ c ≤ 57) ∨ (97 ≤ c ∧ c ≤ 102)

instance (c : Nat) : Decidable (isLowerHexDigit c) := by
  unfold isLowerHexDigit; infer_instance

/-- The numeric value of a hexadecimal digit byte (0 for any other byte). -/
def hexDigitValue (c : Nat) : Nat :=
  if 48 ≤ c ∧ c ≤ 57 then c - 48
  else if 97 ≤ c ∧ c ≤ 102 then c - 87
  else if 65 ≤ c ∧ c ≤ 70 then c - 55
  else 0

/-- The base-16 value of a digit string read after the value `n`. -/
def hexValueFrom (n : Nat) (ds : GoString) : Nat :=
  ds.foldl (fun a c => a * 16 + hexDigitValue c) n

/-- The base-16 value of a string of hexadecimal digits. -/
def hexValue (ds : GoString) : Nat := hexValueFrom 0 ds

/-- What the loop body does to the totals for a fetched block, the registry
left aside (414-418, 435-495). -/
def accumulateBlock (block : Block) (t : Totals) : Option Totals :=
  match hexToUint64 block.GasUsed with
  | none => none
  | some gasUsed =>
  match hexToUint64 block.GasLimit with
  | none => none
  | some gasLimit =>
  match hexToUint64 block.Timestamp with
  | none => none
  | some _ =>
  match hexToUint64 block.Size with
  | none => none
  | some _ => accumulate gasUsed gasLimit block.Transactions t

/-- The totals folded from a list of fetched blocks, in order. -/
def foldBlocks : List Block → Totals → Option Totals
  | [], t => some t
  | b :: rest, t =>
    match accumulateBlock b t with
    | none => none
    | some t1 => foldBlocks rest t1

/-- The block fetched for the value `i` of the loop variable, if the fetch
succeeds. -/
def fetched (c : Node) (currentBlock : Nat) (i : Nat) : Option Block :=
  match c.eth_getBlockByNumber (sprintf0x (sub64 currentBlock (i % 2 ^ 64))) true with
  | BlockReply.block b => some b
  | _ => none

/-- The decoded value of a quantity field (0 where `hexToUint64` panics). -/
def quantity (s : GoString) : Nat := (hexToUint64 s).getD 0

/-- No quantity field read from the transaction has exactly one byte. -/
def Transaction.wellFormed (tx : Transaction) : Prop :=
  tx.GasPrice.length ≠ 1 ∧ tx.MaxFeePerGas.length ≠ 1 ∧ tx.Value.length ≠ 1 ∧
  tx.Type_.length ≠ 1

/-- No quantity field read from the block or its transactions has exactly
one byte. -/
def Block.wellFormed (b : Block) : Prop :=
  b.GasUsed.length ≠ 1 ∧ b.GasLimit.length ≠ 1 ∧ b.Timestamp.length ≠ 1 ∧
  b.Size.length ≠ 1 ∧ ∀ tx ∈ b.Transactions, tx.wellFormed

/-- The gauges set from the window fold agree in the two registries. -/
def sameAggregates (m m1 : Metrics) : Prop :=
  m1.avgTransactionsPerBlock = m.avgTransactionsPerBlock ∧
  m1.avgGasUtilization = m.avgGasUtilization ∧
  m1.avgGasPriceWei = m.avgGasPriceWei ∧
  m1.avgUniqueAddressesPerBlock = m.avgUniqueAddressesPerBlock ∧
  m1.totalContractCalls = m.totalContractCalls ∧
  m1.totalSimpleTransfers = m.totalSimpleTransfers ∧
  m1.totalValueTransferredWei = m.totalValueTransferredWei ∧
  m1.transactionTypes = m.transactionTypes

instance (tx : Transaction) : Decidable tx.wellFormed := by
  unfold Transaction.wellFormed; infer_instance

instance (b : Block) : Decidable b.wellFormed := by
  unfold Block.wellFormed; infer_instance

/-- The four kinds of the transaction type analysis. -/
def kinds : List GoString := [str "legacy", str "eip2930", str "eip1559", str "unknown"]

/-- The kind that the switch of lines 471-480 gives to a type code. -/
def kindOfCode (v : Nat) : GoString :=
  if v = 0 then str "legacy" else if v = 1 then str "eip2930"
  else if v = 2 then str "eip1559" else str "unknown"

/-! ## Scenarios -/

/-- A transaction of scenario C: gas price zero, fee cap one gwei. -/
def txC : Transaction :=
  { From := str "0xaa", To := str "0xbb", Value := str "0x0", GasPrice := str "0x0",
    MaxFeePerGas := str "0x3b9aca00", Input := str "0xa9059cbb", Type_ := str "0x2" }

/-- A plain transfer used in the scenarios. -/
def txA : Transaction :=
  { From := str "0xaa", To := str "0xbb", Value := str "0x1", GasPrice := str "0x3b9aca00",
    Input := str "0x", Type_ := str "0x0" }

/-- The blocks served in the scenarios, by loop index.  Indices 0, 1 and 2 are
the blocks of scenario A: blocks 100, 99 and 98 with 2, 0 and 1 transactions
and gas used/limit 50/100, 0/100 and 25/100.  Indices 3 and 4 are blocks 97
and 96, empty, with gas used/limit 100/300 and 0/100. -/
def blkA (i : Nat) : Block :=
  if i = 0 then
    { Number := str "0x64", GasUsed := str "0x32", GasLimit := str "0x64",
      Timestamp := str "0x406", Transactions := [txA, txA] }
  else if i = 1 then
    { Number := str "0x63", GasUsed := str "0x0", GasLimit := str "0x64",
      Timestamp := str "0x405" }
  else if i = 2 then
    { Number := str "0x62", GasUsed := str "0x19", GasLimit := str "0x64",
      Timestamp := str "0x404", Transactions := [txA] }
  else if i = 3 then
    { Number := str "0x61", GasUsed := str "0x64", GasLimit := str "0x12c",
      Timestamp := str "0x403" }
  else
    { Number := str "0x60", GasUsed := str "0x0", GasLimit := str "0x64",
      Timestamp := str "0x402" }

/-- The node of scenario A: head block 100, every block from 96 to 100
fetches. -/
def nodeA : Node where
  eth_chainId := Reply.result (JSONValue.string (str "0x279f"))
  web3_clientVersion := Reply.result (JSONValue.string (str "monad/1.0"))
  eth_blockNumber := Reply.result (JSONValue.string (str "0x64"))
  eth_gasPrice := Reply.result (JSONValue.string (str "0x3b9aca00"))
  eth_maxPriorityFeePerGas := Reply.result (JSONValue.string (str "0x1"))
  eth_getBlockByNumber := fun hex _ =>
    if hex = str "0x64" then BlockReply.block (blkA 0)
    else if hex = str "0x63" then BlockReply.block (blkA 1)
    else if hex = str "0x62" then BlockReply.block (blkA 2)
    else if hex = str "0x61" then BlockReply.block (blkA 3)
    else if hex = str "0x60" then BlockReply.block (blkA 4)
    else BlockReply.failure (str "not found")

/-- The node of scenario B: as scenario A, but the fetch of block 99 with its
transactions is throttled. -/
def nodeB : Node :=
  { nodeA with
    eth_getBlockByNumber := fun hex fullTx =>
      if hex = str "0x63" ∧ fullTx = true then BlockReply.failure (str "Too many request")
      else nodeA.eth_getBlockByNumber hex fullTx }

/-! ## Reference notions for the cycle-level claims -/

/-- The gauges that only the window phase sets agree in the two registries. -/
def sameWindowGauges (m m1 : Metrics) : Prop :=
  m1.avgBlockTime = m.avgBlockTime ∧
  m1.avgTransactionsPerBlock = m.avgTransactionsPerBlock ∧
  m1.avgGasUtilization = m.avgGasUtilization ∧
  m1.avgGasPriceWei = m.avgGasPriceWei ∧
  m1.transactionTypes = m.transactionTypes ∧
  m1.totalContractCalls = m.totalContractCalls ∧
  m1.totalSimpleTransfers = m.totalSimpleTransfers ∧
  m1.avgUniqueAddressesPerBlock = m.avgUniqueAddressesPerBlock ∧
  m1.totalValueTransferredWei = m.totalValueTransferredWei ∧
  m1.transactionsPerSecond = m.transactionsPerSecond

/-- The twenty series of chain data agree in the two registries: every gauge
of the registry except the chain-info series and the collection-time gauge,
which every cycle sets (`CollectMetricsTimed`).  The error counters and the
latency histogram are not among them either. -/
def sameDataGauges (m m1 : Metrics) : Prop :=
  m1.currentBlockNumber = m.currentBlockNumber ∧
  m1.gasPrice = m.gasPrice ∧
  m1.gasPriceGwei = m.gasPriceGwei ∧
  m1.maxPriorityFeePerGas = m.maxPriorityFeePerGas ∧
  m1.currentBlockGasUsed = m.currentBlockGasUsed ∧
  m1.currentBlockGasLimit = m.currentBlockGasLimit ∧
  m1.currentBlockGasUtilization = m.currentBlockGasUtilization ∧
  m1.currentBlockSize = m.currentBlockSize ∧
  m1.currentBlockTransactionCount = m.currentBlockTransactionCount ∧
  m1.lastBlockTimestamp = m.lastBlockTimestamp ∧
  sameWindowGauges m m1

/-- The timestamp read by a timestamp-only request for a block, when the
request succeeds and the field decodes. -/
def timestampOf (c : Node) (blockHex : GoString) : Option Nat :=
  match c.eth_getBlockByNumber blockHex false with
  | BlockReply.block b => hexToUint64 b.Timestamp
  | _ => none

/-- The addresses of a list of transactions: every `from` field and every
non-empty `to` field. -/
def addressesOf (txs : List Transaction) : List GoString :=
  txs.flatMap (fun tx => if tx.To ≠ str "" then [tx.From, tx.To] else [tx.From])

/-- The number of distinct addresses of a list of transactions. -/
def uniqueAddressCount (txs : List Transaction) : Nat := (addressesOf txs).dedup.length

/-- A registry as an earlier cycle could have left it. -/
def prevMetrics : Metrics :=
  { avgGasUtilization := 42, avgBlockTime := 2, transactionsPerSecond := 3,
    transactionTypes := fun k => if k = str "eip1559" then some 7 else none }

/-- A node that fails to resolve the head block number. -/
def nodeH : Node := { nodeA with eth_blockNumber := Reply.failure (str "connection refused") }

/-- A node whose block requests all fail. -/
def nodeF : Node :=
  { nodeA with eth_getBlockByNumber := fun _ _ => BlockReply.failure (str "Too many request") }

/-- A node whose gas price is the bare "0x". -/
def nodeG : Node := { nodeA with eth_gasPrice := Reply.result (JSONValue.string (str "0x")) }

/-- The blocks of scenario D by loop index: blocks 100 to 97 with 3, 2, 2 and 1
transactions; block 100 has timestamp 1030 and block 97 timestamp 1000. -/
def blkD (i : Nat) : Block :=
  if i = 0 then
    { Number := str "0x64", GasUsed := str "0x32", GasLimit := str "0x64",
      Timestamp := str "0x406", Transactions := [txA, txA, txA] }
  else if i = 1 then
    { Number := str "0x63", GasUsed := str "0x0", GasLimit := str "0x64",
      Timestamp := str "0x3fc", Transactions := [txA, txA] }
  else if i = 2 then
    { Number := str "0x62", GasUsed := str "0x19", GasLimit := str "0x64",
      Timestamp := str "0x3f2", Transactions := [txA, txC] }
  else
    { Number := str "0x61", GasUsed := str "0x0", GasLimit := str "0x64",
      Timestamp := str "0x3e8", Transactions := [txC] }

/-- The node of scenario D: head block 100, window of 4. -/
def nodeD : Node :=
  { nodeA with
    eth_getBlockByNumber := fun hex _ =>
      if hex = str "0x64" then BlockReply.block (blkD 0)
      else if hex = str "0x63" then BlockReply.block (blkD 1)
      else if hex = str "0x62" then BlockReply.block (blkD 2)
      else if hex = str "0x61" then BlockReply.block (blkD 3)
      else BlockReply.failure (str "not found") }

/-- The registry of main.go.  The series that both files declare under the
same variable (`currentBlockNumber`, `gasPrice`, `gasPriceGwei`,
`maxPriorityFeePerGas`, `transactionsPerSecond`, `rpcErrors`,
`lastBlockTimestamp`, `chainInfo`) are those of `base`, whose other fields
main.go does not have and never touches.  A series with the label
`block_number` is a function of the label value, `none` until it is set. -/
structure PerBlockMetrics where
  base : Metrics := {}
  blockTime : ℚ := 0
  blockGasUsed : GoString → Option ℚ := fun _ => none
  blockGasLimit : GoString → Option ℚ := fun _ => none
  blockGasUtilization : GoString → Option ℚ := fun _ => none
  blockSize : GoString → Option ℚ := fun _ => none
  blockTransactionCount : GoString → Option ℚ := fun _ => none
  transactionTypes : GoString → GoString → Option ℚ := fun _ _ => none
  contractCalls : GoString → Option ℚ := fun _ => none
  simpleTransfers : GoString → Option ℚ := fun _ => none
  uniqueAddresses : GoString → Option ℚ := fun _ => none
  totalValueTransferred : GoString → Option ℚ := fun _ => none
  avgGasPrice : GoString → Option ℚ := fun _ => none
  maxGasPrice : GoString → Option ℚ := fun _ => none
  minGasPrice : GoString → Option ℚ := fun _ => none

/-- The statement `vec.WithLabelValues(label).Set(v)`. -/
def setLabel (vec : GoString → Option ℚ) (label : GoString) (v : ℚ) : GoString → Option ℚ :=
  fun k => if k = label then some v else vec k

/-- The per-block locals of the transaction analysis of main.go (438-442). -/
structure BlockStats where
  totalGasPrice : Nat := 0
  totalValue : Nat := 0
  maxGas : Nat := 0
  minGas : Nat := 0
  contractCallCount : Nat := 0
  simpleTransferCount : Nat := 0
  uniqueAddrs : List GoString := []
  txTypeCount : GoString → Option Nat := fun _ => none

/-- One iteration of the loop over the transactions of a block in main.go
(444-489), `j` being the index of the transaction. -/
def blockTxStep (j : Nat) (s : BlockStats) (tx : Transaction) : Option BlockStats :=
  match hexToUint64 tx.GasPrice with
  | none => none
  | some gasPrice0 =>
  match (if gasPrice0 = 0 then hexToUint64 tx.MaxFeePerGas else some gasPrice0) with
  | none => none
  | some txGasPrice =>
  let maxGas := if j = 0 ∨ txGasPrice > s.maxGas then txGasPrice else s.maxGas
  let minGas := if j = 0 ∨ txGasPrice < s.minGas then txGasPrice else s.minGas
  match hexToUint64 tx.Value with
  | none => none
  | some value =>
  let uniqueAddrs := List.insert tx.From s.uniqueAddrs
  let uniqueAddrs := if tx.To ≠ str "" then List.insert tx.To uniqueAddrs else uniqueAddrs
  match txTypeOf tx with
  | none => none
  | some txType =>
  some
    { totalGasPrice := add64 s.totalGasPrice txGasPrice
      totalValue := add64 s.totalValue value
      maxGas := maxGas
      minGas := minGas
      contractCallCount := if isContractCall tx then s.contractCallCount + 1
                           else s.contractCallCount
      simpleTransferCount := if isContractCall tx then s.simpleTransferCount
                             else s.simpleTransferCount + 1
      uniqueAddrs := uniqueAddrs
      txTypeCount := incrCount s.txTypeCount txType }

/-- The loop `for j, tx := range block.Transactions` of main.go (444-489),
from index `j` on. -/
def blockTxLoop : Nat → List Transaction → BlockStats → Option BlockStats
  | _, [], s => some s
  | j, tx :: rest, s =>
    match blockTxStep j s tx with
    | none => none
    | some s1 => blockTxLoop (j + 1) rest s1

/-- The gauges set after the loop (491-503); `totalGasPrice / uint64(txCount)`
is a division of `uint64`, and `float64(totalValue)` is `roundToFloat64`. -/
def publishBlockStats (blockNumStr : GoString) (txCount : Nat) (s : BlockStats)
    (pm : PerBlockMetrics) : PerBlockMetrics :=
  { pm with
    avgGasPrice := setLabel pm.avgGasPrice blockNumStr
      ((s.totalGasPrice / (txCount % 2 ^ 64) : Nat) : ℚ)
    maxGasPrice := setLabel pm.maxGasPrice blockNumStr (s.maxGas : ℚ)
    minGasPrice := setLabel pm.minGasPrice blockNumStr (s.minGas : ℚ)
    contractCalls := setLabel pm.contractCalls blockNumStr (s.contractCallCount : ℚ)
    simpleTransfers := setLabel pm.simpleTransfers blockNumStr (s.simpleTransferCount : ℚ)
    uniqueAddresses := setLabel pm.uniqueAddresses blockNumStr (s.uniqueAddrs.length : ℚ)
    totalValueTransferred := setLabel pm.totalValueTransferred blockNumStr
      ((roundToFloat64 s.totalValue : Nat) : ℚ)
    transactionTypes := fun txType k =>
      match s.txTypeCount txType with
      | some count => if k = blockNumStr then some (count : ℚ) else pm.transactionTypes txType k
      | none => pm.transactionTypes txType k }

/-- The transaction analysis of one block in main.go (436-504): `none` when a
`hexToUint64` panics. -/
def analyzeBlock (blockNumStr : GoString) (txs : List Transaction) (pm : PerBlockMetrics) :
    Option PerBlockMetrics :=
  if txs.length > 0 then
    match blockTxLoop 0 txs {} with
    | none => none
    | some s => some (publishBlockStats blockNumStr txs.length s pm)
  else some pm

/-- The locals of the window loop of main.go (383-384). -/
structure PerBlockState where
  pm : PerBlockMetrics
  blockTimes : List ℚ := []
  totalTxs : Nat := 0

/-- The block time of index `i > 0` (420-432): the block before in the loop
is fetched again, without transactions. -/
def blockTimeStep (c : Node) (currentBlock i timestamp : Nat) (st : PerBlockState) :
    Option PerBlockState :=
  if i > 0 then
    let prevBlockNum := sub64 currentBlock ((i - 1) % 2 ^ 64)
    match GetBlock c (sprintf0x prevBlockNum) false st.pm.base with
    | Call.panic => none
    | Call.fail base1 _ => some { st with pm := { st.pm with base := base1 } }
    | Call.done base1 prevBlock =>
      match hexToUint64 prevBlock.Timestamp with
      | none => none
      | some prevTimestamp =>
        let st1 : PerBlockState := { st with pm := { st.pm with base := base1 } }
        if timestamp < prevTimestamp then
          some { st1 with
            blockTimes := st1.blockTimes ++ [((sub64 prevTimestamp timestamp : Nat) : ℚ)] }
        else some st1
  else some st

/-- The body of the window loop of main.go after a successful fetch (396-504). -/
def processBlockPB (c : Node) (currentBlock i : Nat) (block : Block) (st : PerBlockState) :
    Option PerBlockState :=
  let blockNumStr := sprintfD (sub64 currentBlock (i % 2 ^ 64))
  match hexToUint64 block.GasUsed with
  | none => none
  | some gasUsed =>
  match hexToUint64 block.GasLimit with
  | none => none
  | some gasLimit =>
  match hexToUint64 block.Timestamp with
  | none => none
  | some timestamp =>
  match hexToUint64 block.Size with
  | none => none
  | some size =>
  let pm1 : PerBlockMetrics := { st.pm with
    blockGasUsed := setLabel st.pm.blockGasUsed blockNumStr (gasUsed : ℚ)
    blockGasLimit := setLabel st.pm.blockGasLimit blockNumStr (gasLimit : ℚ)
    blockSize := setLabel st.pm.blockSize blockNumStr (size : ℚ)
    blockTransactionCount :=
      setLabel st.pm.blockTransactionCount blockNumStr (block.Transactions.length : ℚ) }
  let pm2 : PerBlockMetrics :=
    if gasLimit > 0 then
      { pm1 with
        blockGasUtilization :=
          setLabel pm1.blockGasUtilization blockNumStr ((gasUsed : ℚ) / (gasLimit : ℚ) * 100) }
    else pm1
  let pm3 : PerBlockMetrics :=
    if i = 0 then { pm2 with base := { pm2.base with lastBlockTimestamp := (timestamp : ℚ) } }
    else pm2
  match blockTimeStep c currentBlock i timestamp { st with pm := pm3 } with
  | none => none
  | some st1 =>
    match analyzeBlock blockNumStr block.Transactions st1.pm with
    | none => none
    | some pm4 =>
      some { st1 with pm := pm4, totalTxs := st1.totalTxs + block.Transactions.length }

/-- One iteration of the window loop of main.go (386-505). -/
def loopBodyPB (c : Node) (currentBlock i : Nat) (st : PerBlockState) : Option PerBlockState :=
  match GetBlock c (sprintf0x (sub64 currentBlock (i % 2 ^ 64))) true st.pm.base with
  | Call.panic => none
  | Call.fail base1 _ => some { st with pm := { st.pm with base := base1 } }
  | Call.done base1 block =>
    processBlockPB c currentBlock i block { st with pm := { st.pm with base := base1 } }

/-- The window loop of main.go over the given values of `i` (386-505). -/
def windowLoopPB (c : Node) (currentBlock : Nat) : List Nat → PerBlockState → Option PerBlockState
  | [], st => some st
  | i :: rest, st =>
    match loopBodyPB c currentBlock i st with
    | none => none
    | some st1 => windowLoopPB c currentBlock rest st1

/-- The average block time and TPS of main.go (507-522). -/
def setBlockTimePB (blocksToAnalyze : Nat) (st : PerBlockState) : PerBlockMetrics :=
  if st.blockTimes.length > 0 then
    let avgBlockTime : ℚ := st.blockTimes.sum / (st.blockTimes.length : ℚ)
    let pm1 : PerBlockMetrics := { st.pm with blockTime := avgBlockTime }
    if avgBlockTime > 0 then
      { pm1 with
        base := { pm1.base with
          transactionsPerSecond :=
            ((st.totalTxs : ℚ) / (blocksToAnalyze : ℚ)) / avgBlockTime } }
    else pm1
  else st.pm

/-- The result of a cycle of main.go. -/
inductive PerBlockResult where
  | panic
  | returned (pm : PerBlockMetrics) (err : Option Error)

/-- Method `CollectMetrics` of main.go (340-525), with the constant
`blocksToAnalyze` (10 in the source) as a parameter.  Lines 346-379 are those
of the chain phase of the exporter. -/
def CollectMetricsPB (blocksToAnalyze : Nat) (c : Node) (pm : PerBlockMetrics) :
    PerBlockResult :=
  match chainPhase c pm.base with
  | Call.panic => PerBlockResult.panic
  | Call.fail base1 err => PerBlockResult.returned { pm with base := base1 } (some err)
  | Call.done base1 currentBlock =>
    match windowLoopPB c currentBlock (List.range blocksToAnalyze)
        { pm := { pm with base := base1 } } with
    | none => PerBlockResult.panic
    | some st => PerBlockResult.returned (setBlockTimePB blocksToAnalyze st) none

/-- The gas price a transaction is counted with: its decoded `gasPrice`, or
its decoded `maxFeePerGas` when the former is 0. -/
def effectiveGasPrice (tx : Transaction) : Nat :=
  if quantity tx.GasPrice = 0 then quantity tx.MaxFeePerGas else quantity tx.GasPrice

/-- Two transfers with gas prices 1 and 2 wei. -/
def txsOddSum : List Transaction :=
  [{ From := str "0xaa", To := str "0xbb", Value := str "0x1", GasPrice := str "0x1",
     Input := str "0x", Type_ := str "0x0" },
   { From := str "0xaa", To := str "0xbb", Value := str "0x1", GasPrice := str "0x2",
     Input := str "0x", Type_ := str "0x0" }]

/-- A block holding the two transactions of `txsOddSum`. -/
def blockOdd : Block :=
  { Number := str "0x64", GasUsed := str "0x32", GasLimit := str "0x64",
    Timestamp := str "0x406", Size := str "0x200", Transactions := txsOddSum }

/-- A node whose head block 100 is `blockOdd`; the older blocks are not
served. -/
def nodeOdd : Node :=
  { nodeA with
    eth_getBlockByNumber := fun hex _ =>
      if hex = str "0x64" then BlockReply.block blockOdd
      else BlockReply.failure (str "not found") }

/-! ## Reference notions for the block times of the two exporters -/

/-- The mean of the `N - 1` differences between the timestamps of adjacent
blocks of a window, `ts i` being the timestamp of the block of loop index `i`
(block `head - i`, so the younger block of a pair comes first). -/
def meanAdjacentDifference (ts : Nat → Nat) (N : Nat) : ℚ :=
  ((List.range (N - 1)).map (fun i => (ts i : ℚ) - (ts (i + 1) : ℚ))).sum /
    ((N - 1 : Nat) : ℚ)

/-- The head timestamp minus the oldest timestamp of a window, over `N - 1`. -/
def endToEndAverage (ts : Nat → Nat) (N : Nat) : ℚ :=
  ((ts 0 : ℚ) - (ts (N - 1) : ℚ)) / ((N - 1 : Nat) : ℚ)

/-- A well-behaved window of `N` blocks below the head: the block of every
loop index `i < N` is served, with the same timestamp field on the request
with and on the request without transactions; the timestamp fields decode
(none has exactly one byte); and the timestamps strictly increase with the
block number, that is, strictly decrease with the loop index. -/
def wellBehavedWindow (c : Node) (head N : Nat) (blk : Nat → Block) : Prop :=
  (∀ i, i < N → c.eth_getBlockByNumber (sprintf0x (sub64 head (i % 2 ^ 64))) true =
    BlockReply.block (blk i)) ∧
  (∀ i, i < N → ∃ b, c.eth_getBlockByNumber (sprintf0x (sub64 head (i % 2 ^ 64))) false =
    BlockReply.block b ∧ b.Timestamp = (blk i).Timestamp) ∧
  (∀ i, i < N → (blk i).Timestamp.length ≠ 1) ∧
  (∀ i, i + 1 < N → quantity (blk (i + 1)).Timestamp < quantity (blk i).Timestamp)

/-! ## Basic facts -/

theorem str_empty : str "" = [] := by decide

theorem str_0x : str "0x" = [48, 120] := by decide


theorem cutoff_eq : cutoff = 2 ^ 60 := by decide

theorem lower_ge_of_ge (c : Nat) (h : 128 ≤ c) : 128 ≤ lower c := by
  by_contra hlt
  have hlt2 : c ||| 32 < 2 ^ 7 := by unfold lower at hlt; omega
  have hc : c < 2 ^ 7 := by
    apply Nat.lt_pow_two_of_testBit
    intro i hi
    have hpow : 2 ^ 7 ≤ 2 ^ i := Nat.pow_le_pow_right (by decide) hi
    have hb := Nat.testBit_lt_two_pow (lt_of_lt_of_le hlt2 hpow)
    rw [Nat.testBit_or] at hb
    simpa using (Bool.or_eq_false_iff.mp hb).1
  omega

theorem digitOf_small :
    ∀ c, c < 128 →
      (isHexDigit c → digitOf c = some (hexDigitValue c) ∧ hexDigitValue c < 16) ∧
      (¬ isHexDigit c → digitOf c = none ∨ ∃ d, digitOf c = some d ∧ 16 ≤ d) := by
  intro c hc
  interval_cases c <;> simp [isHexDigit, digitOf, hexDigitValue, lower]

theorem digitOf_hex (c : Nat) (h : isHexDigit c) :
    digitOf c = some (hexDigitValue c) ∧ hexDigitValue c < 16 := by
  have hc : c < 128 := by unfold isHexDigit at h; omega
  exact (digitOf_small c hc).1 h

theorem digitOf_nonhex (c : Nat) (h : ¬ isHexDigit c) :
    digitOf c = none ∨ ∃ d, digitOf c = some d ∧ 16 ≤ d := by
  by_cases hc : c < 128
  · exact (digitOf_small c hc).2 h
  · left
    have h1 := lower_ge_of_ge c (by omega)
    unfold digitOf
    rw [if_neg (by omega), if_neg (by omega)]

/-- A byte that is no hexadecimal digit ends the loop with value 0. -/
theorem parseLoop_nonhex (c : Nat) (s : GoString) (n : Nat) (h : ¬ isHexDigit c) :
    parseLoop (c :: s) n = (0, some NumError.ErrSyntax) := by
  rcases digitOf_nonhex c h with h0 | ⟨d, hd, h16⟩
  · simp [parseLoop, h0]
  · simp [parseLoop, hd, h16]

/-- A hexadecimal digit read below the cutoff extends the value. -/
theorem parseLoop_hex (c : Nat) (s : GoString) (n : Nat) (h : isHexDigit c)
    (hn : n < cutoff) : parseLoop (c :: s) n = parseLoop s (n * 16 + hexDigitValue c) := by
  obtain ⟨hd, h16⟩ := digitOf_hex c h
  rw [cutoff_eq] at hn
  have e1 : n * 16 % 2 ^ 64 = n * 16 := Nat.mod_eq_of_lt (by omega)
  have e2 : (n * 16 + hexDigitValue c) % 2 ^ 64 = n * 16 + hexDigitValue c :=
    Nat.mod_eq_of_lt (by omega)
  have h3 : ¬ (cutoff ≤ n) := by rw [cutoff_eq]; omega
  have h4 : ¬ (16 ≤ hexDigitValue c) := by omega
  have h5 : ¬ (n * 16 + hexDigitValue c < n * 16 ∨ maxUint64 < n * 16 + hexDigitValue c) := by
    unfold maxUint64; omega
  rw [parseLoop, hd]
  dsimp only
  rw [if_neg h4, if_neg h3, e1, e2, if_neg h5]

/-- A hexadecimal digit read at or above the cutoff saturates. -/
theorem parseLoop_hex_cutoff (c : Nat) (s : GoString) (n : Nat) (h : isHexDigit c)
    (hn : cutoff ≤ n) : parseLoop (c :: s) n = (maxUint64, some NumError.ErrRange) := by
  obtain ⟨hd, h16⟩ := digitOf_hex c h
  have h4 : ¬ (16 ≤ hexDigitValue c) := by omega
  simp [parseLoop, hd, h4, hn]

theorem hexValueFrom_cons (n c : Nat) (ds : GoString) :
    hexValueFrom n (c :: ds) = hexValueFrom (n * 16 + hexDigitValue c) ds := rfl

theorem hexValueFrom_append (n : Nat) (xs ys : GoString) :
    hexValueFrom n (xs ++ ys) = hexValueFrom (hexValueFrom n xs) ys := by
  simp [hexValueFrom, List.foldl_append]

theorem le_hexValueFrom (ds : GoString) : ∀ n, n ≤ hexValueFrom n ds := by
  induction ds with
  | nil => intro n; exact le_refl _
  | cons c ds ih =>
    intro n
    rw [hexValueFrom_cons]
    have := ih (n * 16 + hexDigitValue c)
    omega

/-- A run of hexadecimal digits whose value fits in 64 bits is read in full. -/
theorem parseLoop_run (ds : GoString) : ∀ (n : Nat) (rest : GoString),
    (∀ c ∈ ds, isHexDigit c) → hexValueFrom n ds < 2 ^ 64 →
    parseLoop (ds ++ rest) n = parseLoop rest (hexValueFrom n ds) := by
  induction ds with
  | nil => intro n rest _ _; rfl
  | cons c ds ih =>
    intro n rest hds hv
    rw [hexValueFrom_cons] at hv
    have hc : isHexDigit c := hds c (List.mem_cons_self _ _)
    have hle := le_hexValueFrom ds (n * 16 + hexDigitValue c)
    have hn : n < cutoff := by rw [cutoff_eq]; omega
    rw [List.cons_append, parseLoop_hex c _ n hc hn, hexValueFrom_cons]
    exact ih _ rest (fun x hx => hds x (List.mem_cons_of_mem _ hx)) hv

/-- A run of hexadecimal digits whose value does not fit in 64 bits saturates,
whatever follows it. -/
theorem parseLoop_overflow (ds : GoString) : ∀ (n : Nat) (rest : GoString),
    (∀ c ∈ ds, isHexDigit c) → n < 2 ^ 64 → 2 ^ 64 ≤ hexValueFrom n ds →
    parseLoop (ds ++ rest) n = (maxUint64, some NumError.ErrRange) := by
  induction ds with
  | nil => intro n rest _ hn hv; simp [hexValueFrom] at hv; omega
  | cons c ds ih =>
    intro n rest hds hn hv
    have hc : isHexDigit c := hds c (List.mem_cons_self _ _)
    by_cases hcut : cutoff ≤ n
    · rw [List.cons_append, parseLoop_hex_cutoff c _ n hc hcut]
    · have hlt : n < cutoff := by omega
      rw [List.cons_append, parseLoop_hex c _ n hc hlt]
      rw [hexValueFrom_cons] at hv
      have h16 := (digitOf_hex c hc).2
      rw [cutoff_eq] at hlt
      exact ih _ rest (fun x hx => hds x (List.mem_cons_of_mem _ hx)) (by omega) hv

theorem ldigits_hex : ∀ d, d < 16 →
    isHexDigit (ldigits.getD d 0) ∧ hexDigitValue (ldigits.getD d 0) = d := by
  decide

/-- Reading back what the digit loop of the verb x wrote. -/
theorem parseLoop_fmtHexLoop (fuel : Nat) : ∀ (u : Nat) (buf : GoString),
    u ≤ fuel → u < 2 ^ 64 → parseLoop (fmtHexLoop fuel u buf) 0 = parseLoop buf u := by
  induction fuel with
  | zero =>
    intro u buf hu _
    have h0 : u = 0 := by omega
    subst h0
    have hd := ldigits_hex 0 (by decide)
    rw [fmtHexLoop, parseLoop_hex _ _ 0 hd.1 (by decide), hd.2]
  | succ fuel ih =>
    intro u buf hu hlt
    rw [fmtHexLoop]
    by_cases h16 : 16 ≤ u
    · rw [if_pos h16, ih (u / 16) _ (by omega) (by omega)]
      have hd := ldigits_hex (u % 16) (Nat.mod_lt _ (by decide))
      have hcut : u / 16 < cutoff := by rw [cutoff_eq]; omega
      rw [parseLoop_hex _ _ _ hd.1 hcut, hd.2]
      congr 1
      omega
    · rw [if_neg h16]
      have hd := ldigits_hex u (by omega)
      rw [parseLoop_hex _ _ 0 hd.1 (by decide), hd.2]
      congr 1
      omega

theorem fmtHexLoop_ne_nil (fuel u : Nat) (buf : GoString) : fmtHexLoop fuel u buf ≠ [] := by
  induction fuel generalizing u buf with
  | zero => simp [fmtHexLoop]
  | succ fuel ih =>
    rw [fmtHexLoop]
    split
    · exact ih _ _
    · simp

/-- What `hexToUint64` returns on a string of two or more bytes: the value
of `ParseUint` on the string without its first two bytes, whatever they are. -/
theorem hexToUint64_cons_cons (a b : Nat) (d : GoString) :
    hexToUint64 (a :: b :: d) = some (ParseUint d).1 := by
  unfold hexToUint64
  by_cases h : a :: b :: d = str "" ∨ a :: b :: d = str "0x"
  · rw [if_pos h]
    rcases h with h | h
    · rw [str_empty] at h; exact absurd h (by simp)
    · rw [str_0x] at h
      have hd : a = 48 ∧ b = 120 ∧ d = [] := by simpa using h
      rw [hd.2.2]
      rfl
  · rw [if_neg h, if_neg (by simp)]
    rfl

theorem hexToUint64_0x_append (d : GoString) :
    hexToUint64 (str "0x" ++ d) = some (ParseUint d).1 := by
  rw [str_0x]
  exact hexToUint64_cons_cons 48 120 d

/-- The only strings on which `hexToUint64` panics are those of one byte. -/
theorem hexToUint64_eq_none_iff (s : GoString) : hexToUint64 s = none ↔ s.length = 1 := by
  match s with
  | [] => simp [hexToUint64, str_empty]
  | [a] =>
    have h : ¬ ([a] = str "" ∨ [a] = str "0x") := by rw [str_empty, str_0x]; simp
    simp [hexToUint64, h]
  | a :: b :: d => simp [hexToUint64_cons_cons]

theorem hexValueFrom_lt (ds : GoString) : ∀ n, (∀ c ∈ ds, isHexDigit c) →
    hexValueFrom n ds < (n + 1) * 16 ^ ds.length := by
  induction ds with
  | nil => intro n _; simp [hexValueFrom]
  | cons c ds ih =>
    intro n hds
    rw [hexValueFrom_cons]
    have h16 := (digitOf_hex c (hds c (List.mem_cons_self _ _))).2
    have h := ih (n * 16 + hexDigitValue c) (fun x hx => hds x (List.mem_cons_of_mem _ hx))
    have hle : (n * 16 + hexDigitValue c + 1) * 16 ^ ds.length ≤ (n + 1) * 16 * 16 ^ ds.length :=
      Nat.mul_le_mul_right _ (by omega)
    calc hexValueFrom (n * 16 + hexDigitValue c) ds
        < (n * 16 + hexDigitValue c + 1) * 16 ^ ds.length := h
      _ ≤ (n + 1) * 16 * 16 ^ ds.length := hle
      _ = (n + 1) * 16 ^ (c :: ds).length := by
          rw [List.length_cons, pow_succ]; ring

theorem hexValue_lt_of_length_le (d : GoString) (hd : ∀ c ∈ d, isHexDigit c)
    (hlen : d.length ≤ 16) : hexValue d < 2 ^ 64 := by
  have h := hexValueFrom_lt d 0 hd
  have hp : 16 ^ d.length ≤ 16 ^ 16 := Nat.pow_le_pow_right (by decide) hlen
  have e : (16 : Nat) ^ 16 = 2 ^ 64 := by norm_num
  unfold hexValue
  omega

/-- The value `ParseUint` returns on a run of hexadecimal digits that fits. -/
theorem ParseUint_hex (d : GoString) (hd : ∀ c ∈ d, isHexDigit c) (hv : hexValue d < 2 ^ 64) :
    (ParseUint d).1 = hexValue d := by
  unfold ParseUint
  by_cases h : d = []
  · subst h; rfl
  · rw [if_neg h]
    have := parseLoop_run d 0 [] hd hv
    rw [List.append_nil] at this
    rw [this]
    rfl

theorem ldigits_lower : ∀ d, d < 16 →
    isLowerHexDigit (ldigits.getD d 0) ∧ (d ≠ 0 → ldigits.getD d 0 ≠ 48) := by
  decide

/-- The digits written by the loop of the verb x: a non-empty run of lowercase
hexadecimal digits in front of the buffer, of value `u`, that starts with
the digit 0 only for `u = 0`. -/
theorem fmtHexLoop_spec (fuel : Nat) : ∀ (u : Nat) (buf : GoString), u ≤ fuel →
    ∃ ds : GoString, fmtHexLoop fuel u buf = ds ++ buf ∧ ds ≠ [] ∧
      (∀ c ∈ ds, isLowerHexDigit c) ∧ hexValue ds = u ∧
      (u ≠ 0 → ds.head? ≠ some 48) ∧ (u = 0 → ds = [48]) := by
  induction fuel with
  | zero =>
    intro u buf hu
    have h0 : u = 0 := by omega
    subst h0
    exact ⟨[48], rfl, by simp, by decide, by decide, by simp, fun _ => rfl⟩
  | succ fuel ih =>
    intro u buf hu
    rw [fmtHexLoop]
    by_cases h16 : 16 ≤ u
    · rw [if_pos h16]
      obtain ⟨ds, hds, hne, hlow, hval, hhead, _⟩ :=
        ih (u / 16) (ldigits.getD (u % 16) 0 :: buf) (by omega)
      have hm : u % 16 < 16 := Nat.mod_lt _ (by decide)
      refine ⟨ds ++ [ldigits.getD (u % 16) 0], by rw [hds]; simp, by simp, ?_, ?_, ?_, ?_⟩
      · intro c hc
        rcases List.mem_append.mp hc with h | h
        · exact hlow c h
        · rw [List.mem_singleton.mp h]; exact (ldigits_lower _ hm).1
      · unfold hexValue at hval ⊢
        rw [hexValueFrom_append, hval, hexValueFrom_cons, (ldigits_hex _ hm).2]
        simp only [hexValueFrom, List.foldl_nil]
        omega
      · intro _
        cases ds with
        | nil => exact absurd rfl hne
        | cons c ds => simpa using hhead (by omega)
      · intro h0; omega
    · rw [if_neg h16]
      have hu16 : u < 16 := by omega
      refine ⟨[ldigits.getD u 0], rfl, by simp, ?_, ?_, ?_, ?_⟩
      · intro c hc
        rw [List.mem_singleton.mp hc]; exact (ldigits_lower _ hu16).1
      · unfold hexValue
        rw [hexValueFrom_cons, (ldigits_hex _ hu16).2]
        simp [hexValueFrom]
      · intro hne
        simpa using (ldigits_lower _ hu16).2 hne
      · intro h0; subst h0; rfl

/-! ## The transaction loop -/

theorem txStep_eq_some (t : Totals) (l : BlockLocals) (tx : Transaction)
    (t1 : Totals) (l1 : BlockLocals) (h : txStep t l tx = some (t1, l1)) :
    ∃ gasPrice0 txGasPrice value txType,
      hexToUint64 tx.GasPrice = some gasPrice0 ∧
      (if gasPrice0 = 0 then hexToUint64 tx.MaxFeePerGas else some gasPrice0) = some txGasPrice ∧
      hexToUint64 tx.Value = some value ∧
      txTypeOf tx = some txType ∧
      t1 = { t with
        totalGasPrice := add64 t.totalGasPrice txGasPrice
        totalGasPriceCount := t.totalGasPriceCount + 1
        totalValue := add64 t.totalValue value
        txTypeCountTotal := incrCount t.txTypeCountTotal txType } ∧
      l1 = { contractCallCount := if isContractCall tx then l.contractCallCount + 1
                                  else l.contractCallCount
             simpleTransferCount := if isContractCall tx then l.simpleTransferCount
                                    else l.simpleTransferCount + 1
             uniqueAddrs :=
               if tx.To ≠ str "" then List.insert tx.To (List.insert tx.From l.uniqueAddrs)
               else List.insert tx.From l.uniqueAddrs } := by
  unfold txStep at h
  split at h
  · exact absurd h (by simp)
  · rename_i gp hgp
    split at h
    · exact absurd h (by simp)
    · rename_i price hprice
      split at h
      · exact absurd h (by simp)
      · rename_i value hvalue
        dsimp only at h
        split at h
        · exact absurd h (by simp)
        · rename_i kind hkind
          simp only [Option.some.injEq, Prod.mk.injEq] at h
          exact ⟨gp, price, value, kind, hgp, hprice, hvalue, hkind, h.1.symm, h.2.symm⟩

/-- The part of the totals that the transaction loop never touches. -/
theorem txStep_frame (t : Totals) (l : BlockLocals) (tx : Transaction)
    (t1 : Totals) (l1 : BlockLocals) (h : txStep t l tx = some (t1, l1)) :
    t1.totalTxs = t.totalTxs ∧ t1.totalGasUsed = t.totalGasUsed ∧
    t1.totalGasLimit = t.totalGasLimit ∧
    t1.totalContractCallsCount = t.totalContractCallsCount ∧
    t1.totalSimpleTransfersCount = t.totalSimpleTransfersCount ∧
    t1.totalUniqueAddresses = t.totalUniqueAddresses := by
  obtain ⟨_, _, _, _, _, _, _, _, ht, _⟩ := txStep_eq_some t l tx t1 l1 h
  subst ht
  exact ⟨rfl, rfl, rfl, rfl, rfl, rfl⟩

theorem txLoop_frame (txs : List Transaction) : ∀ (t : Totals) (l : BlockLocals)
    (t1 : Totals) (l1 : BlockLocals), txLoop txs t l = some (t1, l1) →
    t1.totalTxs = t.totalTxs ∧ t1.totalGasUsed = t.totalGasUsed ∧
    t1.totalGasLimit = t.totalGasLimit ∧
    t1.totalContractCallsCount = t.totalContractCallsCount ∧
    t1.totalSimpleTransfersCount = t.totalSimpleTransfersCount ∧
    t1.totalUniqueAddresses = t.totalUniqueAddresses := by
  induction txs with
  | nil =>
    intro t l t1 l1 h
    simp only [txLoop, Option.some.injEq, Prod.mk.injEq] at h
    rw [← h.1]
    exact ⟨rfl, rfl, rfl, rfl, rfl, rfl⟩
  | cons tx rest ih =>
    intro t l t1 l1 h
    rw [txLoop] at h
    split at h
    · exact absurd h (by simp)
    · rename_i t2 l2 hstep
      have h1 := txStep_frame t l tx t2 l2 hstep
      have h2 := ih t2 l2 t1 l1 h
      refine ⟨?_, ?_, ?_, ?_, ?_, ?_⟩
      · rw [h2.1, h1.1]
      · rw [h2.2.1, h1.2.1]
      · rw [h2.2.2.1, h1.2.2.1]
      · rw [h2.2.2.2.1, h1.2.2.2.1]
      · rw [h2.2.2.2.2.1, h1.2.2.2.2.1]
      · rw [h2.2.2.2.2.2, h1.2.2.2.2.2]

/-- The counters of the transaction loop: each transaction adds one to the
gas-price count and one to exactly one of the two call counters. -/
theorem txLoop_counts (txs : List Transaction) : ∀ (t : Totals) (l : BlockLocals)
    (t1 : Totals) (l1 : BlockLocals), txLoop txs t l = some (t1, l1) →
    t1.totalGasPriceCount = t.totalGasPriceCount + txs.length ∧
    l1.contractCallCount = l.contractCallCount + txs.countP (fun tx => isContractCall tx) ∧
    l1.simpleTransferCount =
      l.simpleTransferCount + txs.countP (fun tx => !isContractCall tx) := by
  induction txs with
  | nil =>
    intro t l t1 l1 h
    simp only [txLoop, Option.some.injEq, Prod.mk.injEq] at h
    rw [← h.1, ← h.2]
    simp
  | cons tx rest ih =>
    intro t l t1 l1 h
    rw [txLoop] at h
    split at h
    · exact absurd h (by simp)
    · rename_i t2 l2 hstep
      obtain ⟨_, _, _, _, _, _, _, _, ht, hl⟩ := txStep_eq_some t l tx t2 l2 hstep
      have h2 := ih t2 l2 t1 l1 h
      rw [h2.1, h2.2.1, h2.2.2, ht, hl]
      cases hc : isContractCall tx <;> simp [hc, List.countP_cons] <;> omega

theorem analyzeTransactions_frame (txs : List Transaction) (t t1 : Totals)
    (h : analyzeTransactions txs t = some t1) :
    t1.totalTxs = t.totalTxs ∧ t1.totalGasUsed = t.totalGasUsed ∧
    t1.totalGasLimit = t.totalGasLimit := by
  unfold analyzeTransactions at h
  split at h
  · split at h
    · exact absurd h (by simp)
    · rename_i t2 l2 hloop
      have hf := txLoop_frame txs t _ t2 l2 hloop
      simp only [Option.some.injEq] at h
      rw [← h]
      exact ⟨hf.1, hf.2.1, hf.2.2.1⟩
  · simp only [Option.some.injEq] at h
    rw [← h]
    exact ⟨rfl, rfl, rfl⟩

/-- What a fetched block adds to the transaction count and to the two gas
totals. -/
theorem accumulateBlock_sums (b : Block) (t t1 : Totals) (h : accumulateBlock b t = some t1) :
    t1.totalTxs = t.totalTxs + b.Transactions.length ∧
    t1.totalGasUsed = add64 t.totalGasUsed (quantity b.GasUsed) ∧
    t1.totalGasLimit = add64 t.totalGasLimit (quantity b.GasLimit) := by
  unfold accumulateBlock at h
  split at h
  · exact absurd h (by simp)
  · rename_i gasUsed hu
    split at h
    · exact absurd h (by simp)
    · rename_i gasLimit hl
      split at h
      · exact absurd h (by simp)
      · split at h
        · exact absurd h (by simp)
        · unfold accumulate at h
          have hf := analyzeTransactions_frame _ _ _ h
          unfold quantity
          rw [hu, hl]
          exact hf

/-! ## Absence of panics on well-formed data -/

theorem hexToUint64_isSome (s : GoString) (h : s.length ≠ 1) : ∃ v, hexToUint64 s = some v := by
  cases hs : hexToUint64 s with
  | none => exact absurd ((hexToUint64_eq_none_iff s).mp hs) h
  | some v => exact ⟨v, rfl⟩

theorem txTypeOf_isSome (tx : Transaction) (h : tx.Type_.length ≠ 1) :
    ∃ k, txTypeOf tx = some k := by
  obtain ⟨v, hv⟩ := hexToUint64_isSome tx.Type_ h
  unfold txTypeOf
  rw [hv]
  split
  · split
    · rename_i heq; exact absurd heq (by simp)
    · exact ⟨_, rfl⟩
    · exact ⟨_, rfl⟩
    · exact ⟨_, rfl⟩
    · exact ⟨_, rfl⟩
  · exact ⟨_, rfl⟩

theorem txStep_isSome (t : Totals) (l : BlockLocals) (tx : Transaction)
    (h : tx.wellFormed) : ∃ r, txStep t l tx = some r := by
  obtain ⟨hg, hm, hv, hk⟩ := h
  obtain ⟨gp, hgp⟩ := hexToUint64_isSome _ hg
  obtain ⟨mf, hmf⟩ := hexToUint64_isSome _ hm
  obtain ⟨v, hvv⟩ := hexToUint64_isSome _ hv
  obtain ⟨k, hkk⟩ := txTypeOf_isSome tx hk
  unfold txStep
  rw [hgp, hmf, hvv, hkk]
  by_cases h0 : gp = 0
  · simp [h0]
  · simp [h0]

theorem txLoop_isSome (txs : List Transaction) : ∀ (t : Totals) (l : BlockLocals),
    (∀ tx ∈ txs, tx.wellFormed) → ∃ r, txLoop txs t l = some r := by
  induction txs with
  | nil => intro t l _; exact ⟨_, rfl⟩
  | cons tx rest ih =>
    intro t l h
    obtain ⟨⟨t2, l2⟩, hr⟩ := txStep_isSome t l tx (h tx (List.mem_cons_self _ _))
    rw [txLoop, hr]
    exact ih t2 l2 (fun x hx => h x (List.mem_cons_of_mem _ hx))

theorem accumulateBlock_isSome (b : Block) (t : Totals) (h : b.wellFormed) :
    ∃ t1, accumulateBlock b t = some t1 := by
  obtain ⟨h1, h2, h3, h4, htx⟩ := h
  obtain ⟨v1, e1⟩ := hexToUint64_isSome _ h1
  obtain ⟨v2, e2⟩ := hexToUint64_isSome _ h2
  obtain ⟨v3, e3⟩ := hexToUint64_isSome _ h3
  obtain ⟨v4, e4⟩ := hexToUint64_isSome _ h4
  unfold accumulateBlock accumulate analyzeTransactions
  rw [e1, e2, e3, e4]
  dsimp only
  split
  · obtain ⟨⟨t2, l2⟩, hr⟩ := txLoop_isSome b.Transactions
      { t with
        totalGasUsed := add64 t.totalGasUsed v1
        totalGasLimit := add64 t.totalGasLimit v2
        totalTxs := t.totalTxs + b.Transactions.length }
      { contractCallCount := 0, simpleTransferCount := 0, uniqueAddrs := [] } htx
    rw [hr]
    exact ⟨_, rfl⟩
  · exact ⟨_, rfl⟩

theorem foldBlocks_isSome (bs : List Block) : ∀ t : Totals,
    (∀ b ∈ bs, b.wellFormed) → ∃ t1, foldBlocks bs t = some t1 := by
  induction bs with
  | nil => intro t _; exact ⟨t, rfl⟩
  | cons b rest ih =>
    intro t h
    obtain ⟨t2, h2⟩ := accumulateBlock_isSome b t (h b (List.mem_cons_self _ _))
    rw [foldBlocks, h2]
    exact ih t2 (fun x hx => h x (List.mem_cons_of_mem _ hx))

/-- The transaction count and the gas totals folded from a list of blocks. -/
theorem foldBlocks_sums (bs : List Block) : ∀ (t t1 : Totals), foldBlocks bs t = some t1 →
    t1.totalTxs = t.totalTxs + (bs.map (fun b => b.Transactions.length)).sum ∧
    t1.totalGasUsed % 2 ^ 64 =
      (t.totalGasUsed + (bs.map (fun b => quantity b.GasUsed)).sum) % 2 ^ 64 ∧
    t1.totalGasLimit % 2 ^ 64 =
      (t.totalGasLimit + (bs.map (fun b => quantity b.GasLimit)).sum) % 2 ^ 64 := by
  induction bs with
  | nil =>
    intro t t1 h
    simp only [foldBlocks, Option.some.injEq] at h
    rw [← h]
    simp
  | cons b rest ih =>
    intro t t1 h
    rw [foldBlocks] at h
    split at h
    · exact absurd h (by simp)
    · rename_i t2 h2
      have hs := accumulateBlock_sums b t t2 h2
      have hr := ih t2 t1 h
      rw [hr.1, hr.2.1, hr.2.2, hs.1, hs.2.1, hs.2.2]
      simp only [List.map_cons, List.sum_cons, add64]
      refine ⟨by omega, ?_, ?_⟩
      · omega
      · omega


/-! ## The window loop -/

theorem processBlock_totals (i : Nat) (b : Block) (m : Metrics) (t : Totals) :
    (processBlock i b m t).map Prod.snd = accumulateBlock b t := by
  unfold processBlock accumulateBlock
  cases hexToUint64 b.GasUsed with
  | none => rfl
  | some gasUsed =>
    cases hexToUint64 b.GasLimit with
    | none => rfl
    | some gasLimit =>
      cases hexToUint64 b.Timestamp with
      | none => rfl
      | some timestamp =>
        cases hexToUint64 b.Size with
        | none => rfl
        | some size =>
          dsimp only
          cases accumulate gasUsed gasLimit b.Transactions t with
          | none => rfl
          | some t1 => rfl

theorem loopBody_totals (c : Node) (currentBlock i : Nat) (m : Metrics) (t : Totals) :
    (loopBody c currentBlock i m t).map Prod.snd =
      match fetched c currentBlock i with
      | some b => accumulateBlock b t
      | none => some t := by
  unfold loopBody fetched GetBlock
  dsimp only
  cases c.eth_getBlockByNumber (sprintf0x (sub64 currentBlock (i % 2 ^ 64))) true with
  | failure msg => rfl
  | undecodable msg => rfl
  | block b => exact processBlock_totals i b m t

/-- The totals the window loop ends with are those folded from exactly the
blocks whose fetch succeeded, in the order of the loop; the loop panics
exactly when that fold does. -/
theorem windowLoop_totals (c : Node) (currentBlock : Nat) (is : List Nat) :
    ∀ (m : Metrics) (t : Totals),
    (windowLoop c currentBlock is m t).map Prod.snd =
      foldBlocks (is.filterMap (fetched c currentBlock)) t := by
  induction is with
  | nil => intro m t; rfl
  | cons i rest ih =>
    intro m t
    have hb := loopBody_totals c currentBlock i m t
    rw [windowLoop]
    cases hl : loopBody c currentBlock i m t with
    | none =>
      rw [hl] at hb
      cases hf : fetched c currentBlock i with
      | none => rw [hf] at hb; exact absurd hb (by simp)
      | some b =>
        rw [hf] at hb
        have hb1 : accumulateBlock b t = none := hb.symm
        simp only [List.filterMap_cons, hf, foldBlocks, hb1, Option.map_none']
    | some r =>
      obtain ⟨m1, t1⟩ := r
      rw [hl] at hb
      dsimp only
      rw [ih m1 t1]
      cases hf : fetched c currentBlock i with
      | none =>
        rw [hf] at hb
        have hb1 : t1 = t := Option.some.inj hb
        simp only [List.filterMap_cons, hf, hb1]
      | some b =>
        rw [hf] at hb
        have hb1 : accumulateBlock b t = some t1 := hb.symm
        simp only [List.filterMap_cons, hf, foldBlocks, hb1]

/-! ## The aggregated gauges and the block-time phase -/

theorem setAggregated_fields (N : Nat) (m : Metrics) (t : Totals) (hN : 0 < N) :
    (setAggregated N m t).avgTransactionsPerBlock = (t.totalTxs : ℚ) / (N : ℚ) ∧
    (setAggregated N m t).avgUniqueAddressesPerBlock = (t.totalUniqueAddresses : ℚ) / (N : ℚ) ∧
    (0 < t.totalGasLimit → (setAggregated N m t).avgGasUtilization =
      (t.totalGasUsed : ℚ) / (t.totalGasLimit : ℚ) * 100) ∧
    (t.totalGasLimit = 0 → (setAggregated N m t).avgGasUtilization = m.avgGasUtilization) ∧
    (setAggregated N m t).totalContractCalls = (t.totalContractCallsCount : ℚ) ∧
    (setAggregated N m t).totalSimpleTransfers = (t.totalSimpleTransfersCount : ℚ) ∧
    (setAggregated N m t).totalValueTransferredWei =
      ((roundToFloat64 t.totalValue : Nat) : ℚ) := by
  unfold setAggregated
  rw [if_pos hN]
  refine ⟨?_, ?_, ?_, ?_, rfl, rfl, rfl⟩
  · dsimp only
    split_ifs <;> rfl
  · dsimp only
  · intro h
    dsimp only
    rw [if_pos h]
    split_ifs <;> rfl
  · intro h
    have h0 : ¬ (t.totalGasLimit > 0) := by omega
    dsimp only
    rw [if_neg h0]
    split_ifs <;> rfl

theorem fetchTimestamp_frame (c : Node) (hex : GoString) (m m1 : Metrics) (ts : Option Nat)
    (h : fetchTimestamp c hex m = some (m1, ts)) :
    m1 = m ∨ m1 = countError m (str "eth_getBlockByNumber") := by
  unfold fetchTimestamp at h
  split at h
  · simp only [Option.some.injEq, Prod.mk.injEq] at h; exact Or.inr h.1.symm
  · simp only [Option.some.injEq, Prod.mk.injEq] at h; exact Or.inl h.1.symm
  · split at h
    · exact absurd h (by simp)
    · simp only [Option.some.injEq, Prod.mk.injEq] at h; exact Or.inl h.1.symm

theorem sameAggregates_refl (m : Metrics) : sameAggregates m m :=
  ⟨rfl, rfl, rfl, rfl, rfl, rfl, rfl, rfl⟩

theorem sameAggregates_trans {a b d : Metrics} (h1 : sameAggregates a b)
    (h2 : sameAggregates b d) : sameAggregates a d := by
  obtain ⟨a1, a2, a3, a4, a5, a6, a7, a8⟩ := h1
  obtain ⟨b1, b2, b3, b4, b5, b6, b7, b8⟩ := h2
  exact ⟨b1.trans a1, b2.trans a2, b3.trans a3, b4.trans a4, b5.trans a5, b6.trans a6,
    b7.trans a7, b8.trans a8⟩

theorem sameAggregates_countError (m : Metrics) (k : GoString) :
    sameAggregates m (countError m k) :=
  ⟨rfl, rfl, rfl, rfl, rfl, rfl, rfl, rfl⟩

theorem sameAggregates_fetchTimestamp (c : Node) (hex : GoString) (m m1 : Metrics)
    (ts : Option Nat) (h : fetchTimestamp c hex m = some (m1, ts)) : sameAggregates m m1 := by
  rcases fetchTimestamp_frame c hex m m1 ts h with h | h
  · rw [h]; exact sameAggregates_refl m
  · rw [h]; exact sameAggregates_countError m _

theorem sameAggregates_setBlockTime (N : Nat) (m : Metrics) (tot a b : Nat) :
    sameAggregates m (setBlockTime N m tot a b) := by
  unfold setBlockTime
  split
  · dsimp only
    split
    · exact ⟨rfl, rfl, rfl, rfl, rfl, rfl, rfl, rfl⟩
    · exact ⟨rfl, rfl, rfl, rfl, rfl, rfl, rfl, rfl⟩
  · exact sameAggregates_refl m

theorem sameAggregates_blockTimePhase (N : Nat) (c : Node) (head tot : Nat) (m m1 : Metrics)
    (h : blockTimePhase N c head tot m = some m1) : sameAggregates m m1 := by
  unfold blockTimePhase at h
  split at h
  · dsimp only at h
    split at h
    · exact absurd h (by simp)
    · rename_i m2 h1
      simp only [Option.some.injEq] at h
      rw [← h]
      exact sameAggregates_fetchTimestamp _ _ _ _ _ h1
    · rename_i m2 ts1 h1
      have s1 := sameAggregates_fetchTimestamp _ _ _ _ _ h1
      split at h
      · exact absurd h (by simp)
      · rename_i m3 h2
        simp only [Option.some.injEq] at h
        rw [← h]
        exact sameAggregates_trans s1 (sameAggregates_fetchTimestamp _ _ _ _ _ h2)
      · rename_i m3 ts2 h2
        simp only [Option.some.injEq] at h
        rw [← h]
        exact sameAggregates_trans s1
          (sameAggregates_trans (sameAggregates_fetchTimestamp _ _ _ _ _ h2)
            (sameAggregates_setBlockTime _ _ _ _ _))
  · simp only [Option.some.injEq] at h
    rw [← h]
    exact sameAggregates_refl m

theorem fetchTimestamp_isSome (c : Node) (hex : GoString) (m : Metrics)
    (hts : ∀ hex b, c.eth_getBlockByNumber hex false = BlockReply.block b →
      b.Timestamp.length ≠ 1) :
    ∃ r, fetchTimestamp c hex m = some r := by
  unfold fetchTimestamp
  cases hr : c.eth_getBlockByNumber hex false with
  | failure msg => exact ⟨_, rfl⟩
  | undecodable msg => exact ⟨_, rfl⟩
  | block b =>
    obtain ⟨v, hv⟩ := hexToUint64_isSome _ (hts hex b hr)
    dsimp only
    rw [hv]
    exact ⟨_, rfl⟩

theorem blockTimePhase_isSome (N : Nat) (c : Node) (head tot : Nat) (m : Metrics)
    (hts : ∀ hex b, c.eth_getBlockByNumber hex false = BlockReply.block b →
      b.Timestamp.length ≠ 1) :
    ∃ m1, blockTimePhase N c head tot m = some m1 := by
  unfold blockTimePhase
  split
  · dsimp only
    obtain ⟨⟨m1, ts1⟩, h1⟩ := fetchTimestamp_isSome c
      (sprintf0x (sub64 head ((N - 1) % 2 ^ 64))) m hts
    rw [h1]
    cases ts1 with
    | none => exact ⟨_, rfl⟩
    | some t1 =>
      dsimp only
      obtain ⟨⟨m2, ts2⟩, h2⟩ := fetchTimestamp_isSome c (sprintf0x head) m1 hts
      rw [h2]
      cases ts2 with
      | none => exact ⟨_, rfl⟩
      | some t2 => exact ⟨_, rfl⟩
  · exact ⟨_, rfl⟩

/-- A cycle that gets past the chain phase, on data without one-byte quantity
fields, returns `nil`; its aggregated gauges are those set from the totals
folded from the blocks whose fetch succeeded. -/
theorem CollectMetrics_returns (N : Nat) (c : Node) (m m1 : Metrics) (head : Nat)
    (hchain : chainPhase c m = Call.done m1 head)
    (hwf : ∀ b ∈ (List.range N).filterMap (fetched c head), b.wellFormed)
    (hts : ∀ hex b, c.eth_getBlockByNumber hex false = BlockReply.block b →
      b.Timestamp.length ≠ 1) :
    ∃ (t : Totals) (m2 m3 : Metrics),
      foldBlocks ((List.range N).filterMap (fetched c head)) {} = some t ∧
      CollectMetrics N c m = Result.returned m3 none ∧
      sameAggregates (setAggregated N m2 t) m3 := by
  obtain ⟨t, ht⟩ := foldBlocks_isSome _ {} hwf
  have hw := windowLoop_totals c head (List.range N) m1 {}
  rw [ht] at hw
  cases hl : windowLoop c head (List.range N) m1 {} with
  | none => rw [hl] at hw; exact absurd hw (by simp)
  | some r =>
    obtain ⟨m2, t2⟩ := r
    rw [hl] at hw
    have hw1 : t2 = t := Option.some.inj hw
    subst hw1
    obtain ⟨m3, h3⟩ := blockTimePhase_isSome N c head t2.totalTxs (setAggregated N m2 t2) hts
    refine ⟨t2, m2, m3, ht, ?_, sameAggregates_blockTimePhase _ _ _ _ _ _ h3⟩
    unfold CollectMetrics windowPhase
    rw [hchain]
    dsimp only
    rw [hl]
    dsimp only
    rw [h3]

/-! ## The claims on the hex codec -/

/-- C1: for every unsigned 64-bit integer `n`, decoding the encoding of `n`
gives `n` back, `hexToUint64 (sprintf0x n) = n`, where the encoding is "0x"
followed by the minimal lowercase hexadecimal digits of `n`: a non-empty run of
digits `0-9a-f` of value `n` that starts with the digit 0 only when `n = 0`,
in which case it is "0x0". -/
theorem hexToUint64_sprintf0x (n : Nat) (hn : n < 2 ^ 64) :
    hexToUint64 (sprintf0x n) = some n ∧
    ∃ ds : GoString, sprintf0x n = str "0x" ++ ds ∧ ds ≠ [] ∧
      (∀ c ∈ ds, isLowerHexDigit c) ∧ hexValue ds = n ∧
      (n ≠ 0 → ds.head? ≠ some 48) ∧ (n = 0 → sprintf0x n = str "0x0") := by
  constructor
  · unfold sprintf0x
    rw [hexToUint64_0x_append]
    unfold ParseUint fmtHex
    rw [if_neg (fmtHexLoop_ne_nil _ _ _), parseLoop_fmtHexLoop n n [] (le_refl _) hn]
    rfl
  · obtain ⟨ds, hds, hne, hlow, hval, hhead, hzero⟩ := fmtHexLoop_spec n n [] (le_refl _)
    rw [List.append_nil] at hds
    refine ⟨ds, by unfold sprintf0x fmtHex; rw [hds], hne, hlow, hval, hhead, ?_⟩
    intro h0
    subst h0
    decide

theorem hexToUint64_sprintf0x_witness :
    1000000000 < 2 ^ 64 ∧ hexToUint64 (sprintf0x 1000000000) = some 1000000000 :=
  ⟨by decide, (hexToUint64_sprintf0x 1000000000 (by decide)).1⟩

/-- C2 (evaluation at the failing inputs): on every string of exactly one byte,
such as "0", `hexToUint64` panics on the slice `hexStr[2:]` instead of
returning a value. -/
theorem hexToUint64_one_byte_panics :
    (∀ c : Nat, hexToUint64 [c] = none) ∧ hexToUint64 (str "0") = none := by
  refine ⟨fun c => ?_, by decide⟩
  exact (hexToUint64_eq_none_iff [c]).mpr rfl

/-- C3 (counterexample): "0x10000000000000000" has only hexadecimal digits after
its first two bytes, they denote `2 ^ 64`, and `hexToUint64` returns
`2 ^ 64 - 1` on it, not 0. -/
theorem hexToUint64_range_counterexample :
    (∀ c ∈ (str "0x10000000000000000").drop 2, isHexDigit c) ∧
    hexValue ((str "0x10000000000000000").drop 2) = 2 ^ 64 ∧
    hexToUint64 (str "0x10000000000000000") = some (2 ^ 64 - 1) ∧
    hexToUint64 (str "0x10000000000000000") ≠ some 0 := by
  decide

/-- C3 (amended): for every string of two or more bytes, `a :: b :: d`:
with no byte after the first two the result is 0; when the first byte of `d`
that is no hexadecimal digit follows a run of digits of value below `2 ^ 64`
the result is 0; when `d` starts with a run of hexadecimal digits of value
`2 ^ 64` or more the result is `2 ^ 64 - 1`, whatever follows the run. -/
theorem hexToUint64_malformed (a b : Nat) (run rest : GoString)
    (hrun : ∀ c ∈ run, isHexDigit c) :
    hexToUint64 [a, b] = some 0 ∧
    (∀ c, ¬ isHexDigit c → hexValue run < 2 ^ 64 →
      hexToUint64 (a :: b :: (run ++ c :: rest)) = some 0) ∧
    (2 ^ 64 ≤ hexValue run → hexToUint64 (a :: b :: (run ++ rest)) = some (2 ^ 64 - 1)) := by
  refine ⟨?_, ?_, ?_⟩
  · rw [hexToUint64_cons_cons]; rfl
  · intro c hc hv
    rw [hexToUint64_cons_cons]
    unfold ParseUint
    rw [if_neg (by simp), parseLoop_run run 0 (c :: rest) hrun hv, parseLoop_nonhex c rest _ hc]
  · intro hv
    rw [hexToUint64_cons_cons]
    unfold ParseUint
    have hne : run ++ rest ≠ [] := by
      intro h
      have hnil : run = [] := (List.append_eq_nil.mp h).1
      rw [hnil] at hv
      simp [hexValue, hexValueFrom] at hv
    rw [if_neg hne, parseLoop_overflow run 0 rest hrun (by decide) hv]
    rfl

theorem hexToUint64_malformed_witness :
    hexToUint64 (str "0x") = some 0 ∧ hexToUint64 (str "0x1g") = some 0 ∧
    hexToUint64 (str "0x11111111111111111g") = some (2 ^ 64 - 1) :=
  ⟨(hexToUint64_malformed 48 120 [] [] (by decide)).1,
   (hexToUint64_malformed 48 120 (str "1") [] (by decide)).2.1 103 (by decide) (by decide),
   (hexToUint64_malformed 48 120 (str "11111111111111111") (str "g") (by decide)).2.2
     (by decide)⟩

/-- C4 (counterexample): the digit string "ff" has the base-16 value 255, which
`hexToUint64` returns for "0xff", but without the two leading bytes "0x" the
two digits themselves are dropped and the result is 0. -/
theorem hexToUint64_unprefixed_counterexample :
    (∀ c ∈ str "ff", isHexDigit c) ∧ hexValue (str "ff") = 255 ∧
    hexToUint64 (str "0x" ++ str "ff") = some 255 ∧ hexToUint64 (str "ff") = some 0 ∧
    hexToUint64 (str "ff") ≠ hexToUint64 (str "0x" ++ str "ff") := by
  decide

/-- C4 (amended): the two leading bytes are dropped unchecked, so the digits
must follow two other bytes: for every non-empty string `d` of at most 16
hexadecimal digits, `hexToUint64 ("0x" ++ d)` is the base-16 value of `d`, and
so is `hexToUint64` of `d` after any two bytes `a`, `b`. -/
theorem hexToUint64_prefixed (d : GoString) (_hne : d ≠ []) (hlen : d.length ≤ 16)
    (hd : ∀ c ∈ d, isHexDigit c) :
    hexToUint64 (str "0x" ++ d) = some (hexValue d) ∧
    ∀ a b : Nat, hexToUint64 (a :: b :: d) = some (hexValue d) := by
  have hv := hexValue_lt_of_length_le d hd hlen
  refine ⟨?_, fun a b => ?_⟩
  · rw [hexToUint64_0x_append, ParseUint_hex d hd hv]
  · rw [hexToUint64_cons_cons, ParseUint_hex d hd hv]

theorem hexToUint64_prefixed_witness :
    hexToUint64 (str "0x" ++ str "3b9aca00") = some (hexValue (str "3b9aca00")) ∧
    hexValue (str "3b9aca00") = 1000000000 :=
  ⟨(hexToUint64_prefixed (str "3b9aca00") (by decide) (by decide) (by decide)).1, by decide⟩

/-- C5: `hexToUint64 "" = 0` and `hexToUint64 "0x" = 0`. -/
theorem hexToUint64_empty_and_0x :
    hexToUint64 (str "") = some 0 ∧ hexToUint64 (str "0x") = some 0 := by
  decide

/-! ## The claims on the window fold -/


theorem txTypeOf_eq (tx : Transaction) (v : Nat) (h : hexToUint64 tx.Type_ = some v) :
    txTypeOf tx = some (kindOfCode v) := by
  unfold txTypeOf kindOfCode
  rw [h]
  by_cases he : tx.Type_ = str ""
  · rw [if_neg (not_not.mpr he)]
    rw [he] at h
    have hv : v = 0 := by
      have h0 : hexToUint64 (str "") = some 0 := by decide
      rw [h0] at h
      exact (Option.some.inj h).symm
    rw [if_pos hv]
  · rw [if_pos he]
    match v with
    | 0 => rfl
    | 1 => rfl
    | 2 => rfl
    | n + 3 => simp

theorem kindOfCode_mem (v : Nat) : kindOfCode v ∈ kinds := by
  unfold kindOfCode kinds
  split_ifs <;> simp

/-- C6: the kind of a transaction is a function of its decoded type code:
code 0 gives legacy, 1 gives eip2930, 2 gives eip1559 and any other value
gives unknown; an empty type field gives legacy.  Every transaction whose
type field decodes (any field but a one-byte one) gets exactly one of the four
kinds, and folding the transaction adds one to the count of that kind and
leaves the count of every other key as it was. -/
theorem txType_classification (tx : Transaction) :
    (tx.Type_ = str "" → txTypeOf tx = some (str "legacy")) ∧
    (∀ v, hexToUint64 tx.Type_ = some v →
      txTypeOf tx = some (kindOfCode v) ∧
      (v = 0 → kindOfCode v = str "legacy") ∧ (v = 1 → kindOfCode v = str "eip2930") ∧
      (v = 2 → kindOfCode v = str "eip1559") ∧
      (v ≠ 0 → v ≠ 1 → v ≠ 2 → kindOfCode v = str "unknown")) ∧
    (tx.Type_.length ≠ 1 → ∃ kind, kind ∈ kinds ∧ txTypeOf tx = some kind) ∧
    (∀ t l t1 l1, txStep t l tx = some (t1, l1) →
      ∃ kind, kind ∈ kinds ∧ txTypeOf tx = some kind ∧
        ∀ k, (t1.txTypeCountTotal k).getD 0 =
          (t.txTypeCountTotal k).getD 0 + (if k = kind then 1 else 0)) := by
  have hmem : ∀ kind, txTypeOf tx = some kind → kind ∈ kinds := by
    intro kind hk
    cases hv : hexToUint64 tx.Type_ with
    | none =>
      have h1 := (hexToUint64_eq_none_iff _).mp hv
      unfold txTypeOf at hk
      rw [hv] at hk
      split at hk
      · exact absurd hk (by simp)
      · rename_i he
        rw [not_not.mp he] at h1
        exact absurd h1 (by decide)
    | some v =>
      rw [txTypeOf_eq tx v hv] at hk
      rw [← Option.some.inj hk]
      exact kindOfCode_mem v
  refine ⟨?_, ?_, ?_, ?_⟩
  · intro h
    unfold txTypeOf
    rw [if_neg (not_not.mpr h)]
  · intro v hv
    refine ⟨txTypeOf_eq tx v hv, ?_, ?_, ?_, ?_⟩
    · intro h; subst h; rfl
    · intro h; subst h; rfl
    · intro h; subst h; rfl
    · intro h0 h1 h2
      unfold kindOfCode
      rw [if_neg h0, if_neg h1, if_neg h2]
  · intro h
    obtain ⟨k, hk⟩ := txTypeOf_isSome tx h
    exact ⟨k, hmem k hk, hk⟩
  · intro t l t1 l1 h
    obtain ⟨_, _, _, kind, _, _, _, hkind, ht, _⟩ := txStep_eq_some t l tx t1 l1 h
    refine ⟨kind, hmem kind hkind, hkind, ?_⟩
    intro k
    subst ht
    dsimp only [incrCount]
    by_cases hk : k = kind
    · rw [if_pos hk, if_pos hk]; rfl
    · rw [if_neg hk, if_neg hk]; rfl

theorem txType_classification_witness :
    txTypeOf { Type_ := str "0x2" } = some (str "eip1559") ∧
    txTypeOf { Type_ := str "0x7e" } = some (str "unknown") ∧
    txTypeOf { Type_ := str "" } = some (str "legacy") :=
  ⟨((txType_classification { Type_ := str "0x2" }).2.1 2 (by decide)).1,
   ((txType_classification { Type_ := str "0x7e" }).2.1 126 (by decide)).1,
   (txType_classification { Type_ := str "" }).1 (by decide)⟩


theorem isContractCall_iff (tx : Transaction) :
    isContractCall tx = true ↔ (tx.Input ≠ str "0x" ∧ tx.Input.length > 2) := by
  unfold isContractCall
  exact decide_eq_true_iff

/-- The two call counters after the transaction analysis of a block. -/
theorem analyzeTransactions_calls (txs : List Transaction) (t t1 : Totals)
    (h : analyzeTransactions txs t = some t1) :
    t1.totalContractCallsCount =
      t.totalContractCallsCount + txs.countP (fun tx => isContractCall tx) ∧
    t1.totalSimpleTransfersCount =
      t.totalSimpleTransfersCount + txs.countP (fun tx => !isContractCall tx) := by
  unfold analyzeTransactions at h
  split at h
  · split at h
    · exact absurd h (by simp)
    · rename_i t2 l2 hloop
      have hf := txLoop_frame txs t _ t2 l2 hloop
      have hc := txLoop_counts txs t _ t2 l2 hloop
      dsimp only at hc
      simp only [Option.some.injEq] at h
      rw [← h]
      dsimp only
      rw [hf.2.2.2.1, hf.2.2.2.2.1, hc.2.1, hc.2.2]
      omega
  · rename_i hlen
    have hnil : txs = [] := by
      cases txs with
      | nil => rfl
      | cons a r => simp at hlen
    simp only [Option.some.injEq] at h
    rw [← h, hnil]
    simp

/-- C7: a folded transaction is counted as a contract call exactly when its
input is not "0x" and is longer than 2 bytes, and as a simple transfer
otherwise: exactly one of the two counters grows, by one; an empty input and
the input "0x" are simple transfers.  Over the transactions of a block the
window counters grow by the number of transactions of each sort. -/
theorem contract_call_classification (t : Totals) (l : BlockLocals) (tx : Transaction)
    (t1 : Totals) (l1 : BlockLocals) (h : txStep t l tx = some (t1, l1)) :
    ((tx.Input ≠ str "0x" ∧ tx.Input.length > 2) →
      l1.contractCallCount = l.contractCallCount + 1 ∧
      l1.simpleTransferCount = l.simpleTransferCount) ∧
    (¬ (tx.Input ≠ str "0x" ∧ tx.Input.length > 2) →
      l1.contractCallCount = l.contractCallCount ∧
      l1.simpleTransferCount = l.simpleTransferCount + 1) ∧
    (tx.Input = str "" ∨ tx.Input = str "0x" →
      l1.contractCallCount = l.contractCallCount ∧
      l1.simpleTransferCount = l.simpleTransferCount + 1) ∧
    l1.contractCallCount + l1.simpleTransferCount =
      l.contractCallCount + l.simpleTransferCount + 1 ∧
    (∀ (txs : List Transaction) (u u1 : Totals), analyzeTransactions txs u = some u1 →
      u1.totalContractCallsCount = u.totalContractCallsCount +
        txs.countP (fun x => decide (x.Input ≠ str "0x" ∧ x.Input.length > 2)) ∧
      u1.totalSimpleTransfersCount = u.totalSimpleTransfersCount +
        txs.countP (fun x => decide (¬ (x.Input ≠ str "0x" ∧ x.Input.length > 2)))) := by
  obtain ⟨_, _, _, _, _, _, _, _, _, hl⟩ := txStep_eq_some t l tx t1 l1 h
  have hyes : (tx.Input ≠ str "0x" ∧ tx.Input.length > 2) →
      l1.contractCallCount = l.contractCallCount + 1 ∧
      l1.simpleTransferCount = l.simpleTransferCount := by
    intro hc
    have hb : isContractCall tx = true := (isContractCall_iff tx).mpr hc
    rw [hl, hb]
    exact ⟨rfl, rfl⟩
  have hno : ¬ (tx.Input ≠ str "0x" ∧ tx.Input.length > 2) →
      l1.contractCallCount = l.contractCallCount ∧
      l1.simpleTransferCount = l.simpleTransferCount + 1 := by
    intro hc
    have hb : isContractCall tx = false := by
      cases hx : isContractCall tx with
      | false => rfl
      | true => exact absurd ((isContractCall_iff tx).mp hx) hc
    rw [hl, hb]
    exact ⟨rfl, rfl⟩
  refine ⟨hyes, hno, ?_, ?_, ?_⟩
  · intro hin
    apply hno
    rintro ⟨h1, h2⟩
    rcases hin with hin | hin
    · rw [hin] at h2; exact absurd h2 (by decide)
    · exact h1 hin
  · by_cases hc : tx.Input ≠ str "0x" ∧ tx.Input.length > 2
    · have := hyes hc; omega
    · have := hno hc; omega
  · intro txs u u1 hu
    have ha := analyzeTransactions_calls txs u u1 hu
    have e1 : (fun x : Transaction => decide (x.Input ≠ str "0x" ∧ x.Input.length > 2)) =
        (fun x => isContractCall x) := rfl
    have e2 : (fun x : Transaction => decide (¬ (x.Input ≠ str "0x" ∧ x.Input.length > 2))) =
        (fun x => !isContractCall x) := by
      funext x
      unfold isContractCall
      exact decide_not
    rw [e1, e2]
    exact ha

theorem contract_call_classification_witness :
    ∃ t1 l1, txStep {} {} txC = some (t1, l1) ∧
      l1.contractCallCount = 1 ∧ l1.simpleTransferCount = 0 := by
  obtain ⟨⟨t1, l1⟩, h⟩ : ∃ r, txStep {} {} txC = some r := ⟨_, rfl⟩
  have hc := (contract_call_classification {} {} txC t1 l1 h).1 (by decide)
  exact ⟨t1, l1, h, hc.1, hc.2⟩

/-- C8: folding a transaction adds to the gas-price sum (a `uint64`) the decoded
`gasPrice` when that is not zero and the decoded `maxFeePerGas` otherwise, and
adds one to the gas-price count; with `gasPrice` "0x0" and `maxFeePerGas`
"0x3b9aca00" the amount added is 1000000000. -/
theorem gas_price_contribution (t : Totals) (l : BlockLocals) (tx : Transaction)
    (t1 : Totals) (l1 : BlockLocals) (h : txStep t l tx = some (t1, l1)) :
    (∃ gp, hexToUint64 tx.GasPrice = some gp ∧
      (gp ≠ 0 → t1.totalGasPrice = (t.totalGasPrice + gp) % 2 ^ 64) ∧
      (gp = 0 → ∃ fee, hexToUint64 tx.MaxFeePerGas = some fee ∧
        t1.totalGasPrice = (t.totalGasPrice + fee) % 2 ^ 64)) ∧
    t1.totalGasPriceCount = t.totalGasPriceCount + 1 ∧
    (tx.GasPrice = str "0x0" → tx.MaxFeePerGas = str "0x3b9aca00" →
      t1.totalGasPrice = (t.totalGasPrice + 1000000000) % 2 ^ 64) := by
  obtain ⟨gp, price, _, _, hgp, hprice, _, _, ht, _⟩ := txStep_eq_some t l tx t1 l1 h
  have hsum : t1.totalGasPrice = (t.totalGasPrice + price) % 2 ^ 64 := by rw [ht]; rfl
  refine ⟨⟨gp, hgp, ?_, ?_⟩, by rw [ht], ?_⟩
  · intro hne
    rw [if_neg hne] at hprice
    rw [hsum, Option.some.inj hprice]
  · intro h0
    rw [if_pos h0] at hprice
    exact ⟨price, hprice, hsum⟩
  · intro hg hm
    have e1 : hexToUint64 (str "0x0") = some 0 := by decide
    have e2 : hexToUint64 (str "0x3b9aca00") = some 1000000000 := by decide
    rw [hg, e1] at hgp
    have h0 : gp = 0 := (Option.some.inj hgp).symm
    rw [if_pos h0, hm, e2] at hprice
    rw [hsum, ← Option.some.inj hprice]

theorem gas_price_contribution_witness :
    ∃ t1 l1, txStep {} {} txC = some (t1, l1) ∧
      t1.totalGasPrice = 1000000000 ∧ t1.totalGasPriceCount = 1 := by
  obtain ⟨⟨t1, l1⟩, h⟩ : ∃ r, txStep {} {} txC = some r := ⟨_, rfl⟩
  have hc := gas_price_contribution {} {} txC t1 l1 h
  exact ⟨t1, l1, h, hc.2.2 rfl rfl, hc.2.1⟩


/-- The gas totals folded from a list of blocks are the sums of the decoded
fields in `uint64` arithmetic. -/
theorem foldBlocks_gas (bs : List Block) : ∀ (t t1 : Totals), foldBlocks bs t = some t1 →
    t.totalGasUsed < 2 ^ 64 → t.totalGasLimit < 2 ^ 64 →
    t1.totalGasUsed = (t.totalGasUsed + (bs.map (fun b => quantity b.GasUsed)).sum) % 2 ^ 64 ∧
    t1.totalGasLimit =
      (t.totalGasLimit + (bs.map (fun b => quantity b.GasLimit)).sum) % 2 ^ 64 := by
  induction bs with
  | nil =>
    intro t t1 h hu hl
    simp only [foldBlocks, Option.some.injEq] at h
    rw [← h]
    simp only [List.map_nil, List.sum_nil, Nat.add_zero]
    exact ⟨(Nat.mod_eq_of_lt hu).symm, (Nat.mod_eq_of_lt hl).symm⟩
  | cons b rest ih =>
    intro t t1 h hu hl
    rw [foldBlocks] at h
    split at h
    · exact absurd h (by simp)
    · rename_i t2 h2
      have hs := accumulateBlock_sums b t t2 h2
      have hr := ih t2 t1 h (by rw [hs.2.1]; exact Nat.mod_lt _ (by decide))
        (by rw [hs.2.2]; exact Nat.mod_lt _ (by decide))
      rw [hr.1, hr.2, hs.2.1, hs.2.2]
      simp only [List.map_cons, List.sum_cons, add64]
      constructor <;> omega

theorem filterMap_fetched_all (c : Node) (head : Nat) (blk : Nat → Block) (is : List Nat)
    (h : ∀ i ∈ is, fetched c head i = some (blk i)) :
    is.filterMap (fetched c head) = is.map blk := by
  induction is with
  | nil => rfl
  | cons i rest ih =>
    rw [List.filterMap_cons, h i (List.mem_cons_self _ _), List.map_cons,
      ih (fun x hx => h x (List.mem_cons_of_mem _ hx))]

theorem filterMap_fetched_but_one (c : Node) (head : Nat) (blk : Nat → Block) (j : Nat)
    (is : List Nat) (hfail : fetched c head j = none)
    (h : ∀ i ∈ is, i ≠ j → fetched c head i = some (blk i)) :
    is.filterMap (fetched c head) = (is.filter (fun i => decide (i ≠ j))).map blk := by
  induction is with
  | nil => rfl
  | cons i rest ih =>
    have ih1 := ih (fun x hx => h x (List.mem_cons_of_mem _ hx))
    by_cases hij : i = j
    · rw [List.filterMap_cons, hij, hfail, List.filter_cons_of_neg (by simp), ih1]
    · rw [List.filterMap_cons, h i (List.mem_cons_self _ _) hij,
        List.filter_cons_of_pos (by simpa using hij), List.map_cons, ih1]

/-- More of the aggregated gauges: the average gas price and the per-kind
series. -/
theorem setAggregated_more (N : Nat) (m : Metrics) (t : Totals) (hN : 0 < N) :
    (0 < t.totalGasPriceCount → (setAggregated N m t).avgGasPriceWei =
      (t.totalGasPrice : ℚ) / (t.totalGasPriceCount : ℚ)) ∧
    (∀ k n, t.txTypeCountTotal k = some n →
      (setAggregated N m t).transactionTypes k = some (n : ℚ)) := by
  unfold setAggregated
  rw [if_pos hN]
  refine ⟨?_, ?_⟩
  · intro h
    have h1 : t.totalGasPriceCount > 0 := h
    dsimp only
    rw [if_pos h1]
  · intro k n hk
    dsimp only
    rw [hk]


/-- A cycle that gets past the chain phase and returns has returned `nil`,
and its aggregated gauges are those set from the totals folded from the
blocks whose fetch succeeded. -/
theorem CollectMetrics_spec (N : Nat) (c : Node) (m m1 m3 : Metrics) (head : Nat)
    (err : Option Error)
    (hchain : chainPhase c m = Call.done m1 head)
    (hret : CollectMetrics N c m = Result.returned m3 err) :
    err = none ∧ ∃ (t : Totals) (m2 : Metrics),
      foldBlocks ((List.range N).filterMap (fetched c head)) {} = some t ∧
      sameAggregates (setAggregated N m2 t) m3 := by
  unfold CollectMetrics windowPhase at hret
  rw [hchain] at hret
  dsimp only at hret
  have hw := windowLoop_totals c head (List.range N) m1 {}
  cases hl : windowLoop c head (List.range N) m1 {} with
  | none => rw [hl] at hret; exact absurd hret (by simp)
  | some r =>
    obtain ⟨m2, t⟩ := r
    rw [hl] at hret hw
    dsimp only at hret
    cases hb : blockTimePhase N c head t.totalTxs (setAggregated N m2 t) with
    | none => rw [hb] at hret; exact absurd hret (by simp)
    | some m4 =>
      rw [hb] at hret
      have h34 : m4 = m3 := (Result.returned.inj hret).1
      have herr : none = err := (Result.returned.inj hret).2
      subst h34
      exact ⟨herr.symm, t, m2, hw.symm, sameAggregates_blockTimePhase _ _ _ _ _ _ hb⟩

/-- C9: when every block of the window fetches, a cycle that returns publishes
as average transactions per block the sum of the blocks' transaction counts
over the window size, and as average gas utilization the ratio, times 100, of
the two window sums of decoded gas used and gas limit as accumulated in
`uint64` (set when the accumulated limit is positive): for sums below `2 ^ 64`
it is (sum of gasUsed) / (sum of gasLimit) × 100, a ratio of sums.  The cycle
does return, with `nil`, when no quantity field has exactly one byte. -/
theorem window_averages (N : Nat) (c : Node) (m m1 : Metrics) (head : Nat) (blk : Nat → Block)
    (hN : 0 < N)
    (hchain : chainPhase c m = Call.done m1 head)
    (hfetch : ∀ i, i < N → fetched c head i = some (blk i)) :
    ((∀ i, i < N → (blk i).wellFormed) →
      (∀ hex b, c.eth_getBlockByNumber hex false = BlockReply.block b →
        b.Timestamp.length ≠ 1) →
      ∃ m3, CollectMetrics N c m = Result.returned m3 none) ∧
    ∀ m3 err, CollectMetrics N c m = Result.returned m3 err →
      err = none ∧
      m3.avgTransactionsPerBlock =
        ((((List.range N).map (fun i => (blk i).Transactions.length)).sum : Nat) : ℚ) / (N : ℚ) ∧
      (0 < ((List.range N).map (fun i => quantity (blk i).GasLimit)).sum % 2 ^ 64 →
        m3.avgGasUtilization =
          (((((List.range N).map (fun i => quantity (blk i).GasUsed)).sum % 2 ^ 64 : Nat) : ℚ) /
           ((((List.range N).map (fun i => quantity (blk i).GasLimit)).sum % 2 ^ 64 : Nat) : ℚ))
          * 100) ∧
      (0 < ((List.range N).map (fun i => quantity (blk i).GasLimit)).sum →
        ((List.range N).map (fun i => quantity (blk i).GasUsed)).sum < 2 ^ 64 →
        ((List.range N).map (fun i => quantity (blk i).GasLimit)).sum < 2 ^ 64 →
        m3.avgGasUtilization =
          (((((List.range N).map (fun i => quantity (blk i).GasUsed)).sum : Nat) : ℚ) /
           ((((List.range N).map (fun i => quantity (blk i).GasLimit)).sum : Nat) : ℚ))
          * 100) := by
  have hall : (List.range N).filterMap (fetched c head) = (List.range N).map blk :=
    filterMap_fetched_all c head blk _ (fun i hi => hfetch i (List.mem_range.mp hi))
  constructor
  · intro hwf hts
    have hwf1 : ∀ b ∈ (List.range N).filterMap (fetched c head), b.wellFormed := by
      intro b hb
      rw [hall] at hb
      obtain ⟨i, hi, rfl⟩ := List.mem_map.mp hb
      exact hwf i (List.mem_range.mp hi)
    obtain ⟨_, _, m3, _, hret, _⟩ := CollectMetrics_returns N c m m1 head hchain hwf1 hts
    exact ⟨m3, hret⟩
  · intro m3 err hret
    obtain ⟨herr, t, m2, hfold, hsame⟩ := CollectMetrics_spec N c m m1 m3 head err hchain hret
    rw [hall] at hfold
    have hsums := foldBlocks_sums _ _ _ hfold
    have hgas := foldBlocks_gas _ _ _ hfold (by decide) (by decide)
    simp only [List.map_map, Function.comp_def] at hsums hgas
    have hu : t.totalGasUsed =
        ((List.range N).map (fun i => quantity (blk i).GasUsed)).sum % 2 ^ 64 := by
      rw [hgas.1]; show (0 + _) % _ = _; rw [Nat.zero_add]
    have hl : t.totalGasLimit =
        ((List.range N).map (fun i => quantity (blk i).GasLimit)).sum % 2 ^ 64 := by
      rw [hgas.2]; show (0 + _) % _ = _; rw [Nat.zero_add]
    have htx : t.totalTxs =
        ((List.range N).map (fun i => (blk i).Transactions.length)).sum := by
      rw [hsums.1]; show 0 + _ = _; rw [Nat.zero_add]
    have hagg := setAggregated_fields N m2 t hN
    have hmod : 0 < ((List.range N).map (fun i => quantity (blk i).GasLimit)).sum % 2 ^ 64 →
        m3.avgGasUtilization =
          (((((List.range N).map (fun i => quantity (blk i).GasUsed)).sum % 2 ^ 64 : Nat) : ℚ) /
           ((((List.range N).map (fun i => quantity (blk i).GasLimit)).sum % 2 ^ 64 : Nat) : ℚ))
          * 100 := by
      intro hpos
      rw [hsame.2.1, hagg.2.2.1 (by rw [hl]; exact hpos), hu, hl]
    refine ⟨herr, ?_, hmod, ?_⟩
    · rw [hsame.1, hagg.1, htx]
    · intro hpos hfu hfl
      have h := hmod (by rw [Nat.mod_eq_of_lt hfl]; exact hpos)
      rw [Nat.mod_eq_of_lt hfl, Nat.mod_eq_of_lt hfu] at h
      exact h


theorem nodeA_timestamps : ∀ hex b, nodeA.eth_getBlockByNumber hex false = BlockReply.block b →
    b.Timestamp.length ≠ 1 := by
  intro hex b h
  simp only [nodeA] at h
  split_ifs at h <;> (rw [← BlockReply.block.inj h]; decide)

theorem window_averages_witness :
    (∃ m3, CollectMetrics 3 nodeA {} = Result.returned m3 none ∧
      m3.avgTransactionsPerBlock = 1 ∧ m3.avgGasUtilization = 25) ∧
    (∃ m3, CollectMetrics 5 nodeA {} = Result.returned m3 none ∧
      m3.avgTransactionsPerBlock = 3 / 5 ∧ m3.avgGasUtilization = 25) := by
  obtain ⟨m1, h1⟩ : ∃ m1, chainPhase nodeA {} = Call.done m1 100 := ⟨_, rfl⟩
  have hfetch : ∀ i, i < 5 → fetched nodeA 100 i = some (blkA i) := by
    intro i hi
    interval_cases i <;> rfl
  have hwf : ∀ i, i < 5 → (blkA i).wellFormed := by
    intro i hi
    interval_cases i <;> decide
  constructor
  · have hw := window_averages 3 nodeA {} m1 100 blkA (by decide) h1
      (fun i hi => hfetch i (by omega))
    obtain ⟨m3, hret⟩ := hw.1 (fun i hi => hwf i (by omega)) nodeA_timestamps
    obtain ⟨_, htx, _, hgas⟩ := hw.2 m3 none hret
    have e1 : ((List.range 3).map (fun i => (blkA i).Transactions.length)).sum = 3 := by decide
    have e2 : ((List.range 3).map (fun i => quantity (blkA i).GasUsed)).sum = 75 := by decide
    have e3 : ((List.range 3).map (fun i => quantity (blkA i).GasLimit)).sum = 300 := by decide
    refine ⟨m3, hret, ?_, ?_⟩
    · rw [htx, e1]; norm_num
    · rw [hgas (by rw [e3]; decide) (by rw [e2]; decide) (by rw [e3]; decide), e2, e3]; norm_num
  · have hw := window_averages 5 nodeA {} m1 100 blkA (by decide) h1 hfetch
    obtain ⟨m3, hret⟩ := hw.1 hwf nodeA_timestamps
    obtain ⟨_, htx, _, hgas⟩ := hw.2 m3 none hret
    have e1 : ((List.range 5).map (fun i => (blkA i).Transactions.length)).sum = 3 := by decide
    have e2 : ((List.range 5).map (fun i => quantity (blkA i).GasUsed)).sum = 175 := by decide
    have e3 : ((List.range 5).map (fun i => quantity (blkA i).GasLimit)).sum = 700 := by decide
    refine ⟨m3, hret, ?_, ?_⟩
    · rw [htx, e1]; norm_num
    · rw [hgas (by rw [e3]; decide) (by rw [e2]; decide) (by rw [e3]; decide), e2, e3]; norm_num

theorem length_range_filter_ne (N j : Nat) (hj : j < N) :
    ((List.range N).filter (fun i => decide (i ≠ j))).length = N - 1 := by
  have hnd : (List.range N).Nodup := List.nodup_range N
  have hc : (List.range N).count j = 1 :=
    List.count_eq_one_of_mem hnd (List.mem_range.mpr hj)
  have hsplit := List.length_eq_countP_add_countP (fun i => decide (i = j)) (List.range N)
  rw [List.length_range] at hsplit
  rw [← List.countP_eq_length_filter]
  have e1 : List.countP (fun i => decide (i = j)) (List.range N) = 1 := by
    rw [← hc, List.count]
    congr 1
  have e2 : (fun i => decide (i ≠ j)) = (fun i => !decide (i = j)) := by
    funext i
    exact decide_not
  rw [e2]
  simp only [Bool.not_eq_true, Bool.decide_eq_false] at hsplit
  omega

/-- C10: a cycle in which the fetch of one block `j` of the `N` window blocks
fails returns `nil` (it does return when no quantity field of the other blocks
has exactly one byte); what it publishes is set from the totals folded from
exactly the `N - 1` blocks that did fetch, the failed block adding nothing
to any total; and the average transactions per block and the average unique
addresses per block are these totals divided by `N`, not by `N - 1`. -/
theorem one_failed_fetch (N : Nat) (c : Node) (m m1 : Metrics) (head : Nat) (blk : Nat → Block)
    (j : Nat) (hj : j < N)
    (hchain : chainPhase c m = Call.done m1 head)
    (hfail : fetched c head j = none)
    (hfetch : ∀ i, i < N → i ≠ j → fetched c head i = some (blk i)) :
    ((∀ i, i < N → i ≠ j → (blk i).wellFormed) →
      (∀ hex b, c.eth_getBlockByNumber hex false = BlockReply.block b →
        b.Timestamp.length ≠ 1) →
      ∃ m3, CollectMetrics N c m = Result.returned m3 none) ∧
    ∀ m3 err, CollectMetrics N c m = Result.returned m3 err →
      err = none ∧
      ((List.range N).filter (fun i => decide (i ≠ j))).length = N - 1 ∧
      ∃ t : Totals,
        foldBlocks (((List.range N).filter (fun i => decide (i ≠ j))).map blk) {} = some t ∧
        t.totalTxs = (((List.range N).filter (fun i => decide (i ≠ j))).map
          (fun i => (blk i).Transactions.length)).sum ∧
        m3.avgTransactionsPerBlock = (t.totalTxs : ℚ) / (N : ℚ) ∧
        m3.avgUniqueAddressesPerBlock = (t.totalUniqueAddresses : ℚ) / (N : ℚ) ∧
        m3.totalContractCalls = (t.totalContractCallsCount : ℚ) ∧
        m3.totalSimpleTransfers = (t.totalSimpleTransfersCount : ℚ) ∧
        m3.totalValueTransferredWei = ((roundToFloat64 t.totalValue : Nat) : ℚ) ∧
        (0 < t.totalGasLimit →
          m3.avgGasUtilization = (t.totalGasUsed : ℚ) / (t.totalGasLimit : ℚ) * 100) ∧
        (0 < t.totalGasPriceCount →
          m3.avgGasPriceWei = (t.totalGasPrice : ℚ) / (t.totalGasPriceCount : ℚ)) ∧
        (∀ k n, t.txTypeCountTotal k = some n → m3.transactionTypes k = some (n : ℚ)) := by
  have hN : 0 < N := by omega
  have hall : (List.range N).filterMap (fetched c head) =
      ((List.range N).filter (fun i => decide (i ≠ j))).map blk :=
    filterMap_fetched_but_one c head blk j _ hfail
      (fun i hi hij => hfetch i (List.mem_range.mp hi) hij)
  constructor
  · intro hwf hts
    have hwf1 : ∀ b ∈ (List.range N).filterMap (fetched c head), b.wellFormed := by
      intro b hb
      rw [hall] at hb
      obtain ⟨i, hi, rfl⟩ := List.mem_map.mp hb
      have hi1 := List.mem_filter.mp hi
      exact hwf i (List.mem_range.mp hi1.1) (by simpa using hi1.2)
    obtain ⟨_, _, m3, _, hret, _⟩ := CollectMetrics_returns N c m m1 head hchain hwf1 hts
    exact ⟨m3, hret⟩
  · intro m3 err hret
    obtain ⟨herr, t, m2, hfold, hsame⟩ := CollectMetrics_spec N c m m1 m3 head err hchain hret
    rw [hall] at hfold
    have hsums := foldBlocks_sums _ _ _ hfold
    simp only [List.map_map, Function.comp_def] at hsums
    have hagg := setAggregated_fields N m2 t hN
    have hmore := setAggregated_more N m2 t hN
    obtain ⟨s1, s2, s3, s4, s5, s6, s7, s8⟩ := hsame
    refine ⟨herr, length_range_filter_ne N j hj, t, hfold, ?_, ?_, ?_, ?_, ?_, ?_, ?_, ?_, ?_⟩
    · rw [hsums.1]; show 0 + _ = _; rw [Nat.zero_add]
    · rw [s1, hagg.1]
    · rw [s4, hagg.2.1]
    · rw [s5, hagg.2.2.2.2.1]
    · rw [s6, hagg.2.2.2.2.2.1]
    · rw [s7, hagg.2.2.2.2.2.2]
    · intro h; rw [s2, hagg.2.2.1 h]
    · intro h; rw [s3, hmore.1 h]
    · intro k n hk; rw [s8, hmore.2 k n hk]

theorem nodeB_timestamps : ∀ hex b, nodeB.eth_getBlockByNumber hex false = BlockReply.block b →
    b.Timestamp.length ≠ 1 := by
  intro hex b h
  have h1 : nodeA.eth_getBlockByNumber hex false = BlockReply.block b := by
    simpa [nodeB] using h
  exact nodeA_timestamps hex b h1

theorem one_failed_fetch_witness :
    fetched nodeB 100 1 = none ∧
    (∃ m3, CollectMetrics 3 nodeB {} = Result.returned m3 none ∧
      m3.avgTransactionsPerBlock = (((blkA 0).Transactions.length +
        (blkA 2).Transactions.length : Nat) : ℚ) / 3 ∧
      m3.avgTransactionsPerBlock = 1 ∧ m3.avgUniqueAddressesPerBlock = 4 / 3) ∧
    (∃ m3, CollectMetrics 5 nodeB {} = Result.returned m3 none ∧
      m3.avgTransactionsPerBlock = 3 / 5 ∧ m3.avgUniqueAddressesPerBlock = 4 / 5) := by
  refine ⟨rfl, ?_, ?_⟩
  · obtain ⟨m1, h1⟩ : ∃ m1, chainPhase nodeB {} = Call.done m1 100 := ⟨_, rfl⟩
    have hfetch : ∀ i, i < 3 → i ≠ 1 → fetched nodeB 100 i = some (blkA i) := by
      intro i hi hne
      interval_cases i
      · rfl
      · exact absurd rfl hne
      · rfl
    have hwf : ∀ i, i < 3 → i ≠ 1 → (blkA i).wellFormed := by
      intro i hi _
      interval_cases i <;> decide
    have hw := one_failed_fetch 3 nodeB {} m1 100 blkA 1 (by decide) h1 rfl hfetch
    obtain ⟨m3, hret⟩ := hw.1 hwf nodeB_timestamps
    obtain ⟨_, _, t, hfold, htx, havg, huniq, _⟩ := hw.2 m3 none hret
    have e1 : (((List.range 3).filter (fun i => decide (i ≠ 1))).map
        (fun i => (blkA i).Transactions.length)).sum = 3 := by decide
    have e2 : t.totalUniqueAddresses = 4 := by
      have hf : foldBlocks (((List.range 3).filter (fun i => decide (i ≠ 1))).map blkA) {} =
          some (((foldBlocks (((List.range 3).filter (fun i => decide (i ≠ 1))).map blkA)
            {}).getD {})) := rfl
      rw [hf] at hfold
      rw [← Option.some.inj hfold]
      rfl
    rw [htx, e1] at havg
    rw [e2] at huniq
    refine ⟨m3, hret, ?_, ?_, ?_⟩
    · rw [havg]; norm_num [blkA]
    · rw [havg]; norm_num
    · rw [huniq]; norm_num
  · obtain ⟨m1, h1⟩ : ∃ m1, chainPhase nodeB {} = Call.done m1 100 := ⟨_, rfl⟩
    have hfetch : ∀ i, i < 5 → i ≠ 1 → fetched nodeB 100 i = some (blkA i) := by
      intro i hi hne
      interval_cases i
      · rfl
      · exact absurd rfl hne
      · rfl
      · rfl
      · rfl
    have hwf : ∀ i, i < 5 → i ≠ 1 → (blkA i).wellFormed := by
      intro i hi _
      interval_cases i <;> decide
    have hw := one_failed_fetch 5 nodeB {} m1 100 blkA 1 (by decide) h1 rfl hfetch
    obtain ⟨m3, hret⟩ := hw.1 hwf nodeB_timestamps
    obtain ⟨_, _, t, hfold, htx, havg, huniq, _⟩ := hw.2 m3 none hret
    have e1 : (((List.range 5).filter (fun i => decide (i ≠ 1))).map
        (fun i => (blkA i).Transactions.length)).sum = 3 := by decide
    have e2 : t.totalUniqueAddresses = 4 := by
      have hf : foldBlocks (((List.range 5).filter (fun i => decide (i ≠ 1))).map blkA) {} =
          some (((foldBlocks (((List.range 5).filter (fun i => decide (i ≠ 1))).map blkA)
            {}).getD {})) := rfl
      rw [hf] at hfold
      rw [← Option.some.inj hfold]
      rfl
    rw [htx, e1] at havg
    rw [e2] at huniq
    refine ⟨m3, hret, ?_, ?_⟩
    · rw [havg]; norm_num
    · rw [huniq]; norm_num

theorem sameWindowGauges_refl (m : Metrics) : sameWindowGauges m m :=
  ⟨rfl, rfl, rfl, rfl, rfl, rfl, rfl, rfl, rfl, rfl⟩

theorem sameWindowGauges_trans {a b d : Metrics} (h1 : sameWindowGauges a b)
    (h2 : sameWindowGauges b d) : sameWindowGauges a d := by
  obtain ⟨a1, a2, a3, a4, a5, a6, a7, a8, a9, a10⟩ := h1
  obtain ⟨b1, b2, b3, b4, b5, b6, b7, b8, b9, b10⟩ := h2
  exact ⟨b1.trans a1, b2.trans a2, b3.trans a3, b4.trans a4, b5.trans a5, b6.trans a6,
    b7.trans a7, b8.trans a8, b9.trans a9, b10.trans a10⟩

theorem sameWindowGauges_countError (m : Metrics) (k : GoString) :
    sameWindowGauges m (countError m k) :=
  ⟨rfl, rfl, rfl, rfl, rfl, rfl, rfl, rfl, rfl, rfl⟩

/-- A single-value string request leaves the window gauges alone. -/
theorem stringCall_frame (method : GoString) (r : Reply) (m m1 : Metrics) :
    (∀ v, stringCall method r m = Call.done m1 v → m1 = m) ∧
    (∀ e, stringCall method r m = Call.fail m1 e → sameWindowGauges m m1) := by
  unfold stringCall
  constructor
  · intro v h
    split at h
    · exact absurd h (by simp)
    · exact absurd h (by simp)
    · exact (Call.done.inj h).1.symm
  · intro e h
    split at h
    · rw [← (Call.fail.inj h).1]; exact sameWindowGauges_countError m method
    · exact absurd h (by simp)
    · exact absurd h (by simp)

/-- A single-value quantity request leaves the window gauges alone. -/
theorem quantityCall_frame (method : GoString) (r : Reply) (m m1 : Metrics) :
    (∀ v, quantityCall method r m = Call.done m1 v → m1 = m) ∧
    (∀ e, quantityCall method r m = Call.fail m1 e → sameWindowGauges m m1) := by
  unfold quantityCall
  constructor
  · intro v h
    split at h
    · exact absurd h (by simp)
    · exact absurd h (by simp)
    · split at h
      · exact absurd h (by simp)
      · split at h
        · exact (Call.done.inj h).1.symm
        · exact absurd h (by simp)
  · intro e h
    split at h
    · rw [← (Call.fail.inj h).1]; exact sameWindowGauges_countError m method
    · exact absurd h (by simp)
    · split at h
      · exact absurd h (by simp)
      · split at h
        · exact absurd h (by simp)
        · rw [← (Call.fail.inj h).1]; exact sameWindowGauges_refl m

/-- The chain phase leaves the window gauges alone, whether it yields the head
block number or an error. -/
theorem chainPhase_frame (c : Node) (m m1 : Metrics) :
    (∀ head, chainPhase c m = Call.done m1 head → sameWindowGauges m m1) ∧
    (∀ e, chainPhase c m = Call.fail m1 e → sameWindowGauges m m1) := by
  unfold chainPhase
  cases h1 : GetChainID c m with
  | panic => exact ⟨fun _ h => absurd h (by simp), fun _ h => absurd h (by simp)⟩
  | fail ma e1 =>
    have f1 := (stringCall_frame _ _ m ma).2 e1 h1
    refine ⟨fun _ h => absurd h (by simp), fun e h => ?_⟩
    rw [← (Call.fail.inj h).1]; exact f1
  | done ma chainID =>
    have ea : ma = m := (stringCall_frame _ _ m ma).1 chainID h1
    subst ea
    dsimp only
    cases h2 : GetClientVersion c ma with
    | panic => exact ⟨fun _ h => absurd h (by simp), fun _ h => absurd h (by simp)⟩
    | fail mb e2 =>
      have f2 := (stringCall_frame _ _ ma mb).2 e2 h2
      refine ⟨fun _ h => absurd h (by simp), fun e h => ?_⟩
      rw [← (Call.fail.inj h).1]; exact f2
    | done mb clientVersion =>
      have eb : mb = ma := (stringCall_frame _ _ ma mb).1 clientVersion h2
      subst eb
      dsimp only
      cases h3 : hexToUint64 chainID with
      | none => exact ⟨fun _ h => absurd h (by simp), fun _ h => absurd h (by simp)⟩
      | some d =>
        dsimp only
        generalize hm3 : ({ mb with
          chainInfo := fun a b e =>
            if a = sprintfD d ∧ b = clientVersion ∧ e = str "monad-testnet" then some 1
            else mb.chainInfo a b e } : Metrics) = m3
        have f3 : sameWindowGauges mb m3 := by
          rw [← hm3]; exact ⟨rfl, rfl, rfl, rfl, rfl, rfl, rfl, rfl, rfl, rfl⟩
        cases h4 : GetBlockNumber c m3 with
        | panic => exact ⟨fun _ h => absurd h (by simp), fun _ h => absurd h (by simp)⟩
        | fail m4 e4 =>
          have f4 := (quantityCall_frame _ _ m3 m4).2 e4 h4
          refine ⟨fun _ h => absurd h (by simp), fun e h => ?_⟩
          rw [← (Call.fail.inj h).1]; exact sameWindowGauges_trans f3 f4
        | done m4 currentBlock =>
          have e4 : m4 = m3 := (quantityCall_frame _ _ m3 m4).1 currentBlock h4
          subst e4
          dsimp only
          generalize hm5 : ({ m4 with currentBlockNumber := (currentBlock : ℚ) } : Metrics) = m5
          have f5 : sameWindowGauges m4 m5 := by
            rw [← hm5]; exact ⟨rfl, rfl, rfl, rfl, rfl, rfl, rfl, rfl, rfl, rfl⟩
          cases h6 : GetGasPrice c m5 with
          | panic => exact ⟨fun _ h => absurd h (by simp), fun _ h => absurd h (by simp)⟩
          | fail m6 e6 =>
            have f6 := (quantityCall_frame _ _ m5 m6).2 e6 h6
            refine ⟨fun _ h => absurd h (by simp), fun e h => ?_⟩
            rw [← (Call.fail.inj h).1]
            exact sameWindowGauges_trans f3 (sameWindowGauges_trans f5 f6)
          | done m6 currentGasPrice =>
            have e6 : m6 = m5 := (quantityCall_frame _ _ m5 m6).1 currentGasPrice h6
            subst e6
            dsimp only
            generalize hm7 : ({ m6 with
              gasPrice := (currentGasPrice : ℚ)
              gasPriceGwei := (currentGasPrice : ℚ) / 1000000000 } : Metrics) = m7
            have f7 : sameWindowGauges m6 m7 := by
              rw [← hm7]; exact ⟨rfl, rfl, rfl, rfl, rfl, rfl, rfl, rfl, rfl, rfl⟩
            have f37 := sameWindowGauges_trans f3 (sameWindowGauges_trans f5 f7)
            cases h8 : GetMaxPriorityFeePerGas c m7 with
            | panic => exact ⟨fun _ h => absurd h (by simp), fun _ h => absurd h (by simp)⟩
            | fail m8 e8 =>
              have f8 := (quantityCall_frame _ _ m7 m8).2 e8 h8
              refine ⟨fun head h => ?_, fun _ h => absurd h (by simp)⟩
              rw [← (Call.done.inj h).1]
              exact sameWindowGauges_trans f37 f8
            | done m8 fee =>
              have e8 : m8 = m7 := (quantityCall_frame _ _ m7 m8).1 fee h8
              subst e8
              refine ⟨fun head h => ?_, fun _ h => absurd h (by simp)⟩
              rw [← (Call.done.inj h).1]
              exact sameWindowGauges_trans f37 ⟨rfl, rfl, rfl, rfl, rfl, rfl, rfl, rfl, rfl, rfl⟩

theorem sameWindowGauges_setCurrentBlock (m : Metrics) (a b d e f : Nat) :
    sameWindowGauges m (setCurrentBlock m a b d e f) := by
  unfold setCurrentBlock
  dsimp only
  split
  · exact ⟨rfl, rfl, rfl, rfl, rfl, rfl, rfl, rfl, rfl, rfl⟩
  · exact ⟨rfl, rfl, rfl, rfl, rfl, rfl, rfl, rfl, rfl, rfl⟩

theorem processBlock_frame (i : Nat) (b : Block) (m m1 : Metrics) (t t1 : Totals)
    (h : processBlock i b m t = some (m1, t1)) : sameWindowGauges m m1 := by
  unfold processBlock at h
  split at h
  · exact absurd h (by simp)
  · split at h
    · exact absurd h (by simp)
    · split at h
      · exact absurd h (by simp)
      · split at h
        · exact absurd h (by simp)
        · dsimp only at h
          split at h
          · exact absurd h (by simp)
          · have hm := (Prod.mk.inj (Option.some.inj h)).1
            rw [← hm]
            split
            · exact sameWindowGauges_setCurrentBlock _ _ _ _ _ _
            · exact sameWindowGauges_refl m

theorem loopBody_frame (c : Node) (head i : Nat) (m m1 : Metrics) (t t1 : Totals)
    (h : loopBody c head i m t = some (m1, t1)) : sameWindowGauges m m1 := by
  unfold loopBody GetBlock at h
  dsimp only at h
  split at h
  · exact absurd h (by simp)
  · rename_i m2 e heq
    have hm := (Prod.mk.inj (Option.some.inj h)).1
    rw [← hm]
    split at heq
    · rw [← (Call.fail.inj heq).1]; exact sameWindowGauges_countError m _
    · rw [← (Call.fail.inj heq).1]; exact sameWindowGauges_refl m
    · exact absurd heq (by simp)
  · rename_i m2 blk heq
    have f := processBlock_frame i blk m2 m1 t t1 h
    split at heq
    · exact absurd heq (by simp)
    · exact absurd heq (by simp)
    · rw [← (Call.done.inj heq).1] at f; exact f

/-- The window loop leaves the window gauges alone. -/
theorem windowLoop_frame (c : Node) (head : Nat) (is : List Nat) :
    ∀ (m m1 : Metrics) (t t1 : Totals),
    windowLoop c head is m t = some (m1, t1) → sameWindowGauges m m1 := by
  induction is with
  | nil =>
    intro m m1 t t1 h
    simp only [windowLoop, Option.some.injEq, Prod.mk.injEq] at h
    rw [← h.1]; exact sameWindowGauges_refl m
  | cons i rest ih =>
    intro m m1 t t1 h
    rw [windowLoop] at h
    split at h
    · exact absurd h (by simp)
    · rename_i m2 t2 hb
      exact sameWindowGauges_trans (loopBody_frame c head i m m2 t t2 hb) (ih m2 m1 t2 t1 h)

/-- A decoded quantity fits in 64 bits. -/
theorem parseLoop_lt (s : GoString) : ∀ n, n < 2 ^ 64 → (parseLoop s n).1 < 2 ^ 64 := by
  induction s with
  | nil => intro n hn; exact hn
  | cons c s ih =>
    intro n hn
    rw [parseLoop]
    split
    · decide
    · dsimp only
      split
      · decide
      · split
        · decide
        · split
          · decide
          · exact ih _ (Nat.mod_lt _ (by decide))

theorem hexToUint64_lt (s : GoString) (v : Nat) (h : hexToUint64 s = some v) : v < 2 ^ 64 := by
  unfold hexToUint64 at h
  split at h
  · rw [← Option.some.inj h]; decide
  · split at h
    · exact absurd h (by simp)
    · rw [← Option.some.inj h]
      unfold ParseUint
      split
      · decide
      · exact parseLoop_lt _ 0 (by decide)

theorem sub64_of_le (a b : Nat) (ha : a < 2 ^ 64) (hb : b ≤ a) : sub64 a b = a - b := by
  unfold sub64
  have hb1 : b % 2 ^ 64 = b := Nat.mod_eq_of_lt (by omega)
  rw [hb1]
  omega

theorem timestampOf_fetchTimestamp (c : Node) (hex : GoString) (m m1 : Metrics)
    (ts : Option Nat) (h : fetchTimestamp c hex m = some (m1, ts)) :
    timestampOf c hex = ts := by
  unfold fetchTimestamp at h
  unfold timestampOf
  split at h
  · rename_i heq; rw [heq]; exact (Prod.mk.inj (Option.some.inj h)).2
  · rename_i heq; rw [heq]; exact (Prod.mk.inj (Option.some.inj h)).2
  · rename_i b heq
    rw [heq]
    dsimp only
    split at h
    · exact absurd h (by simp)
    · rename_i v hv
      rw [hv]; exact (Prod.mk.inj (Option.some.inj h)).2

theorem fetchTimestamp_gauges (c : Node) (hex : GoString) (m m1 : Metrics)
    (ts : Option Nat) (h : fetchTimestamp c hex m = some (m1, ts)) :
    m1.avgBlockTime = m.avgBlockTime ∧ m1.transactionsPerSecond = m.transactionsPerSecond := by
  rcases fetchTimestamp_frame c hex m m1 ts h with h1 | h1
  · rw [h1]; exact ⟨rfl, rfl⟩
  · rw [h1]; exact ⟨rfl, rfl⟩

/-- The two gauges of the block-time phase: they are set, both, exactly when
the window has more than one block, both timestamps are read and the head
timestamp is the greater; otherwise both are left as they were. -/
theorem blockTimePhase_cases (N : Nat) (c : Node) (head tot : Nat) (m m1 : Metrics)
    (h : blockTimePhase N c head tot m = some m1) :
    (1 < N ∧ ∃ f cu, timestampOf c (sprintf0x (sub64 head ((N - 1) % 2 ^ 64))) = some f ∧
      timestampOf c (sprintf0x head) = some cu ∧ f < cu ∧
      (0 : ℚ) < (((cu - f : Nat) : ℚ) / ((N - 1 : Nat) : ℚ)) ∧
      m1.avgBlockTime = ((cu - f : Nat) : ℚ) / ((N - 1 : Nat) : ℚ) ∧
      m1.transactionsPerSecond =
        ((tot : ℚ) / (N : ℚ)) / (((cu - f : Nat) : ℚ) / ((N - 1 : Nat) : ℚ))) ∨
    (¬ (1 < N ∧ ∃ f cu, timestampOf c (sprintf0x (sub64 head ((N - 1) % 2 ^ 64))) = some f ∧
      timestampOf c (sprintf0x head) = some cu ∧ f < cu) ∧
      m1.avgBlockTime = m.avgBlockTime ∧
      m1.transactionsPerSecond = m.transactionsPerSecond) := by
  unfold blockTimePhase at h
  split at h
  · rename_i hN
    dsimp only at h
    split at h
    · exact absurd h (by simp)
    · rename_i m2 h1
      have t1 := timestampOf_fetchTimestamp _ _ _ _ _ h1
      have g1 := fetchTimestamp_gauges _ _ _ _ _ h1
      right
      rw [← Option.some.inj h]
      refine ⟨?_, g1.1, g1.2⟩
      rintro ⟨_, f, cu, hf, _⟩
      rw [t1] at hf
      exact absurd hf (by simp)
    · rename_i m2 ts1 h1
      have t1 := timestampOf_fetchTimestamp _ _ _ _ _ h1
      have g1 := fetchTimestamp_gauges _ _ _ _ _ h1
      split at h
      · exact absurd h (by simp)
      · rename_i m3 h2
        have t2 := timestampOf_fetchTimestamp _ _ _ _ _ h2
        have g2 := fetchTimestamp_gauges _ _ _ _ _ h2
        right
        rw [← Option.some.inj h]
        refine ⟨?_, g2.1.trans g1.1, g2.2.trans g1.2⟩
        rintro ⟨_, f, cu, _, hcu, _⟩
        rw [t2] at hcu
        exact absurd hcu (by simp)
      · rename_i m3 ts2 h2
        have t2 := timestampOf_fetchTimestamp _ _ _ _ _ h2
        have g2 := fetchTimestamp_gauges _ _ _ _ _ h2
        rw [← Option.some.inj h]
        by_cases hlt : ts1 < ts2
        · left
          have htsb : ts2 < 2 ^ 64 := by
            unfold timestampOf at t2
            split at t2
            · exact hexToUint64_lt _ _ t2
            · exact absurd t2 (by simp)
          have hsub : sub64 ts2 ts1 = ts2 - ts1 := sub64_of_le ts2 ts1 htsb (by omega)
          have hpos : (0 : ℚ) < (((ts2 - ts1 : Nat) : ℚ) / ((N - 1 : Nat) : ℚ)) := by
            apply div_pos
            · exact_mod_cast (by omega : 0 < ts2 - ts1)
            · exact_mod_cast (by omega : 0 < N - 1)
          refine ⟨hN, ts1, ts2, t1, t2, hlt, hpos, ?_, ?_⟩
          · unfold setBlockTime
            rw [if_pos hlt, hsub]
            dsimp only
            rw [if_pos hpos]
          · unfold setBlockTime
            rw [if_pos hlt, hsub]
            dsimp only
            rw [if_pos hpos]
        · right
          refine ⟨?_, ?_, ?_⟩
          · rintro ⟨_, f, cu, hf, hcu, hfc⟩
            rw [t1] at hf
            rw [t2] at hcu
            rw [Option.some.inj hf, Option.some.inj hcu] at hlt
            exact hlt hfc
          · unfold setBlockTime
            rw [if_neg hlt]
            exact g2.1.trans g1.1
          · unfold setBlockTime
            rw [if_neg hlt]
            exact g2.2.trans g1.2
  · rename_i hN
    right
    rw [← Option.some.inj h]
    exact ⟨fun hc => hN hc.1, rfl, rfl⟩

/-- The outcome of a cycle that returns: an error of the chain phase, or `nil`
after the three steps of the window phase. -/
theorem CollectMetrics_cases (N : Nat) (c : Node) (m m3 : Metrics) (err : Option Error)
    (hret : CollectMetrics N c m = Result.returned m3 err) :
    (∃ e, err = some e ∧ chainPhase c m = Call.fail m3 e) ∨
    (err = none ∧ ∃ m1 head t m2, chainPhase c m = Call.done m1 head ∧
      windowLoop c head (List.range N) m1 {} = some (m2, t) ∧
      foldBlocks ((List.range N).filterMap (fetched c head)) {} = some t ∧
      blockTimePhase N c head t.totalTxs (setAggregated N m2 t) = some m3) := by
  unfold CollectMetrics at hret
  cases hc : chainPhase c m with
  | panic => rw [hc] at hret; exact absurd hret (by simp)
  | fail m1 e =>
    rw [hc] at hret
    left
    have h := Result.returned.inj hret
    exact ⟨e, h.2.symm, by rw [h.1]⟩
  | done m1 head =>
    rw [hc] at hret
    right
    dsimp only at hret
    unfold windowPhase at hret
    have hw := windowLoop_totals c head (List.range N) m1 {}
    cases hl : windowLoop c head (List.range N) m1 {} with
    | none => rw [hl] at hret; exact absurd hret (by simp)
    | some r =>
      obtain ⟨m2, t⟩ := r
      rw [hl] at hret hw
      dsimp only at hret
      cases hb : blockTimePhase N c head t.totalTxs (setAggregated N m2 t) with
      | none => rw [hb] at hret; exact absurd hret (by simp)
      | some m4 =>
        rw [hb] at hret
        have h := Result.returned.inj hret
        have hw1 : foldBlocks ((List.range N).filterMap (fetched c head)) {} = some t := hw.symm
        refine ⟨h.2.symm, m1, head, t, m2, rfl, hl, hw1, ?_⟩
        rw [← h.1]
        exact hb

/-- What the aggregated gauges leave alone or keep. -/
theorem setAggregated_frame (N : Nat) (m : Metrics) (t : Totals) :
    (setAggregated N m t).avgBlockTime = m.avgBlockTime ∧
    (setAggregated N m t).transactionsPerSecond = m.transactionsPerSecond ∧
    (t.totalGasLimit = 0 → (setAggregated N m t).avgGasUtilization = m.avgGasUtilization) ∧
    (∀ k, t.txTypeCountTotal k = none →
      (setAggregated N m t).transactionTypes k = m.transactionTypes k) := by
  unfold setAggregated
  by_cases hN : N > 0
  · rw [if_pos hN]
    refine ⟨?_, ?_, ?_, ?_⟩
    · dsimp only; split_ifs <;> rfl
    · dsimp only; split_ifs <;> rfl
    · intro h
      have h0 : ¬ (t.totalGasLimit > 0) := by omega
      dsimp only
      rw [if_neg h0]
      split_ifs <;> rfl
    · intro k hk
      dsimp only
      rw [hk]
      split_ifs <;> rfl
  · rw [if_neg hN]
    refine ⟨rfl, rfl, fun _ => rfl, ?_⟩
    intro k hk
    dsimp only
    rw [hk]

theorem foldBlocks_nil_of_all_failed (c : Node) (head : Nat) (is : List Nat)
    (h : ∀ i ∈ is, fetched c head i = none) : is.filterMap (fetched c head) = [] := by
  induction is with
  | nil => rfl
  | cons i rest ih =>
    rw [List.filterMap_cons, h i (List.mem_cons_self _ _)]
    exact ih (fun x hx => h x (List.mem_cons_of_mem _ hx))

/-- C13: a cycle changes the average gas utilization gauge only when the gas
limit accumulated over the fetched blocks (their decoded gas limits summed in
`uint64`) is more than 0, and then sets it to accumulated gas used over
accumulated gas limit times 100; when the accumulated limit is 0, as when
every block fetch failed, the gauge keeps the value it had before the cycle,
the division not being evaluated. -/
theorem avgGasUtilization_guard (N : Nat) (c : Node) (m m3 : Metrics) (err : Option Error)
    (hret : CollectMetrics N c m = Result.returned m3 err) :
    (m3.avgGasUtilization = m.avgGasUtilization ∨
      ∃ m1 head t, chainPhase c m = Call.done m1 head ∧
        foldBlocks ((List.range N).filterMap (fetched c head)) {} = some t ∧
        0 < t.totalGasLimit ∧
        m3.avgGasUtilization = (t.totalGasUsed : ℚ) / (t.totalGasLimit : ℚ) * 100) ∧
    (∀ m1 head t, chainPhase c m = Call.done m1 head →
      foldBlocks ((List.range N).filterMap (fetched c head)) {} = some t →
      t.totalGasLimit = (((List.range N).filterMap (fetched c head)).map
          (fun b => quantity b.GasLimit)).sum % 2 ^ 64 ∧
      (t.totalGasLimit = 0 → m3.avgGasUtilization = m.avgGasUtilization)) ∧
    (∀ m1 head, chainPhase c m = Call.done m1 head →
      (∀ i, i < N → fetched c head i = none) →
      m3.avgGasUtilization = m.avgGasUtilization) := by
  rcases CollectMetrics_cases N c m m3 err hret with ⟨e, _, hfail⟩ | ⟨_, m1, head, t, m2, hc, hl, hf, hb⟩
  · have hfr := (chainPhase_frame c m m3).2 e hfail
    refine ⟨Or.inl hfr.2.2.1, ?_, ?_⟩
    · intro m1 head t hc; rw [hfail] at hc; exact absurd hc (by simp)
    · intro m1 head hc; rw [hfail] at hc; exact absurd hc (by simp)
  · have f1 := (chainPhase_frame c m m1).1 head hc
    have f2 := windowLoop_frame c head _ m1 m2 {} t hl
    have f3 := sameAggregates_blockTimePhase _ _ _ _ _ _ hb
    have h12 : m2.avgGasUtilization = m.avgGasUtilization := f2.2.2.1.trans f1.2.2.1
    have hzero : t.totalGasLimit = 0 → m3.avgGasUtilization = m.avgGasUtilization := by
      intro h0
      rw [f3.2.1, (setAggregated_frame N m2 t).2.2.1 h0, h12]
    refine ⟨?_, ?_, ?_⟩
    · by_cases h0 : t.totalGasLimit = 0
      · exact Or.inl (hzero h0)
      · right
        have hpos : 0 < t.totalGasLimit := by omega
        refine ⟨m1, head, t, hc, hf, hpos, ?_⟩
        by_cases hN : 0 < N
        · rw [f3.2.1, (setAggregated_fields N m2 t hN).2.2.1 hpos]
        · exfalso
          have hN0 : N = 0 := by omega
          subst hN0
          simp only [List.range_zero, List.filterMap_nil, foldBlocks, Option.some.injEq] at hf
          rw [← hf] at hpos
          exact absurd hpos (by decide)
    · intro m1' head' t' hc' hf'
      rw [hc] at hc'
      have hh : head = head' := (Call.done.inj hc').2
      subst hh
      rw [hf] at hf'
      have ht : t = t' := Option.some.inj hf'
      subst ht
      have hg := (foldBlocks_gas _ _ _ hf (by decide) (by decide)).2
      refine ⟨?_, hzero⟩
      rw [hg]; show (0 + _) % _ = _; rw [Nat.zero_add]
    · intro m1' head' hc' hall
      rw [hc] at hc'
      have hh : head = head' := (Call.done.inj hc').2
      subst hh
      rw [foldBlocks_nil_of_all_failed c head _
        (fun i hi => hall i (List.mem_range.mp hi))] at hf
      simp only [foldBlocks, Option.some.injEq] at hf
      apply hzero
      rw [← hf]

/-- C14: a cycle changes the average block time gauge only when the window has
more than one block, both timestamp requests succeed and the head block's
timestamp is strictly greater than the oldest window block's; the TPS gauge is
changed only then too, the computed average block time being greater than 0.
In every other case (equal or decreasing timestamps, a failed timestamp
fetch, an error of the chain phase) both gauges keep their previous value. -/
theorem blockTime_guard (N : Nat) (c : Node) (m m3 : Metrics) (err : Option Error)
    (hret : CollectMetrics N c m = Result.returned m3 err) :
    ((m3.avgBlockTime = m.avgBlockTime ∧ m3.transactionsPerSecond = m.transactionsPerSecond) ∨
      ∃ m1 head f cu, chainPhase c m = Call.done m1 head ∧ 1 < N ∧
        timestampOf c (sprintf0x (sub64 head ((N - 1) % 2 ^ 64))) = some f ∧
        timestampOf c (sprintf0x head) = some cu ∧ f < cu ∧
        (0 : ℚ) < ((cu - f : Nat) : ℚ) / ((N - 1 : Nat) : ℚ) ∧
        m3.avgBlockTime = ((cu - f : Nat) : ℚ) / ((N - 1 : Nat) : ℚ)) ∧
    (∀ m1 head, chainPhase c m = Call.done m1 head →
      ¬ (1 < N ∧ ∃ f cu, timestampOf c (sprintf0x (sub64 head ((N - 1) % 2 ^ 64))) = some f ∧
        timestampOf c (sprintf0x head) = some cu ∧ f < cu) →
      m3.avgBlockTime = m.avgBlockTime ∧ m3.transactionsPerSecond = m.transactionsPerSecond) ∧
    (∀ e, err = some e →
      m3.avgBlockTime = m.avgBlockTime ∧ m3.transactionsPerSecond = m.transactionsPerSecond) := by
  rcases CollectMetrics_cases N c m m3 err hret with ⟨e, he, hfail⟩ | ⟨hnone, m1, head, t, m2, hc, hl, hf, hb⟩
  · have hfr := (chainPhase_frame c m m3).2 e hfail
    refine ⟨Or.inl ⟨hfr.1, hfr.2.2.2.2.2.2.2.2.2⟩, ?_, fun _ _ => ⟨hfr.1, hfr.2.2.2.2.2.2.2.2.2⟩⟩
    intro m1 head hc; rw [hfail] at hc; exact absurd hc (by simp)
  · have f1 := (chainPhase_frame c m m1).1 head hc
    have f2 := windowLoop_frame c head _ m1 m2 {} t hl
    have fa := setAggregated_frame N m2 t
    have hbt : (setAggregated N m2 t).avgBlockTime = m.avgBlockTime :=
      fa.1.trans (f2.1.trans f1.1)
    have htps : (setAggregated N m2 t).transactionsPerSecond = m.transactionsPerSecond :=
      fa.2.1.trans (f2.2.2.2.2.2.2.2.2.2.trans f1.2.2.2.2.2.2.2.2.2)
    rcases blockTimePhase_cases N c head t.totalTxs _ m3 hb with
      ⟨hN, f, cu, hf1, hcu, hlt, hpos, hv, _⟩ | ⟨hnot, h1, h2⟩
    · refine ⟨Or.inr ⟨m1, head, f, cu, hc, hN, hf1, hcu, hlt, hpos, hv⟩, ?_, ?_⟩
      · intro m1' head' hc' hno
        rw [hc] at hc'
        have hh : head = head' := (Call.done.inj hc').2
        subst hh
        exact absurd ⟨hN, f, cu, hf1, hcu, hlt⟩ hno
      · intro e he; rw [hnone] at he; exact absurd he (by simp)
    · have hkeep : m3.avgBlockTime = m.avgBlockTime ∧
          m3.transactionsPerSecond = m.transactionsPerSecond :=
        ⟨h1.trans hbt, h2.trans htps⟩
      exact ⟨Or.inl hkeep, fun _ _ _ _ => hkeep, fun _ _ => hkeep⟩

/-- C15: when the window has more than one block and the head timestamp
exceeds the oldest-window timestamp, the published average block time is
(headTimestamp - oldestTimestamp) / (windowSize - 1) and the published TPS is
(totalTxs / windowSize) / avgBlockTime, with totalTxs the transaction count
folded from the fetched blocks. -/
theorem blockTime_values (N : Nat) (c : Node) (m m1 m3 : Metrics) (head : Nat)
    (err : Option Error) (f cu : Nat) (hN : 1 < N)
    (hchain : chainPhase c m = Call.done m1 head)
    (hret : CollectMetrics N c m = Result.returned m3 err)
    (hf : timestampOf c (sprintf0x (sub64 head ((N - 1) % 2 ^ 64))) = some f)
    (hcu : timestampOf c (sprintf0x head) = some cu)
    (hlt : f < cu) :
    m3.avgBlockTime = ((cu - f : Nat) : ℚ) / ((N - 1 : Nat) : ℚ) ∧
    ∃ t, foldBlocks ((List.range N).filterMap (fetched c head)) {} = some t ∧
      t.totalTxs = (((List.range N).filterMap (fetched c head)).map
        (fun b => b.Transactions.length)).sum ∧
      m3.transactionsPerSecond = ((t.totalTxs : ℚ) / (N : ℚ)) / m3.avgBlockTime := by
  rcases CollectMetrics_cases N c m m3 err hret with ⟨e, _, hfail⟩ | ⟨_, m1', head', t, m2, hc, _, hfold, hb⟩
  · rw [hfail] at hchain; exact absurd hchain (by simp)
  · rw [hchain] at hc
    have hh : head = head' := (Call.done.inj hc).2
    subst hh
    have hs := (foldBlocks_sums _ _ _ hfold).1
    rcases blockTimePhase_cases N c head t.totalTxs _ m3 hb with
      ⟨_, f', cu', hf1, hcu1, _, _, hv, htps⟩ | ⟨hnot, _, _⟩
    · rw [hf] at hf1
      rw [hcu] at hcu1
      have e1 : f = f' := Option.some.inj hf1
      have e2 : cu = cu' := Option.some.inj hcu1
      subst e1 e2
      refine ⟨hv, t, hfold, ?_, ?_⟩
      · rw [hs]; show 0 + _ = _; rw [Nat.zero_add]
      · rw [htps, hv]
    · exact absurd ⟨hN, f, cu, hf, hcu, hlt⟩ hnot

/-- C11 (counterexample): with the head block number request failing, the cycle
returns an error, yet the chain-info series, absent before, is 1 after, the
error counter of the head-block-number method has grown from 0 to 1, and the
collection-time gauge holds the duration of this cycle. -/
theorem head_failure_counterexample :
    ∃ m3 err, CollectMetricsTimed 5 nodeH {} (1 / 4) =
        (Result.returned m3 (some err), 1 / 4) ∧
      ({} : Metrics).chainInfo (str "10143") (str "monad/1.0") (str "monad-testnet") = none ∧
      m3.chainInfo (str "10143") (str "monad/1.0") (str "monad-testnet") = some 1 ∧
      ({} : Metrics).rpcErrors (str "eth_blockNumber") = 0 ∧
      m3.rpcErrors (str "eth_blockNumber") = 1 :=
  ⟨_, _, rfl, rfl, rfl, rfl, rfl⟩

/-- C11 (amended): if the chain id and the client version are read, the chain id
decodes (it is not a one-byte string), and the head block number is not
resolved (the request fails, or its result, a string of two or more bytes,
does not parse), the cycle returns the error "failed to get current block"
and every gauge other than the chain-info series and the collection-time
gauge has the value it had before.  The series that change: the chain-info
series of the labels just
read is 1, the other chain-info series being as before; the error counter of
the head-block-number method has grown by one if the request failed and is as
before otherwise, the other error counters being as before; and the
collection-time gauge is set to the time the cycle took.  The latency
histogram, which gains the duration of every request made, is outside the
statement. -/
theorem head_failure (N : Nat) (c : Node) (m : Metrics) (elapsed : ℚ)
    (chainID clientVersion : GoString) (d : Nat)
    (hid : c.eth_chainId = Reply.result (JSONValue.string chainID))
    (hver : c.web3_clientVersion = Reply.result (JSONValue.string clientVersion))
    (hdec : hexToUint64 chainID = some d)
    (hhead : (∃ msg, c.eth_blockNumber = Reply.failure msg) ∨
      (∃ s e, c.eth_blockNumber = Reply.result (JSONValue.string s) ∧ 2 ≤ s.length ∧
        (ParseUint (s.drop 2)).2 = some e)) :
    ∃ m3 err,
      CollectMetricsTimed N c m elapsed =
        (Result.returned m3 (some (Error.wrap (str "failed to get current block") err)),
          elapsed) ∧
      sameDataGauges m m3 ∧
      m3.chainInfo (sprintfD d) clientVersion (str "monad-testnet") = some 1 ∧
      (∀ a b e, ¬ (a = sprintfD d ∧ b = clientVersion ∧ e = str "monad-testnet") →
        m3.chainInfo a b e = m.chainInfo a b e) ∧
      (∀ k, k ≠ str "eth_blockNumber" → m3.rpcErrors k = m.rpcErrors k) ∧
      ((∃ msg, c.eth_blockNumber = Reply.failure msg) →
        m3.rpcErrors (str "eth_blockNumber") = m.rpcErrors (str "eth_blockNumber") + 1) ∧
      ((∃ s, c.eth_blockNumber = Reply.result (JSONValue.string s)) →
        m3.rpcErrors (str "eth_blockNumber") = m.rpcErrors (str "eth_blockNumber")) := by
  rcases hhead with ⟨msg, hmsg⟩ | ⟨s, e, hs, hlen, hperr⟩
  · refine ⟨countError { m with
        chainInfo := fun a b e =>
          if a = sprintfD d ∧ b = clientVersion ∧ e = str "monad-testnet" then some 1
          else m.chainInfo a b e } (str "eth_blockNumber"),
      Error.rpc msg, ?_, ?_, ?_, ?_, ?_, ?_, ?_⟩
    · unfold CollectMetricsTimed CollectMetrics chainPhase GetChainID GetClientVersion
        GetBlockNumber stringCall quantityCall
      rw [hid, hver]
      dsimp only
      rw [hdec, hmsg]
    · exact ⟨rfl, rfl, rfl, rfl, rfl, rfl, rfl, rfl, rfl, rfl, rfl, rfl, rfl, rfl, rfl, rfl,
        rfl, rfl, rfl, rfl⟩
    · simp [countError]
    · intro a b e hne
      simp only [countError]
      rw [if_neg hne]
    · intro k hk
      simp only [countError]
      rw [if_neg hk]
    · intro _
      simp [countError]
    · rintro ⟨s, hs⟩
      rw [hmsg] at hs
      exact absurd hs (by simp)
  · have hnl : ¬ (s.length < 2) := by omega
    obtain ⟨v, hv⟩ : ∃ v, ParseUint (s.drop 2) = (v, some e) := by
      cases hp : ParseUint (s.drop 2) with
      | mk v oe =>
        rw [hp] at hperr
        exact ⟨v, by rw [show oe = some e from hperr]⟩
    refine ⟨{ m with
        chainInfo := fun a b e =>
          if a = sprintfD d ∧ b = clientVersion ∧ e = str "monad-testnet" then some 1
          else m.chainInfo a b e },
      Error.num e (s.drop 2), ?_, ?_, ?_, ?_, ?_, ?_, ?_⟩
    · unfold CollectMetricsTimed CollectMetrics chainPhase GetChainID GetClientVersion
        GetBlockNumber stringCall quantityCall
      rw [hid, hver]
      dsimp only
      rw [hdec, hs]
      dsimp only
      rw [if_neg hnl, hv]
    · exact ⟨rfl, rfl, rfl, rfl, rfl, rfl, rfl, rfl, rfl, rfl, rfl, rfl, rfl, rfl, rfl, rfl,
        rfl, rfl, rfl, rfl⟩
    · simp
    · intro a b e hne
      dsimp only
      rw [if_neg hne]
    · intro k _
      rfl
    · rintro ⟨msg, hmsg⟩
      rw [hs] at hmsg
      exact absurd hmsg (by simp)
    · intro _
      rfl

theorem head_failure_witness :
    ∃ m3 err, CollectMetricsTimed 5 nodeH prevMetrics (1 / 4) =
        (Result.returned m3 (some err), 1 / 4) ∧
      m3.avgGasUtilization = 42 ∧ m3.avgBlockTime = 2 ∧
      m3.rpcErrors (str "eth_blockNumber") = 1 := by
  obtain ⟨m3, err, hret, hg, _, _, _, hcnt, _⟩ :=
    head_failure 5 nodeH prevMetrics (1 / 4) (str "0x279f") (str "monad/1.0") 10143 rfl rfl
      (by decide) (Or.inl ⟨_, rfl⟩)
  obtain ⟨_, _, _, _, _, _, _, _, _, _, hw⟩ := hg
  exact ⟨m3, _, hret, hw.2.2.1, hw.1, hcnt ⟨_, rfl⟩⟩

/-- After a cycle that returns `nil`, the per-kind series of a key that is not
in the map of this cycle is what it was before the cycle. -/
theorem transactionTypes_absent_key (N : Nat) (c : Node) (m m3 : Metrics)
    (hret : CollectMetrics N c m = Result.returned m3 none) :
    ∃ m1 head t, chainPhase c m = Call.done m1 head ∧
      foldBlocks ((List.range N).filterMap (fetched c head)) {} = some t ∧
      ∀ k, t.txTypeCountTotal k = none → m3.transactionTypes k = m.transactionTypes k := by
  rcases CollectMetrics_cases N c m m3 none hret with
    ⟨e, he, _⟩ | ⟨_, m1, head, t, m2, hc, hl, hf, hb⟩
  · exact absurd he (by simp)
  · have f1 := (chainPhase_frame c m m1).1 head hc
    have f2 := windowLoop_frame c head _ m1 m2 {} t hl
    have f3 := sameAggregates_blockTimePhase _ _ _ _ _ _ hb
    refine ⟨m1, head, t, hc, hf, ?_⟩
    intro k hk
    rw [f3.2.2.2.2.2.2.2, (setAggregated_frame N m2 t).2.2.2 k hk, f2.2.2.2.2.1, f1.2.2.2.2.1]

theorem nodeA_returns (N : Nat) (hN : N ≤ 5) (m : Metrics) :
    ∃ m3, CollectMetrics N nodeA m = Result.returned m3 none := by
  obtain ⟨m1, h1⟩ : ∃ m1, chainPhase nodeA m = Call.done m1 100 := ⟨_, rfl⟩
  have hfetch : ∀ i, i < 5 → fetched nodeA 100 i = some (blkA i) := by
    intro i hi
    interval_cases i <;> rfl
  have hwf : ∀ i, i < 5 → (blkA i).wellFormed := by
    intro i hi
    interval_cases i <;> decide
  have hall := filterMap_fetched_all nodeA 100 blkA (List.range N)
    (fun i hi => hfetch i (by have := List.mem_range.mp hi; omega))
  have hwf1 : ∀ b ∈ (List.range N).filterMap (fetched nodeA 100), b.wellFormed := by
    intro b hb
    rw [hall] at hb
    obtain ⟨i, hi, rfl⟩ := List.mem_map.mp hb
    exact hwf i (by have := List.mem_range.mp hi; omega)
  obtain ⟨_, _, m3, _, hret, _⟩ :=
    CollectMetrics_returns N nodeA m m1 100 h1 hwf1 nodeA_timestamps
  exact ⟨m3, hret⟩

theorem nodeF_returns (N : Nat) (m : Metrics) :
    ∃ m3, CollectMetrics N nodeF m = Result.returned m3 none := by
  obtain ⟨m1, h1⟩ : ∃ m1, chainPhase nodeF m = Call.done m1 100 := ⟨_, rfl⟩
  have hnil : (List.range N).filterMap (fetched nodeF 100) = [] :=
    foldBlocks_nil_of_all_failed nodeF 100 _ (fun i _ => rfl)
  have hwf1 : ∀ b ∈ (List.range N).filterMap (fetched nodeF 100), b.wellFormed := by
    intro b hb
    rw [hnil] at hb
    exact absurd hb (List.not_mem_nil b)
  have hts : ∀ hex b, nodeF.eth_getBlockByNumber hex false = BlockReply.block b →
      b.Timestamp.length ≠ 1 := by
    intro hex b h
    exact absurd h (by simp [nodeF])
  obtain ⟨_, _, m3, _, hret, _⟩ := CollectMetrics_returns N nodeF m m1 100 h1 hwf1 hts
  exact ⟨m3, hret⟩

theorem avgGasUtilization_guard_witness :
    ∃ m3, CollectMetrics 5 nodeF prevMetrics = Result.returned m3 none ∧
      prevMetrics.avgGasUtilization = 42 ∧ m3.avgGasUtilization = 42 := by
  obtain ⟨m3, hret⟩ := nodeF_returns 5 prevMetrics
  obtain ⟨m1, h1⟩ : ∃ m1, chainPhase nodeF prevMetrics = Call.done m1 100 := ⟨_, rfl⟩
  have h := (avgGasUtilization_guard 5 nodeF prevMetrics m3 none hret).2.2 m1 100 h1
    (fun i _ => rfl)
  exact ⟨m3, hret, rfl, h⟩

theorem blockTime_guard_witness :
    ∃ m3, CollectMetrics 5 nodeF prevMetrics = Result.returned m3 none ∧
      m3.avgBlockTime = 2 ∧ m3.transactionsPerSecond = 3 := by
  obtain ⟨m3, hret⟩ := nodeF_returns 5 prevMetrics
  obtain ⟨m1, h1⟩ : ∃ m1, chainPhase nodeF prevMetrics = Call.done m1 100 := ⟨_, rfl⟩
  have h := (blockTime_guard 5 nodeF prevMetrics m3 none hret).2.1 m1 100 h1
    (by
      rintro ⟨_, f, cu, hf, _⟩
      have hn : timestampOf nodeF (sprintf0x (sub64 100 ((5 - 1) % 2 ^ 64))) = none := rfl
      rw [hn] at hf
      exact absurd hf (by simp))
  exact ⟨m3, hret, h.1, h.2⟩

theorem nodeD_timestamps : ∀ hex b, nodeD.eth_getBlockByNumber hex false = BlockReply.block b →
    b.Timestamp.length ≠ 1 := by
  intro hex b h
  simp only [nodeD] at h
  split_ifs at h <;> (rw [← BlockReply.block.inj h]; decide)

/-- After a cycle that returns, the per-kind series of a key of this cycle's
map is the count of the map. -/
theorem transactionTypes_present_key (N : Nat) (c : Node) (m m1 m3 : Metrics) (head : Nat)
    (err : Option Error) (t : Totals) (hN : 0 < N)
    (hchain : chainPhase c m = Call.done m1 head)
    (hret : CollectMetrics N c m = Result.returned m3 err)
    (hfold : foldBlocks ((List.range N).filterMap (fetched c head)) {} = some t) :
    ∀ k n, t.txTypeCountTotal k = some n → m3.transactionTypes k = some (n : ℚ) := by
  obtain ⟨_, t1, m2, hf1, hsame⟩ := CollectMetrics_spec N c m m1 m3 head err hchain hret
  rw [hfold] at hf1
  have htt : t = t1 := Option.some.inj hf1
  subst htt
  intro k n hk
  rw [hsame.2.2.2.2.2.2.2, (setAggregated_more N m2 t hN).2 k n hk]

/-- C12 (evaluation at the failing input): a first cycle, from the empty
registry, folds four blocks holding two eip1559 transactions and publishes
the count 2 for the kind eip1559.  The next cycle folds five blocks whose
three transactions are all legacy: it returns `nil`, its map of counts has no
key eip1559, and the published count of eip1559 is still 2, not 0, beside the
count 3 of legacy. -/
theorem transactionTypes_stale_kind :
    ∃ mD m3 t, CollectMetrics 5 nodeD {} = Result.returned mD none ∧
      mD.transactionTypes (str "eip1559") = some 2 ∧
      CollectMetrics 5 nodeA mD = Result.returned m3 none ∧
      foldBlocks ((List.range 5).filterMap (fetched nodeA 100)) {} = some t ∧
      (∀ b ∈ (List.range 5).filterMap (fetched nodeA 100), ∀ tx ∈ b.Transactions,
        txTypeOf tx = some (str "legacy")) ∧
      t.txTypeCountTotal (str "eip1559") = none ∧
      t.txTypeCountTotal (str "legacy") = some 3 ∧
      m3.transactionTypes (str "eip1559") = some 2 ∧
      m3.transactionTypes (str "legacy") = some 3 := by
  -- the first cycle
  obtain ⟨mD1, hD1⟩ : ∃ m1, chainPhase nodeD {} = Call.done m1 100 := ⟨_, rfl⟩
  have hwfD : ∀ b ∈ (List.range 5).filterMap (fetched nodeD 100), b.wellFormed := by decide
  obtain ⟨tD, _, mD, hfD, hretD, _⟩ :=
    CollectMetrics_returns 5 nodeD {} mD1 100 hD1 hwfD nodeD_timestamps
  have hfoldD : foldBlocks ((List.range 5).filterMap (fetched nodeD 100)) {} =
      some ((foldBlocks ((List.range 5).filterMap (fetched nodeD 100)) {}).getD {}) := rfl
  have htD : tD = (foldBlocks ((List.range 5).filterMap (fetched nodeD 100)) {}).getD {} := by
    rw [hfoldD] at hfD
    exact (Option.some.inj hfD).symm
  have hD2 : tD.txTypeCountTotal (str "eip1559") = some 2 := by rw [htD]; rfl
  have hpubD : mD.transactionTypes (str "eip1559") = some 2 := by
    rw [transactionTypes_present_key 5 nodeD {} mD1 mD 100 none tD (by decide) hD1 hretD hfD
      _ 2 hD2]
    rfl
  -- the second cycle
  obtain ⟨m3, hret⟩ := nodeA_returns 5 (le_refl _) mD
  obtain ⟨m1, head, t, hc, hf, hstale⟩ := transactionTypes_absent_key 5 nodeA mD m3 hret
  have hh : chainPhase nodeA mD = Call.done
      (match chainPhase nodeA mD with
        | Call.done x _ => x
        | _ => mD) 100 := rfl
  have hhead : head = 100 := by
    rw [hh] at hc
    exact (Call.done.inj hc).2.symm
  subst hhead
  have hfold : foldBlocks ((List.range 5).filterMap (fetched nodeA 100)) {} =
      some ((foldBlocks ((List.range 5).filterMap (fetched nodeA 100)) {}).getD {}) := rfl
  have ht : t = (foldBlocks ((List.range 5).filterMap (fetched nodeA 100)) {}).getD {} := by
    rw [hfold] at hf
    exact (Option.some.inj hf).symm
  have h1 : t.txTypeCountTotal (str "eip1559") = none := by rw [ht]; rfl
  have h2 : t.txTypeCountTotal (str "legacy") = some 3 := by rw [ht]; rfl
  refine ⟨mD, m3, t, hretD, hpubD, hret, hf, ?_, h1, h2, ?_, ?_⟩
  · decide
  · rw [hstale _ h1, hpubD]
  · rw [transactionTypes_present_key 5 nodeA mD m1 m3 100 none t (by decide) hc hret hf _ 3 h2]
    rfl

theorem blockTime_values_witness :
    ∃ m3, CollectMetrics 4 nodeD {} = Result.returned m3 none ∧
      timestampOf nodeD (sprintf0x (sub64 100 ((4 - 1) % 2 ^ 64))) = some 1000 ∧
      timestampOf nodeD (sprintf0x 100) = some 1030 ∧
      m3.avgBlockTime = 10 ∧ m3.transactionsPerSecond = 1 / 5 := by
  obtain ⟨m1, h1⟩ : ∃ m1, chainPhase nodeD {} = Call.done m1 100 := ⟨_, rfl⟩
  have hfetch : ∀ i, i < 4 → fetched nodeD 100 i = some (blkD i) := by
    intro i hi
    interval_cases i <;> rfl
  have hwf : ∀ i, i < 4 → (blkD i).wellFormed := by
    intro i hi
    interval_cases i <;> decide
  have hall := filterMap_fetched_all nodeD 100 blkD (List.range 4)
    (fun i hi => hfetch i (List.mem_range.mp hi))
  have hwf1 : ∀ b ∈ (List.range 4).filterMap (fetched nodeD 100), b.wellFormed := by
    intro b hb
    rw [hall] at hb
    obtain ⟨i, hi, rfl⟩ := List.mem_map.mp hb
    exact hwf i (List.mem_range.mp hi)
  obtain ⟨_, _, m3, _, hret, _⟩ :=
    CollectMetrics_returns 4 nodeD {} m1 100 h1 hwf1 nodeD_timestamps
  obtain ⟨hbt, t, _, htx, htps⟩ :=
    blockTime_values 4 nodeD {} m1 m3 100 none 1000 1030 (by decide) h1 hret rfl rfl (by decide)
  have e1 : (((List.range 4).filterMap (fetched nodeD 100)).map
      (fun b => b.Transactions.length)).sum = 8 := by decide
  rw [e1] at htx
  have hbt10 : m3.avgBlockTime = 10 := by rw [hbt]; norm_num
  refine ⟨m3, hret, rfl, rfl, hbt10, ?_⟩
  rw [htps, htx, hbt10]
  norm_num

/-- C16 (counterexample): the gas price request succeeds with the result "0x";
`GetGasPrice` returns the syntax error of `ParseUint` instead of 0 with no
error, and the cycle returns the error "failed to get gas price". -/
theorem accessor_malformed_counterexample :
    GetGasPrice nodeG {} = Call.fail {} (Error.num NumError.ErrSyntax []) ∧
    ∃ m3, CollectMetrics 5 nodeG {} = Result.returned m3
      (some (Error.wrap (str "failed to get gas price") (Error.num NumError.ErrSyntax []))) :=
  ⟨rfl, _, rfl⟩

/-- C16 (amended): when the request succeeds with a result string of two or
more bytes, `GetGasPrice` and `GetMaxPriorityFeePerGas` return what
`ParseUint` returns for the string without its first two bytes: its value
with no error if it parses, and its error otherwise ("0x" and unparsable
digits included); an error of `GetGasPrice` keeps the cycle from returning
`nil`. -/
theorem accessor_malformed (c : Node) (m : Metrics) (s : GoString) (hlen : 2 ≤ s.length) :
    (c.eth_gasPrice = Reply.result (JSONValue.string s) →
      (∀ v, ParseUint (s.drop 2) = (v, none) → GetGasPrice c m = Call.done m v) ∧
      (∀ e, (ParseUint (s.drop 2)).2 = some e →
        GetGasPrice c m = Call.fail m (Error.num e (s.drop 2)) ∧
        ∀ N m3, CollectMetrics N c m ≠ Result.returned m3 none)) ∧
    (c.eth_maxPriorityFeePerGas = Reply.result (JSONValue.string s) →
      (∀ v, ParseUint (s.drop 2) = (v, none) → GetMaxPriorityFeePerGas c m = Call.done m v) ∧
      (∀ e, (ParseUint (s.drop 2)).2 = some e →
        GetMaxPriorityFeePerGas c m = Call.fail m (Error.num e (s.drop 2)))) := by
  have hnl : ¬ (s.length < 2) := by omega
  have hq : ∀ (method : GoString) (x : Metrics),
      (∀ v, ParseUint (s.drop 2) = (v, none) →
        quantityCall method (Reply.result (JSONValue.string s)) x = Call.done x v) ∧
      (∀ e, (ParseUint (s.drop 2)).2 = some e →
        quantityCall method (Reply.result (JSONValue.string s)) x =
          Call.fail x (Error.num e (s.drop 2))) := by
    intro method x
    constructor
    · intro v hv
      unfold quantityCall
      dsimp only
      rw [if_neg hnl, hv]
    · intro e he
      cases hp : ParseUint (s.drop 2) with
      | mk v oe =>
        rw [hp] at he
        have hoe : oe = some e := he
        unfold quantityCall
        dsimp only
        rw [if_neg hnl, hp, hoe]
  constructor
  · intro hg
    refine ⟨fun v hv => ?_, fun e he => ⟨?_, ?_⟩⟩
    · unfold GetGasPrice; rw [hg]; exact (hq _ m).1 v hv
    · unfold GetGasPrice; rw [hg]; exact (hq _ m).2 e he
    · intro N m3 hret
      rcases CollectMetrics_cases N c m m3 none hret with ⟨e', he', _⟩ | ⟨_, m1, head, _, _, hc, _⟩
      · exact absurd he' (by simp)
      · unfold chainPhase at hc
        split at hc
        · exact absurd hc (by simp)
        · exact absurd hc (by simp)
        · split at hc
          · exact absurd hc (by simp)
          · exact absurd hc (by simp)
          · split at hc
            · exact absurd hc (by simp)
            · dsimp only at hc
              split at hc
              · exact absurd hc (by simp)
              · exact absurd hc (by simp)
              · rename_i m4 cb h4
                have hgp := (hq (str "eth_gasPrice")
                  ({ m4 with currentBlockNumber := (cb : ℚ) })).2 e he
                unfold GetGasPrice at hc
                rw [hg, hgp] at hc
                exact absurd hc (by simp)
  · intro hg
    refine ⟨fun v hv => ?_, fun e he => ?_⟩
    · unfold GetMaxPriorityFeePerGas; rw [hg]; exact (hq _ m).1 v hv
    · unfold GetMaxPriorityFeePerGas; rw [hg]; exact (hq _ m).2 e he

theorem accessor_malformed_witness :
    GetGasPrice nodeG {} = Call.fail {} (Error.num NumError.ErrSyntax []) ∧
    GetGasPrice nodeA {} = Call.done {} 1000000000 :=
  ⟨((accessor_malformed nodeG {} (str "0x") (by decide)).1 rfl).2 NumError.ErrSyntax rfl |>.1,
   ((accessor_malformed nodeA {} (str "0x3b9aca00") (by decide)).1 rfl).1 1000000000 rfl⟩

theorem addressesOf_cons (tx : Transaction) (rest : List Transaction) :
    addressesOf (tx :: rest) =
      (if tx.To ≠ str "" then [tx.From, tx.To] else [tx.From]) ++ addressesOf rest := by
  unfold addressesOf
  rw [List.flatMap_cons]

theorem nodup_insert (a : GoString) (l : List GoString) (h : l.Nodup) :
    (List.insert a l).Nodup := by
  by_cases ha : a ∈ l
  · rw [List.insert_of_mem ha]; exact h
  · rw [List.insert_of_not_mem ha]; exact List.nodup_cons.mpr ⟨ha, h⟩

/-- The keys of the map `uniqueAddrs` after the transaction loop. -/
theorem txLoop_uniqueAddrs (txs : List Transaction) : ∀ (t : Totals) (l : BlockLocals)
    (t1 : Totals) (l1 : BlockLocals), txLoop txs t l = some (t1, l1) →
    l.uniqueAddrs.Nodup →
    l1.uniqueAddrs.Nodup ∧
    ∀ a, a ∈ l1.uniqueAddrs ↔ a ∈ l.uniqueAddrs ∨ a ∈ addressesOf txs := by
  induction txs with
  | nil =>
    intro t l t1 l1 h hnd
    simp only [txLoop, Option.some.injEq, Prod.mk.injEq] at h
    rw [← h.2]
    exact ⟨hnd, fun a => by simp [addressesOf]⟩
  | cons tx rest ih =>
    intro t l t1 l1 h hnd
    rw [txLoop] at h
    split at h
    · exact absurd h (by simp)
    · rename_i t2 l2 hstep
      obtain ⟨_, _, _, _, _, _, _, _, _, hl⟩ := txStep_eq_some t l tx t2 l2 hstep
      have hnd2 : l2.uniqueAddrs.Nodup := by
        rw [hl]
        dsimp only
        split
        · exact nodup_insert _ _ (nodup_insert _ _ hnd)
        · exact nodup_insert _ _ hnd
      have hmem2 : ∀ a, a ∈ l2.uniqueAddrs ↔ a ∈ l.uniqueAddrs ∨
          a ∈ (if tx.To ≠ str "" then [tx.From, tx.To] else [tx.From]) := by
        intro a
        rw [hl]
        dsimp only
        split
        · simp only [List.mem_insert_iff, List.mem_cons, List.mem_singleton, List.not_mem_nil,
            or_false]
          tauto
        · simp only [List.mem_insert_iff, List.mem_singleton]
          tauto
      obtain ⟨hnd1, hmem1⟩ := ih t2 l2 t1 l1 h hnd2
      refine ⟨hnd1, fun a => ?_⟩
      rw [hmem1 a, hmem2 a, addressesOf_cons, List.mem_append]
      tauto

/-- The transaction analysis of a block adds to the window total the number of
distinct addresses of the block. -/
theorem analyzeTransactions_unique (txs : List Transaction) (t t1 : Totals)
    (h : analyzeTransactions txs t = some t1) :
    t1.totalUniqueAddresses = t.totalUniqueAddresses + uniqueAddressCount txs := by
  unfold analyzeTransactions at h
  split at h
  · split at h
    · exact absurd h (by simp)
    · rename_i t2 l2 hloop
      have hf := txLoop_frame txs t _ t2 l2 hloop
      obtain ⟨hnd, hmem⟩ := txLoop_uniqueAddrs txs t _ t2 l2 hloop List.nodup_nil
      simp only [Option.some.injEq] at h
      rw [← h]
      dsimp only
      rw [hf.2.2.2.2.2]
      congr 1
      unfold uniqueAddressCount
      rw [← List.card_toFinset, ← List.toFinset_card_of_nodup hnd]
      congr 1
      ext a
      rw [List.mem_toFinset, List.mem_toFinset, hmem a]
      simp
  · rename_i hlen
    have hnil : txs = [] := by
      cases txs with
      | nil => rfl
      | cons a r => simp at hlen
    simp only [Option.some.injEq] at h
    rw [← h, hnil]
    rfl

theorem accumulateBlock_unique (b : Block) (t t1 : Totals) (h : accumulateBlock b t = some t1) :
    t1.totalUniqueAddresses = t.totalUniqueAddresses + uniqueAddressCount b.Transactions := by
  unfold accumulateBlock at h
  split at h
  · exact absurd h (by simp)
  · split at h
    · exact absurd h (by simp)
    · split at h
      · exact absurd h (by simp)
      · split at h
        · exact absurd h (by simp)
        · unfold accumulate at h
          have h2 := analyzeTransactions_unique _ _ _ h
          exact h2

theorem foldBlocks_unique (bs : List Block) : ∀ (t t1 : Totals), foldBlocks bs t = some t1 →
    t1.totalUniqueAddresses =
      t.totalUniqueAddresses + (bs.map (fun b => uniqueAddressCount b.Transactions)).sum := by
  induction bs with
  | nil =>
    intro t t1 h
    simp only [foldBlocks, Option.some.injEq] at h
    rw [← h]; simp
  | cons b rest ih =>
    intro t t1 h
    rw [foldBlocks] at h
    split at h
    · exact absurd h (by simp)
    · rename_i t2 h2
      rw [ih t2 t1 h, accumulateBlock_unique b t t2 h2]
      simp only [List.map_cons, List.sum_cons]
      omega

/-- C17: the unique-address count of a fetched block is the number of distinct
strings among the `from` fields and the non-empty `to` fields of its
transactions; the window total is the sum of these per-block counts over the
fetched blocks (an address of several blocks counts once for each); and the
published average unique addresses per block is that total over the window
size. -/
theorem unique_addresses (N : Nat) (c : Node) (m m1 m3 : Metrics) (head : Nat)
    (err : Option Error) (hN : 0 < N)
    (hchain : chainPhase c m = Call.done m1 head)
    (hret : CollectMetrics N c m = Result.returned m3 err) :
    (∀ (txs : List Transaction) (u u1 : Totals), analyzeTransactions txs u = some u1 →
      u1.totalUniqueAddresses = u.totalUniqueAddresses + uniqueAddressCount txs ∧
      uniqueAddressCount txs = (addressesOf txs).toFinset.card ∧
      ∀ a, a ∈ addressesOf txs ↔ ∃ tx ∈ txs, a = tx.From ∨ (tx.To ≠ str "" ∧ a = tx.To)) ∧
    ∃ t, foldBlocks ((List.range N).filterMap (fetched c head)) {} = some t ∧
      t.totalUniqueAddresses = (((List.range N).filterMap (fetched c head)).map
        (fun b => uniqueAddressCount b.Transactions)).sum ∧
      m3.avgUniqueAddressesPerBlock = (t.totalUniqueAddresses : ℚ) / (N : ℚ) := by
  constructor
  · intro txs u u1 hu
    refine ⟨analyzeTransactions_unique txs u u1 hu, ?_, ?_⟩
    · unfold uniqueAddressCount
      rw [List.card_toFinset]
    · intro a
      unfold addressesOf
      rw [List.mem_flatMap]
      constructor
      · rintro ⟨tx, htx, ha⟩
        refine ⟨tx, htx, ?_⟩
        split at ha
        · rename_i hto
          simp only [List.mem_cons, List.mem_singleton, List.not_mem_nil, or_false] at ha
          rcases ha with ha | ha
          · exact Or.inl ha
          · exact Or.inr ⟨hto, ha⟩
        · exact Or.inl (List.mem_singleton.mp ha)
      · rintro ⟨tx, htx, ha⟩
        refine ⟨tx, htx, ?_⟩
        rcases ha with ha | ⟨hto, ha⟩
        · split <;> simp [ha]
        · rw [if_pos hto]; simp [ha]
  · obtain ⟨_, t, m2, hfold, hsame⟩ := CollectMetrics_spec N c m m1 m3 head err hchain hret
    refine ⟨t, hfold, ?_, ?_⟩
    · rw [foldBlocks_unique _ _ _ hfold]; show 0 + _ = _; rw [Nat.zero_add]
    · rw [hsame.2.2.2.1, (setAggregated_fields N m2 t hN).2.1]

theorem unique_addresses_witness :
    ∃ m3, CollectMetrics 3 nodeA {} = Result.returned m3 none ∧
      uniqueAddressCount (blkA 0).Transactions = 2 ∧
      uniqueAddressCount (blkA 2).Transactions = 2 ∧
      uniqueAddressCount ((blkA 0).Transactions ++ (blkA 2).Transactions) = 2 ∧
      m3.avgUniqueAddressesPerBlock = 4 / 3 := by
  obtain ⟨m3, hret⟩ := nodeA_returns 3 (by decide) {}
  obtain ⟨m1, h1⟩ : ∃ m1, chainPhase nodeA {} = Call.done m1 100 := ⟨_, rfl⟩
  obtain ⟨_, t, _, ht, havg⟩ := unique_addresses 3 nodeA {} m1 m3 100 none (by decide) h1 hret
  have e1 : (((List.range 3).filterMap (fetched nodeA 100)).map
      (fun b => uniqueAddressCount b.Transactions)).sum = 4 := by decide
  rw [e1] at ht
  refine ⟨m3, hret, by decide, by decide, by decide, ?_⟩
  rw [havg, ht]
  norm_num

theorem blockTxStep_eq_some (j : Nat) (s s1 : BlockStats) (tx : Transaction)
    (h : blockTxStep j s tx = some s1) :
    s1.totalGasPrice = add64 s.totalGasPrice (effectiveGasPrice tx) ∧
    s1.maxGas = (if j = 0 ∨ effectiveGasPrice tx > s.maxGas then effectiveGasPrice tx
      else s.maxGas) ∧
    s1.minGas = (if j = 0 ∨ effectiveGasPrice tx < s.minGas then effectiveGasPrice tx
      else s.minGas) := by
  unfold blockTxStep at h
  split at h
  · exact absurd h (by simp)
  · rename_i gp hgp
    split at h
    · exact absurd h (by simp)
    · rename_i price hprice
      have heff : effectiveGasPrice tx = price := by
        unfold effectiveGasPrice quantity
        rw [hgp]
        simp only [Option.getD_some]
        by_cases h0 : gp = 0
        · rw [if_pos h0] at hprice
          rw [if_pos h0, hprice]
          rfl
        · rw [if_neg h0] at hprice
          rw [if_neg h0]
          exact Option.some.inj hprice
      dsimp only at h
      split at h
      · exact absurd h (by simp)
      · split at h
        · exact absurd h (by simp)
        · rw [← Option.some.inj h, heff]
          exact ⟨rfl, rfl, rfl⟩

/-- The loop after its first iteration: running maximum, minimum and sum. -/
theorem blockTxLoop_succ (txs : List Transaction) : ∀ (j : Nat) (s s1 : BlockStats),
    blockTxLoop (j + 1) txs s = some s1 → s.totalGasPrice < 2 ^ 64 →
    s1.totalGasPrice = (s.totalGasPrice + (txs.map effectiveGasPrice).sum) % 2 ^ 64 ∧
    s1.maxGas = (txs.map effectiveGasPrice).foldl max s.maxGas ∧
    s1.minGas = (txs.map effectiveGasPrice).foldl min s.minGas := by
  induction txs with
  | nil =>
    intro j s s1 h hlt
    simp only [blockTxLoop, Option.some.injEq] at h
    rw [← h]
    refine ⟨?_, rfl, rfl⟩
    simp only [List.map_nil, List.sum_nil, Nat.add_zero]
    exact (Nat.mod_eq_of_lt hlt).symm
  | cons tx rest ih =>
    intro j s s1 h hlt
    rw [blockTxLoop] at h
    split at h
    · exact absurd h (by simp)
    · rename_i s2 hstep
      obtain ⟨h1, h2, h3⟩ := blockTxStep_eq_some (j + 1) s s2 tx hstep
      have hj : ¬ (j + 1 = 0) := by omega
      obtain ⟨r1, r2, r3⟩ := ih (j + 1) s2 s1 h (by rw [h1]; exact Nat.mod_lt _ (by decide))
      refine ⟨?_, ?_, ?_⟩
      · rw [r1, h1]
        simp only [List.map_cons, List.sum_cons, add64]
        omega
      · rw [r2, h2]
        simp only [List.map_cons, List.foldl_cons, hj, false_or]
        congr 1
        split
        · omega
        · omega
      · rw [r3, h3]
        simp only [List.map_cons, List.foldl_cons, hj, false_or]
        congr 1
        split
        · omega
        · omega

theorem foldl_max_spec (l : List Nat) : ∀ a : Nat,
    (l.foldl max a = a ∨ l.foldl max a ∈ l) ∧ a ≤ l.foldl max a ∧
    ∀ p ∈ l, p ≤ l.foldl max a := by
  induction l with
  | nil => intro a; simp
  | cons x l ih =>
    intro a
    obtain ⟨h1, h2, h3⟩ := ih (max a x)
    simp only [List.foldl_cons, List.mem_cons]
    refine ⟨?_, by omega, ?_⟩
    · rcases h1 with h | h
      · rw [h]
        rcases Nat.le_total a x with hax | hax
        · right; left; exact Nat.max_eq_right hax
        · left; exact Nat.max_eq_left hax
      · right; right; exact h
    · intro p hp
      rcases hp with hp | hp
      · rw [hp]; omega
      · exact h3 p hp

theorem foldl_min_spec (l : List Nat) : ∀ a : Nat,
    (l.foldl min a = a ∨ l.foldl min a ∈ l) ∧ l.foldl min a ≤ a ∧
    ∀ p ∈ l, l.foldl min a ≤ p := by
  induction l with
  | nil => intro a; simp
  | cons x l ih =>
    intro a
    obtain ⟨h1, h2, h3⟩ := ih (min a x)
    simp only [List.foldl_cons, List.mem_cons]
    refine ⟨?_, by omega, ?_⟩
    · rcases h1 with h | h
      · rw [h]
        rcases Nat.le_total a x with hax | hax
        · left; exact Nat.min_eq_left hax
        · right; left; exact Nat.min_eq_right hax
      · right; right; exact h
    · intro p hp
      rcases hp with hp | hp
      · rw [hp]; omega
      · exact h3 p hp

/-- The statistics the transaction loop of main.go ends with on a non-empty
block. -/
theorem blockTxLoop_stats (txs : List Transaction) (s1 : BlockStats) (hne : txs ≠ [])
    (h : blockTxLoop 0 txs {} = some s1) :
    s1.totalGasPrice = (txs.map effectiveGasPrice).sum % 2 ^ 64 ∧
    s1.maxGas ∈ txs.map effectiveGasPrice ∧
    (∀ p ∈ txs.map effectiveGasPrice, p ≤ s1.maxGas) ∧
    s1.minGas ∈ txs.map effectiveGasPrice ∧
    (∀ p ∈ txs.map effectiveGasPrice, s1.minGas ≤ p) := by
  cases txs with
  | nil => exact absurd rfl hne
  | cons tx rest =>
    rw [blockTxLoop] at h
    split at h
    · exact absurd h (by simp)
    · rename_i s2 hstep
      obtain ⟨h1, h2, h3⟩ := blockTxStep_eq_some 0 {} s2 tx hstep
      rw [if_pos (Or.inl rfl)] at h2 h3
      have h1' : s2.totalGasPrice = effectiveGasPrice tx % 2 ^ 64 := by
        rw [h1]; unfold add64; show (0 + _) % _ = _; rw [Nat.zero_add]
      obtain ⟨r1, r2, r3⟩ := blockTxLoop_succ rest 0 s2 s1 h
        (by rw [h1']; exact Nat.mod_lt _ (by decide))
      obtain ⟨a1, a2, a3⟩ := foldl_max_spec (rest.map effectiveGasPrice) s2.maxGas
      obtain ⟨b1, b2, b3⟩ := foldl_min_spec (rest.map effectiveGasPrice) s2.minGas
      rw [← r2] at a1 a2 a3
      rw [← r3] at b1 b2 b3
      rw [h2] at a1 a2
      rw [h3] at b1 b2
      simp only [List.map_cons, List.sum_cons, List.mem_cons]
      refine ⟨?_, ?_, ?_, ?_, ?_⟩
      · rw [r1, h1']; omega
      · rcases a1 with a | a
        · exact Or.inl a
        · exact Or.inr a
      · intro p hp
        rcases hp with hp | hp
        · rw [hp]; exact a2
        · exact a3 p hp
      · rcases b1 with b | b
        · exact Or.inl b
        · exact Or.inr b
      · intro p hp
        rcases hp with hp | hp
        · rw [hp]; exact b2
        · exact b3 p hp

theorem sum_bounds (l : List Nat) (mn mx : Nat) (hmn : ∀ p ∈ l, mn ≤ p)
    (hmx : ∀ p ∈ l, p ≤ mx) : mn * l.length ≤ l.sum ∧ l.sum ≤ mx * l.length := by
  induction l with
  | nil => simp
  | cons x l ih =>
    obtain ⟨i1, i2⟩ := ih (fun p hp => hmn p (List.mem_cons_of_mem _ hp))
      (fun p hp => hmx p (List.mem_cons_of_mem _ hp))
    have hx1 := hmn x (List.mem_cons_self _ _)
    have hx2 := hmx x (List.mem_cons_self _ _)
    simp only [List.sum_cons, List.length_cons, Nat.mul_succ]
    omega

/-- The three gas price series after the transaction analysis of a non-empty
block. -/
theorem analyzeBlock_gas_prices (blockNumStr : GoString) (txs : List Transaction)
    (pm pm1 : PerBlockMetrics) (hne : txs ≠ []) (hlen : txs.length < 2 ^ 63)
    (h : analyzeBlock blockNumStr txs pm = some pm1) :
    ∃ mx mn : Nat,
      pm1.maxGasPrice blockNumStr = some (mx : ℚ) ∧
      pm1.minGasPrice blockNumStr = some (mn : ℚ) ∧
      mx ∈ txs.map effectiveGasPrice ∧ (∀ p ∈ txs.map effectiveGasPrice, p ≤ mx) ∧
      mn ∈ txs.map effectiveGasPrice ∧ (∀ p ∈ txs.map effectiveGasPrice, mn ≤ p) ∧
      pm1.avgGasPrice blockNumStr =
        some ((((txs.map effectiveGasPrice).sum % 2 ^ 64) / txs.length : Nat) : ℚ) ∧
      ((txs.map effectiveGasPrice).sum < 2 ^ 64 →
        pm1.avgGasPrice blockNumStr =
          some (((txs.map effectiveGasPrice).sum / txs.length : Nat) : ℚ) ∧
        mn ≤ (txs.map effectiveGasPrice).sum / txs.length ∧
        (txs.map effectiveGasPrice).sum / txs.length ≤ mx) := by
  have hpos : 0 < txs.length := List.length_pos.mpr hne
  unfold analyzeBlock at h
  rw [if_pos hpos] at h
  split at h
  · exact absurd h (by simp)
  · rename_i s hloop
    obtain ⟨hsum, hmx1, hmx2, hmn1, hmn2⟩ := blockTxLoop_stats txs s hne hloop
    have hpm := Option.some.inj h
    have hl : txs.length % 2 ^ 64 = txs.length := Nat.mod_eq_of_lt (by omega)
    have havg : pm1.avgGasPrice blockNumStr =
        some ((((txs.map effectiveGasPrice).sum % 2 ^ 64) / txs.length : Nat) : ℚ) := by
      rw [← hpm]
      simp only [publishBlockStats, setLabel, if_true, hsum, hl]
    refine ⟨s.maxGas, s.minGas, ?_, ?_, hmx1, hmx2, hmn1, hmn2, havg, ?_⟩
    · rw [← hpm]; simp only [publishBlockStats, setLabel, if_true]
    · rw [← hpm]; simp only [publishBlockStats, setLabel, if_true]
    · intro hlt
      obtain ⟨b1, b2⟩ := sum_bounds (txs.map effectiveGasPrice) s.minGas s.maxGas hmn2 hmx2
      rw [List.length_map] at b1 b2
      refine ⟨?_, ?_, ?_⟩
      · rw [havg, Nat.mod_eq_of_lt hlt]
      · exact (Nat.le_div_iff_mul_le hpos).mpr b1
      · exact Nat.div_le_of_le_mul (by rw [Nat.mul_comm]; exact b2)

/-- The registry after the iteration of a fetched block is the one its
transaction analysis left, under the label of its block number. -/
theorem processBlockPB_analyzeBlock (c : Node) (head i : Nat) (block : Block)
    (st st1 : PerBlockState) (h : processBlockPB c head i block st = some st1) :
    ∃ pm0, analyzeBlock (sprintfD (sub64 head (i % 2 ^ 64))) block.Transactions pm0 =
      some st1.pm := by
  unfold processBlockPB at h
  dsimp only at h
  split at h
  · exact absurd h (by simp)
  · split at h
    · exact absurd h (by simp)
    · split at h
      · exact absurd h (by simp)
      · split at h
        · exact absurd h (by simp)
        · split at h
          · exact absurd h (by simp)
          · rename_i st2 _
            split at h
            · exact absurd h (by simp)
            · rename_i pm4 hpm
              rw [← Option.some.inj h]
              exact ⟨st2.pm, hpm⟩

/-- The gas price series of a fetched block with at least one transaction,
after its iteration of the per-block loop: the maximum and the minimum are
the largest and the smallest effective gas price of the block, and the
average is the quotient of the division in `uint64` of the sum by the
count. -/
theorem processBlockPB_gas_prices (c : Node) (head i : Nat) (block : Block)
    (st st1 : PerBlockState) (hne : block.Transactions ≠ [])
    (hlen : block.Transactions.length < 2 ^ 63)
    (h : processBlockPB c head i block st = some st1) :
    ∃ mx mn : Nat,
      st1.pm.maxGasPrice (sprintfD (sub64 head (i % 2 ^ 64))) = some (mx : ℚ) ∧
      st1.pm.minGasPrice (sprintfD (sub64 head (i % 2 ^ 64))) = some (mn : ℚ) ∧
      mx ∈ block.Transactions.map effectiveGasPrice ∧
      (∀ p ∈ block.Transactions.map effectiveGasPrice, p ≤ mx) ∧
      mn ∈ block.Transactions.map effectiveGasPrice ∧
      (∀ p ∈ block.Transactions.map effectiveGasPrice, mn ≤ p) ∧
      st1.pm.avgGasPrice (sprintfD (sub64 head (i % 2 ^ 64))) =
        some ((((block.Transactions.map effectiveGasPrice).sum % 2 ^ 64) /
          block.Transactions.length : Nat) : ℚ) ∧
      ((block.Transactions.map effectiveGasPrice).sum < 2 ^ 64 →
        st1.pm.avgGasPrice (sprintfD (sub64 head (i % 2 ^ 64))) =
          some (((block.Transactions.map effectiveGasPrice).sum /
            block.Transactions.length : Nat) : ℚ) ∧
        mn ≤ (block.Transactions.map effectiveGasPrice).sum / block.Transactions.length ∧
        (block.Transactions.map effectiveGasPrice).sum / block.Transactions.length ≤ mx) := by
  obtain ⟨pm0, hpm⟩ := processBlockPB_analyzeBlock c head i block st st1 h
  exact analyzeBlock_gas_prices _ block.Transactions pm0 st1.pm hne hlen hpm

/-- C19 (evaluation at the failing input): the head block 100 holds two
transactions with gas prices 1 and 2.  The cycle of the per-block exporter
returns `nil`; the published maximum is 2, the minimum 1, and the published
average is 1, the quotient of the division of the sum 3 by the count 2 in
`uint64`, while the arithmetic mean of the two prices is 3/2. -/
theorem per_block_average_truncated :
    fetched nodeOdd 100 0 = some blockOdd ∧
    blockOdd.Transactions.map effectiveGasPrice = [1, 2] ∧
    ∃ pm, CollectMetricsPB 10 nodeOdd {} = PerBlockResult.returned pm none ∧
      pm.maxGasPrice (str "100") = some ((2 : Nat) : ℚ) ∧
      pm.minGasPrice (str "100") = some ((1 : Nat) : ℚ) ∧
      pm.avgGasPrice (str "100") = some ((1 : Nat) : ℚ) ∧
      (((1 : Nat) : ℚ) ≠ ((1 : ℚ) + 2) / 2) :=
  ⟨rfl, by decide, _, rfl, rfl, rfl, rfl, by norm_num⟩

/-! ## Count conservation of the fold -/

/-- The kind of a transaction is one of the four kinds. -/
theorem txTypeOf_mem_kinds (tx : Transaction) (k : GoString) (h : txTypeOf tx = some k) :
    k ∈ kinds := by
  by_cases he : tx.Type_ ≠ str ""
  · cases hv : hexToUint64 tx.Type_ with
    | none =>
      unfold txTypeOf at h
      rw [if_pos he, hv] at h
      exact absurd h (by simp)
    | some v =>
      rw [txTypeOf_eq tx v hv] at h
      rw [← Option.some.inj h]
      exact kindOfCode_mem v
  · unfold txTypeOf at h
    rw [if_neg he] at h
    rw [← Option.some.inj h]
    decide

/-- Counting one more transaction of a kind adds one to the sum of the counts
over the four kinds. -/
theorem kindSum_incrCount (counts : GoString → Option Nat) (k : GoString) (hk : k ∈ kinds) :
    (kinds.map (fun x => ((incrCount counts k) x).getD 0)).sum =
      (kinds.map (fun x => (counts x).getD 0)).sum + 1 := by
  have h12 : str "legacy" ≠ str "eip2930" := by decide
  have h13 : str "legacy" ≠ str "eip1559" := by decide
  have h14 : str "legacy" ≠ str "unknown" := by decide
  have h23 : str "eip2930" ≠ str "eip1559" := by decide
  have h24 : str "eip2930" ≠ str "unknown" := by decide
  have h34 : str "eip1559" ≠ str "unknown" := by decide
  simp only [kinds, List.mem_cons, List.mem_singleton, List.not_mem_nil, or_false] at hk
  rcases hk with rfl | rfl | rfl | rfl <;>
    simp only [kinds, incrCount, List.map_cons, List.map_nil, List.sum_cons, List.sum_nil,
      if_true, if_neg h12, if_neg h13, if_neg h14, if_neg h23, if_neg h24, if_neg h34,
      if_neg h12.symm, if_neg h13.symm, if_neg h14.symm, if_neg h23.symm, if_neg h24.symm,
      if_neg h34.symm, Option.getD_some] <;>
    omega

/-- A key outside the four kinds is not touched by the count of a kind. -/
theorem incrCount_other (counts : GoString → Option Nat) (k x : GoString) (hk : k ∈ kinds)
    (hx : x ∉ kinds) : incrCount counts k x = counts x := by
  unfold incrCount
  rw [if_neg]
  intro h
  exact hx (h ▸ hk)

/-- The counts after the loop over the transactions of a block. -/
theorem txLoop_kinds (txs : List Transaction) : ∀ (t : Totals) (l : BlockLocals)
    (t1 : Totals) (l1 : BlockLocals), txLoop txs t l = some (t1, l1) →
    (kinds.map (fun x => (t1.txTypeCountTotal x).getD 0)).sum =
      (kinds.map (fun x => (t.txTypeCountTotal x).getD 0)).sum + txs.length ∧
    ∀ x, x ∉ kinds → t1.txTypeCountTotal x = t.txTypeCountTotal x := by
  induction txs with
  | nil =>
    intro t l t1 l1 h
    simp only [txLoop, Option.some.injEq, Prod.mk.injEq] at h
    rw [← h.1]
    exact ⟨rfl, fun _ _ => rfl⟩
  | cons tx rest ih =>
    intro t l t1 l1 h
    unfold txLoop at h
    cases hs : txStep t l tx with
    | none => rw [hs] at h; exact absurd h (by simp)
    | some p =>
      obtain ⟨t2, l2⟩ := p
      rw [hs] at h
      dsimp only at h
      obtain ⟨_, _, _, txType, _, _, _, hty, ht2, _⟩ := txStep_eq_some t l tx t2 l2 hs
      have hk := txTypeOf_mem_kinds tx txType hty
      obtain ⟨h1, h2⟩ := ih t2 l2 t1 l1 h
      have e : t2.txTypeCountTotal = incrCount t.txTypeCountTotal txType := by rw [ht2]
      refine ⟨?_, ?_⟩
      · rw [h1, e, kindSum_incrCount _ _ hk, List.length_cons]
        omega
      · intro x hx
        rw [h2 x hx, e, incrCount_other _ _ _ hk hx]

/-- What the transaction analysis of a block adds to the four counts. -/
theorem analyzeTransactions_counts (txs : List Transaction) (t t1 : Totals)
    (h : analyzeTransactions txs t = some t1) :
    t1.totalGasPriceCount = t.totalGasPriceCount + txs.length ∧
    t1.totalContractCallsCount + t1.totalSimpleTransfersCount =
      t.totalContractCallsCount + t.totalSimpleTransfersCount + txs.length ∧
    (kinds.map (fun x => (t1.txTypeCountTotal x).getD 0)).sum =
      (kinds.map (fun x => (t.txTypeCountTotal x).getD 0)).sum + txs.length ∧
    ∀ x, x ∉ kinds → t1.txTypeCountTotal x = t.txTypeCountTotal x := by
  have hcalls := analyzeTransactions_calls txs t t1 h
  have hsplit : txs.countP (fun tx => isContractCall tx) +
      txs.countP (fun tx => !isContractCall tx) = txs.length := by
    have := List.length_eq_countP_add_countP (fun tx => isContractCall tx) txs
    simp only [Bool.not_eq_true, Bool.not_eq_eq_eq_not, Bool.not_true] at this
    rw [this]
    congr 2
    funext tx
    cases isContractCall tx <;> rfl
  unfold analyzeTransactions at h
  split at h
  · split at h
    · exact absurd h (by simp)
    · rename_i t2 l2 hloop
      have hc := txLoop_counts txs t _ t2 l2 hloop
      have hk := txLoop_kinds txs t _ t2 l2 hloop
      simp only [Option.some.injEq] at h
      refine ⟨?_, ?_, ?_, ?_⟩
      · rw [← h]; exact hc.1
      · rw [hcalls.1, hcalls.2]; omega
      · rw [← h]; exact hk.1
      · rw [← h]; exact hk.2
  · rename_i hlen
    have hnil : txs = [] := by
      cases txs with
      | nil => rfl
      | cons a r => simp at hlen
    simp only [Option.some.injEq] at h
    rw [← h, hnil]
    simp

/-- What a folded block adds to the four counts. -/
theorem accumulateBlock_counts (b : Block) (t t1 : Totals) (h : accumulateBlock b t = some t1) :
    t1.totalTxs = t.totalTxs + b.Transactions.length ∧
    t1.totalGasPriceCount = t.totalGasPriceCount + b.Transactions.length ∧
    t1.totalContractCallsCount + t1.totalSimpleTransfersCount =
      t.totalContractCallsCount + t.totalSimpleTransfersCount + b.Transactions.length ∧
    (kinds.map (fun x => (t1.txTypeCountTotal x).getD 0)).sum =
      (kinds.map (fun x => (t.txTypeCountTotal x).getD 0)).sum + b.Transactions.length ∧
    ∀ x, x ∉ kinds → t1.txTypeCountTotal x = t.txTypeCountTotal x := by
  have hs := (accumulateBlock_sums b t t1 h).1
  unfold accumulateBlock at h
  split at h
  · exact absurd h (by simp)
  · split at h
    · exact absurd h (by simp)
    · split at h
      · exact absurd h (by simp)
      · split at h
        · exact absurd h (by simp)
        · unfold accumulate at h
          have h2 := analyzeTransactions_counts _ _ _ h
          exact ⟨hs, h2⟩

/-- What a fold adds to the four counts. -/
theorem foldBlocks_counts (bs : List Block) : ∀ (t t1 : Totals), foldBlocks bs t = some t1 →
    t1.totalTxs = t.totalTxs + (bs.map (fun b => b.Transactions.length)).sum ∧
    t1.totalGasPriceCount =
      t.totalGasPriceCount + (bs.map (fun b => b.Transactions.length)).sum ∧
    t1.totalContractCallsCount + t1.totalSimpleTransfersCount =
      t.totalContractCallsCount + t.totalSimpleTransfersCount +
        (bs.map (fun b => b.Transactions.length)).sum ∧
    (kinds.map (fun x => (t1.txTypeCountTotal x).getD 0)).sum =
      (kinds.map (fun x => (t.txTypeCountTotal x).getD 0)).sum +
        (bs.map (fun b => b.Transactions.length)).sum ∧
    ∀ x, x ∉ kinds → t1.txTypeCountTotal x = t.txTypeCountTotal x := by
  induction bs with
  | nil =>
    intro t t1 h
    simp only [foldBlocks, Option.some.injEq] at h
    rw [← h]
    simp
  | cons b rest ih =>
    intro t t1 h
    rw [foldBlocks] at h
    split at h
    · exact absurd h (by simp)
    · rename_i t2 h2
      obtain ⟨a1, a2, a3, a4, a5⟩ := accumulateBlock_counts b t t2 h2
      obtain ⟨b1, b2, b3, b4, b5⟩ := ih t2 t1 h
      simp only [List.map_cons, List.sum_cons]
      refine ⟨by omega, by omega, by omega, by omega, ?_⟩
      intro x hx
      rw [b5 x hx, a5 x hx]

/-- C21: after folding any sequence of fetched blocks from the zero totals, the
total transaction count, the gas-price count, the sum of the contract-call
and the simple-transfer count, and the sum of the per-kind counts over the
four kinds are all equal: each is the number of transactions of the blocks.
The map of per-kind counts has no key besides the four kinds, so that sum is
over all its keys.  The totals of the window loop of a cycle are such a
fold. -/
theorem count_conservation (bs : List Block) (t : Totals) (h : foldBlocks bs {} = some t) :
    t.totalTxs = (bs.map (fun b => b.Transactions.length)).sum ∧
    t.totalGasPriceCount = t.totalTxs ∧
    t.totalContractCallsCount + t.totalSimpleTransfersCount = t.totalTxs ∧
    (kinds.map (fun k => (t.txTypeCountTotal k).getD 0)).sum = t.totalTxs ∧
    (∀ k, k ∉ kinds → t.txTypeCountTotal k = none) ∧
    (∀ (c : Node) (head N : Nat) (m m2 : Metrics) (t2 : Totals),
      windowLoop c head (List.range N) m {} = some (m2, t2) →
      t2.totalGasPriceCount = t2.totalTxs ∧
      t2.totalContractCallsCount + t2.totalSimpleTransfersCount = t2.totalTxs ∧
      (kinds.map (fun k => (t2.txTypeCountTotal k).getD 0)).sum = t2.totalTxs) := by
  have hz : (kinds.map (fun k => ((({} : Totals).txTypeCountTotal) k).getD 0)).sum = 0 := by
    decide
  obtain ⟨a1, a2, a3, a4, a5⟩ := foldBlocks_counts bs {} t h
  rw [hz] at a4
  simp only [Nat.zero_add] at a1 a2 a3 a4
  refine ⟨a1, by omega, by omega, by omega, fun k hk => a5 k hk, ?_⟩
  intro c head N m m2 t2 hw
  have hfold := windowLoop_totals c head (List.range N) m {}
  rw [hw] at hfold
  obtain ⟨b1, b2, b3, b4, _⟩ := foldBlocks_counts _ {} t2 hfold.symm
  rw [hz] at b4
  simp only [Nat.zero_add] at b1 b2 b3 b4
  exact ⟨by omega, by omega, by omega⟩

theorem count_conservation_witness :
    ∃ t, foldBlocks [blkD 0, blkD 1, blkD 2, blkD 3] {} = some t ∧
      t.totalTxs = 8 ∧ t.totalGasPriceCount = 8 ∧
      t.totalContractCallsCount = 2 ∧ t.totalSimpleTransfersCount = 6 ∧
      t.txTypeCountTotal (str "legacy") = some 6 ∧
      t.txTypeCountTotal (str "eip1559") = some 2 ∧
      (kinds.map (fun k => (t.txTypeCountTotal k).getD 0)).sum = 8 := by
  obtain ⟨t, ht⟩ : ∃ t, foldBlocks [blkD 0, blkD 1, blkD 2, blkD 3] {} = some t := ⟨_, rfl⟩
  obtain ⟨h1, h2, _, h4, _⟩ := count_conservation _ t ht
  have e : ([blkD 0, blkD 1, blkD 2, blkD 3].map (fun b => b.Transactions.length)).sum = 8 := by
    decide
  rw [e] at h1
  have hfold : foldBlocks [blkD 0, blkD 1, blkD 2, blkD 3] {} =
      some ((foldBlocks [blkD 0, blkD 1, blkD 2, blkD 3] {}).getD {}) := rfl
  have hte : t = (foldBlocks [blkD 0, blkD 1, blkD 2, blkD 3] {}).getD {} := by
    rw [hfold] at ht
    exact (Option.some.inj ht).symm
  refine ⟨t, ht, h1, by omega, ?_, ?_, ?_, ?_, by omega⟩
  · rw [hte]; rfl
  · rw [hte]; rfl
  · rw [hte]; rfl
  · rw [hte]; rfl

/-! ## Block times of the two exporters -/

theorem blockTxStep_isSome (j : Nat) (s : BlockStats) (tx : Transaction)
    (h : tx.wellFormed) : ∃ s1, blockTxStep j s tx = some s1 := by
  obtain ⟨hg, hm, hv, hk⟩ := h
  obtain ⟨gp, hgp⟩ := hexToUint64_isSome _ hg
  obtain ⟨mf, hmf⟩ := hexToUint64_isSome _ hm
  obtain ⟨v, hvv⟩ := hexToUint64_isSome _ hv
  obtain ⟨k, hkk⟩ := txTypeOf_isSome tx hk
  unfold blockTxStep
  rw [hgp, hmf, hvv, hkk]
  by_cases h0 : gp = 0
  · simp [h0]
  · simp [h0]

theorem blockTxLoop_isSome (txs : List Transaction) : ∀ (j : Nat) (s : BlockStats),
    (∀ tx ∈ txs, tx.wellFormed) → ∃ s1, blockTxLoop j txs s = some s1 := by
  induction txs with
  | nil => intro j s _; exact ⟨_, rfl⟩
  | cons tx rest ih =>
    intro j s h
    obtain ⟨s2, hr⟩ := blockTxStep_isSome j s tx (h tx (List.mem_cons_self _ _))
    rw [blockTxLoop, hr]
    exact ih (j + 1) s2 (fun x hx => h x (List.mem_cons_of_mem _ hx))

theorem analyzeBlock_isSome (blockNumStr : GoString) (txs : List Transaction)
    (pm : PerBlockMetrics) (h : ∀ tx ∈ txs, tx.wellFormed) :
    ∃ pm1, analyzeBlock blockNumStr txs pm = some pm1 := by
  unfold analyzeBlock
  split
  · obtain ⟨s, hs⟩ := blockTxLoop_isSome txs 0 {} h
    rw [hs]
    exact ⟨_, rfl⟩
  · exact ⟨_, rfl⟩

/-- The block-time step of the first iteration does nothing. -/
theorem blockTimeStep_zero (c : Node) (head timestamp : Nat) (st : PerBlockState) :
    blockTimeStep c head 0 timestamp st = some st := by
  unfold blockTimeStep
  rw [if_neg (by omega)]

/-- The block-time step of a later iteration, when the block before is served
again and is younger, appends the difference of the two timestamps. -/
theorem blockTimeStep_succ (c : Node) (head i timestamp p : Nat) (st : PerBlockState)
    (b : Block) (hi : 0 < i)
    (hb : c.eth_getBlockByNumber (sprintf0x (sub64 head ((i - 1) % 2 ^ 64))) false =
      BlockReply.block b)
    (hp : hexToUint64 b.Timestamp = some p) (hlt : timestamp < p) :
    ∃ st1, blockTimeStep c head i timestamp st = some st1 ∧
      st1.blockTimes = st.blockTimes ++ [((p - timestamp : Nat) : ℚ)] := by
  have hp64 := hexToUint64_lt _ _ hp
  unfold blockTimeStep GetBlock
  rw [if_pos hi]
  dsimp only
  rw [hb]
  dsimp only
  rw [hp]
  dsimp only
  rw [if_pos hlt, sub64_of_le p timestamp hp64 (by omega)]
  exact ⟨_, rfl, rfl⟩

/-- The body of the per-block loop for a served block without one-byte
quantity fields: it does not panic, and the list of block times grows by what
the block-time step appends. -/
theorem processBlockPB_blockTimes (c : Node) (head i : Nat) (block : Block)
    (st : PerBlockState) (hwf : block.wellFormed) (tsv : Nat)
    (hts : hexToUint64 block.Timestamp = some tsv) (add : List ℚ)
    (hstep : ∀ st0 : PerBlockState, ∃ st1, blockTimeStep c head i tsv st0 = some st1 ∧
      st1.blockTimes = st0.blockTimes ++ add) :
    ∃ st1, processBlockPB c head i block st = some st1 ∧
      st1.blockTimes = st.blockTimes ++ add := by
  obtain ⟨h1, h2, _, h4, htx⟩ := hwf
  obtain ⟨v1, e1⟩ := hexToUint64_isSome _ h1
  obtain ⟨v2, e2⟩ := hexToUint64_isSome _ h2
  obtain ⟨v4, e4⟩ := hexToUint64_isSome _ h4
  unfold processBlockPB
  dsimp only
  rw [e1, e2, hts, e4]
  dsimp only
  generalize hst0 : ({ st with pm := _ } : PerBlockState) = st0
  have hbt0 : st0.blockTimes = st.blockTimes := by rw [← hst0]
  obtain ⟨st1, hs1, hb1⟩ := hstep st0
  rw [hs1]
  dsimp only
  obtain ⟨pm4, hpm4⟩ := analyzeBlock_isSome (sprintfD (sub64 head (i % 2 ^ 64)))
    block.Transactions st1.pm htx
  rw [hpm4]
  exact ⟨_, rfl, by dsimp only; rw [hb1, hbt0]⟩

theorem quantityCall_lt (method : GoString) (r : Reply) (m m1 : Metrics) (v : Nat)
    (h : quantityCall method r m = Call.done m1 v) : v < 2 ^ 64 := by
  unfold quantityCall at h
  split at h
  · exact absurd h (by simp)
  · exact absurd h (by simp)
  · rename_i hexStr
    split at h
    · exact absurd h (by simp)
    · split at h
      · rename_i v1 hv
        rw [← (Call.done.inj h).2]
        have h1 : (ParseUint (hexStr.drop 2)).1 = v1 := by rw [hv]
        rw [← h1]
        unfold ParseUint
        split
        · decide
        · exact parseLoop_lt _ 0 (by decide)
      · exact absurd h (by simp)

/-- The head block number the chain phase yields is a `uint64`. -/
theorem chainPhase_head_lt (c : Node) (m m1 : Metrics) (head : Nat)
    (h : chainPhase c m = Call.done m1 head) : head < 2 ^ 64 := by
  unfold chainPhase at h
  split at h
  · exact absurd h (by simp)
  · exact absurd h (by simp)
  · split at h
    · exact absurd h (by simp)
    · exact absurd h (by simp)
    · split at h
      · exact absurd h (by simp)
      · dsimp only at h
        split at h
        · exact absurd h (by simp)
        · exact absurd h (by simp)
        · rename_i m4 currentBlock h4
          have hlt : currentBlock < 2 ^ 64 := quantityCall_lt _ _ _ _ _ h4
          split at h
          · exact absurd h (by simp)
          · exact absurd h (by simp)
          · split at h
            · exact absurd h (by simp)
            · rw [← (Call.done.inj h).2]; exact hlt
            · rw [← (Call.done.inj h).2]; exact hlt

theorem sub64_zero (a : Nat) (ha : a < 2 ^ 64) : sub64 a (0 % 2 ^ 64) = a := by
  rw [Nat.zero_mod, sub64_of_le a 0 ha (Nat.zero_le _)]
  rfl

/-- A quantity field that is not one byte long decodes to its `quantity`. -/
theorem hexToUint64_quantity (s : GoString) (h : s.length ≠ 1) :
    hexToUint64 s = some (quantity s) := by
  obtain ⟨v, hv⟩ := hexToUint64_isSome s h
  unfold quantity
  rw [hv]
  rfl

/-- The timestamps of a well-behaved window, as the timestamp-only requests
give them. -/
theorem wellBehavedWindow_timestampOf (c : Node) (head N : Nat) (blk : Nat → Block)
    (hw : wellBehavedWindow c head N blk) (i : Nat) (hi : i < N) :
    timestampOf c (sprintf0x (sub64 head (i % 2 ^ 64))) =
      some (quantity (blk i).Timestamp) := by
  obtain ⟨b, hb, hbt⟩ := hw.2.1 i hi
  unfold timestampOf
  rw [hb]
  dsimp only
  rw [hbt]
  exact hexToUint64_quantity _ (hw.2.2.1 i hi)

/-- In a well-behaved window every block is older than the head. -/
theorem wellBehavedWindow_lt (c : Node) (head N : Nat) (blk : Nat → Block)
    (hw : wellBehavedWindow c head N blk) :
    ∀ i, 0 < i → i < N → quantity (blk i).Timestamp < quantity (blk 0).Timestamp := by
  intro i
  induction i with
  | zero => intro h; exact absurd h (by omega)
  | succ k ih =>
    intro _ hk
    have h1 := hw.2.2.2 k hk
    by_cases h0 : k = 0
    · subst h0; exact h1
    · have h2 := ih (by omega) (by omega)
      omega

/-- What the block-time step of loop index `i` does on a well-behaved window:
nothing for the head, and for a later index it appends the difference between
the timestamps of the block before and the block of the iteration. -/
theorem blockTimeStep_wellBehaved (c : Node) (head N : Nat) (blk : Nat → Block)
    (hw : wellBehavedWindow c head N blk) (i : Nat) (hi : i < N) (st0 : PerBlockState) :
    ∃ st1, blockTimeStep c head i (quantity (blk i).Timestamp) st0 = some st1 ∧
      st1.blockTimes = st0.blockTimes ++
        (if 0 < i then
          [((quantity (blk (i - 1)).Timestamp - quantity (blk i).Timestamp : Nat) : ℚ)]
         else []) := by
  by_cases h0 : 0 < i
  · rw [if_pos h0]
    obtain ⟨b, hb, hbt⟩ := hw.2.1 (i - 1) (by omega)
    have hp : hexToUint64 b.Timestamp = some (quantity (blk (i - 1)).Timestamp) := by
      rw [hbt]
      exact hexToUint64_quantity _ (hw.2.2.1 (i - 1) (by omega))
    have hlt : quantity (blk i).Timestamp < quantity (blk (i - 1)).Timestamp := by
      have := hw.2.2.2 (i - 1) (by omega)
      rw [Nat.sub_add_cancel h0] at this
      exact this
    exact blockTimeStep_succ c head i _ _ st0 b h0 hb hp hlt
  · have hi0 : i = 0 := by omega
    subst hi0
    rw [if_neg h0, List.append_nil]
    exact ⟨st0, blockTimeStep_zero c head _ st0, rfl⟩

/-- An iteration of the per-block loop on a well-behaved window whose blocks
have no one-byte quantity field does not panic. -/
theorem loopBodyPB_isSome (c : Node) (head N : Nat) (blk : Nat → Block)
    (hw : wellBehavedWindow c head N blk) (hwf : ∀ i, i < N → (blk i).wellFormed)
    (i : Nat) (hi : i < N) (st : PerBlockState) :
    ∃ st1, loopBodyPB c head i st = some st1 := by
  unfold loopBodyPB GetBlock
  rw [hw.1 i hi]
  dsimp only
  obtain ⟨st1, h1, _⟩ := processBlockPB_blockTimes c head i (blk i)
    { st with pm := { st.pm with base := st.pm.base } } (hwf i hi)
    (quantity (blk i).Timestamp) (hexToUint64_quantity _ (hw.2.2.1 i hi)) _
    (fun st0 => blockTimeStep_wellBehaved c head N blk hw i hi st0)
  exact ⟨st1, h1⟩

/-- An iteration of the per-block loop on a well-behaved window, if it does
not panic, leaves the list of block times as the block-time step of its index
makes it. -/
theorem loopBodyPB_blockTimes (c : Node) (head N : Nat) (blk : Nat → Block)
    (hw : wellBehavedWindow c head N blk) (i : Nat) (hi : i < N) (st st1 : PerBlockState)
    (h : loopBodyPB c head i st = some st1) :
    st1.blockTimes = st.blockTimes ++
      (if 0 < i then
        [((quantity (blk (i - 1)).Timestamp - quantity (blk i).Timestamp : Nat) : ℚ)]
       else []) := by
  unfold loopBodyPB GetBlock at h
  rw [hw.1 i hi] at h
  dsimp only at h
  unfold processBlockPB at h
  dsimp only at h
  rw [hexToUint64_quantity _ (hw.2.2.1 i hi)] at h
  split at h
  · exact absurd h (by simp)
  · split at h
    · exact absurd h (by simp)
    · dsimp only at h
      split at h
      · exact absurd h (by simp)
      · split at h
        · exact absurd h (by simp)
        · rename_i stA hstep
          split at h
          · exact absurd h (by simp)
          · obtain ⟨stB, hB, hBt⟩ := blockTimeStep_wellBehaved c head N blk hw i hi _
            rw [hstep] at hB
            have e : stA = stB := Option.some.inj hB
            rw [← Option.some.inj h]
            dsimp only
            rw [e, hBt]

/-- The per-block loop over a run of indices of a well-behaved window, if it
does not panic, appends the block-time entries of these indices. -/
theorem windowLoopPB_run (c : Node) (head N : Nat) (blk : Nat → Block)
    (hw : wellBehavedWindow c head N blk) :
    ∀ (n k : Nat) (st st1 : PerBlockState), k + n ≤ N →
    windowLoopPB c head (List.range' k n) st = some st1 →
      st1.blockTimes = st.blockTimes ++ ((List.range' k n).map (fun i =>
        if 0 < i then
          [((quantity (blk (i - 1)).Timestamp - quantity (blk i).Timestamp : Nat) : ℚ)]
        else [])).flatten := by
  intro n
  induction n with
  | zero =>
    intro k st st1 _ h
    simp only [List.range'_zero, windowLoopPB, Option.some.injEq] at h
    rw [← h]
    simp
  | succ n ih =>
    intro k st st1 hkn h
    rw [List.range'_succ, windowLoopPB] at h
    split at h
    · exact absurd h (by simp)
    · rename_i st2 h2
      have hb2 := loopBodyPB_blockTimes c head N blk hw k (by omega) st st2 h2
      have hb1 := ih (k + 1) st2 st1 (by omega) h
      rw [hb1, hb2, List.range'_succ, List.map_cons, List.flatten_cons, List.append_assoc]

/-- The per-block loop over a well-behaved window whose blocks have no
one-byte quantity field does not panic. -/
theorem windowLoopPB_isSome (c : Node) (head N : Nat) (blk : Nat → Block)
    (hw : wellBehavedWindow c head N blk) (hwf : ∀ i, i < N → (blk i).wellFormed) :
    ∀ (n k : Nat) (st : PerBlockState), k + n ≤ N →
    ∃ st1, windowLoopPB c head (List.range' k n) st = some st1 := by
  intro n
  induction n with
  | zero => intro k st _; exact ⟨st, rfl⟩
  | succ n ih =>
    intro k st hkn
    obtain ⟨st1, h1⟩ := loopBodyPB_isSome c head N blk hw hwf k (by omega) st
    obtain ⟨st2, h2⟩ := ih (k + 1) st1 (by omega)
    refine ⟨st2, ?_⟩
    rw [List.range'_succ, windowLoopPB, h1]
    exact h2

/-- The block-time entries of the indices `0 .. n` are the `n` differences
between adjacent blocks. -/
theorem flatten_blockTime_entries (q : Nat → Nat) (n : Nat) :
    ((List.range' 0 (n + 1)).map (fun i =>
      if 0 < i then [((q (i - 1) - q i : Nat) : ℚ)] else [])).flatten =
      (List.range n).map (fun j => ((q j - q (j + 1) : Nat) : ℚ)) := by
  rw [List.range'_succ, List.map_cons, List.flatten_cons, if_neg (by omega), List.nil_append,
    List.range'_eq_map_range, List.map_map]
  induction n with
  | zero => rfl
  | succ n ih =>
    rw [List.range_succ, List.map_append, List.flatten_append, ih, List.map_append]
    simp [Nat.add_comm]

/-- The block time the per-block exporter publishes when its list of block
times is not empty: their mean. -/
theorem setBlockTimePB_blockTime (N : Nat) (st : PerBlockState)
    (h : 0 < st.blockTimes.length) :
    (setBlockTimePB N st).blockTime = st.blockTimes.sum / (st.blockTimes.length : ℚ) := by
  unfold setBlockTimePB
  rw [if_pos h]
  dsimp only
  split <;> rfl

/-- A timestamp-only request for a block that is served and decodes. -/
theorem fetchTimestamp_of_timestampOf (c : Node) (hex : GoString) (m : Metrics) (ts : Nat)
    (h : timestampOf c hex = some ts) : fetchTimestamp c hex m = some (m, some ts) := by
  unfold timestampOf at h
  unfold fetchTimestamp
  cases hr : c.eth_getBlockByNumber hex false with
  | failure msg => rw [hr] at h; exact absurd h (by simp)
  | undecodable msg => rw [hr] at h; exact absurd h (by simp)
  | block b =>
    rw [hr] at h
    dsimp only at h ⊢
    rw [h]

/-- The sum of the differences between adjacent timestamps telescopes. -/
theorem sum_adjacent_differences (ts : Nat → Nat) (n : Nat) :
    ((List.range n).map (fun i => (ts i : ℚ) - (ts (i + 1) : ℚ))).sum =
      (ts 0 : ℚ) - (ts n : ℚ) := by
  induction n with
  | zero => simp
  | succ n ih =>
    rw [List.range_succ, List.map_append, List.sum_append, ih]
    simp

/-- The mean of the adjacent differences is the end-to-end average. -/
theorem meanAdjacentDifference_eq (ts : Nat → Nat) (N : Nat) :
    meanAdjacentDifference ts N = endToEndAverage ts N := by
  unfold meanAdjacentDifference endToEndAverage
  rw [sum_adjacent_differences]

/-- A cycle of the per-block exporter on a well-behaved window, if it returns,
returns `nil` and has published the mean of the adjacent differences. -/
theorem CollectMetricsPB_blockTime (N : Nat) (c : Node) (head : Nat) (blk : Nat → Block)
    (pm : PerBlockMetrics) (b1 : Metrics) (hN : 2 ≤ N)
    (hP : chainPhase c pm.base = Call.done b1 head)
    (hw : wellBehavedWindow c head N blk)
    (pm1 : PerBlockMetrics) (e1 : Option Error)
    (h : CollectMetricsPB N c pm = PerBlockResult.returned pm1 e1) :
    e1 = none ∧
    pm1.blockTime = meanAdjacentDifference (fun i => quantity (blk i).Timestamp) N := by
  unfold CollectMetricsPB at h
  rw [hP] at h
  dsimp only at h
  split at h
  · exact absurd h (by simp)
  · rename_i st hst
    obtain ⟨n, rfl⟩ : ∃ n, N = n + 1 := ⟨N - 1, by omega⟩
    rw [List.range_eq_range'] at hst
    have hbt := windowLoopPB_run c head (n + 1) blk hw (n + 1) 0 _ st (by omega) hst
    rw [flatten_blockTime_entries (fun i => quantity (blk i).Timestamp) n] at hbt
    have hbt1 : st.blockTimes = (List.range n).map (fun j =>
        (quantity (blk j).Timestamp : ℚ) - (quantity (blk (j + 1)).Timestamp : ℚ)) := by
      rw [hbt]
      simp only [List.nil_append]
      apply List.map_congr_left
      intro j hj
      have hj1 : j + 1 < n + 1 := by have := List.mem_range.mp hj; omega
      exact Nat.cast_sub (Nat.le_of_lt (hw.2.2.2 j hj1))
    have hlen : st.blockTimes.length = n := by
      rw [hbt1, List.length_map, List.length_range]
    have hinj := PerBlockResult.returned.inj h
    refine ⟨hinj.2.symm, ?_⟩
    rw [← hinj.1, setBlockTimePB_blockTime (n + 1) st (by omega), hlen, hbt1]
    rfl

/-- A cycle of the per-block exporter on a well-behaved window whose blocks
have no one-byte quantity field returns. -/
theorem CollectMetricsPB_returns (N : Nat) (c : Node) (head : Nat) (blk : Nat → Block)
    (pm : PerBlockMetrics) (b1 : Metrics)
    (hP : chainPhase c pm.base = Call.done b1 head)
    (hw : wellBehavedWindow c head N blk) (hwf : ∀ i, i < N → (blk i).wellFormed) :
    ∃ pm1, CollectMetricsPB N c pm = PerBlockResult.returned pm1 none := by
  obtain ⟨st, hst⟩ := windowLoopPB_isSome c head N blk hw hwf N 0
    { pm := { pm with base := b1 } } (by omega)
  rw [← List.range_eq_range'] at hst
  refine ⟨setBlockTimePB N st, ?_⟩
  unfold CollectMetricsPB
  rw [hP]
  dsimp only
  rw [hst]

/-- A cycle of the aggregated exporter on a well-behaved window, if it
returns, returns `nil` and has published the end-to-end average. -/
theorem CollectMetrics_blockTime (N : Nat) (c : Node) (head : Nat) (blk : Nat → Block)
    (m m1 : Metrics) (hN : 2 ≤ N)
    (hA : chainPhase c m = Call.done m1 head)
    (hw : wellBehavedWindow c head N blk)
    (m3 : Metrics) (e2 : Option Error)
    (h : CollectMetrics N c m = Result.returned m3 e2) :
    e2 = none ∧
    m3.avgBlockTime = endToEndAverage (fun i => quantity (blk i).Timestamp) N := by
  have hhead := chainPhase_head_lt c m m1 head hA
  have hf := wellBehavedWindow_timestampOf c head N blk hw (N - 1) (by omega)
  have hcu := wellBehavedWindow_timestampOf c head N blk hw 0 (by omega)
  rw [sub64_zero head hhead] at hcu
  have hlt := wellBehavedWindow_lt c head N blk hw (N - 1) (by omega) (by omega)
  have hcu64 : quantity (blk 0).Timestamp < 2 ^ 64 :=
    hexToUint64_lt _ _ (hexToUint64_quantity _ (hw.2.2.1 0 (by omega)))
  unfold CollectMetrics windowPhase at h
  rw [hA] at h
  dsimp only at h
  split at h
  · exact absurd h (by simp)
  · rename_i m4 hwin
    split at hwin
    · exact absurd hwin (by simp)
    · rename_i m2 t _
      unfold blockTimePhase at hwin
      rw [if_pos (by omega)] at hwin
      dsimp only at hwin
      rw [fetchTimestamp_of_timestampOf c _ _ _ hf] at hwin
      dsimp only at hwin
      rw [fetchTimestamp_of_timestampOf c _ _ _ hcu] at hwin
      dsimp only at hwin
      have hinj := Result.returned.inj h
      refine ⟨hinj.2.symm, ?_⟩
      rw [← hinj.1, ← Option.some.inj hwin]
      unfold setBlockTime endToEndAverage
      rw [if_pos hlt]
      dsimp only
      rw [sub64_of_le _ _ hcu64 (Nat.le_of_lt hlt), Nat.cast_sub (Nat.le_of_lt hlt)]
      split <;> rfl

/-- A cycle of the aggregated exporter on a well-behaved window whose blocks
have no one-byte quantity field returns. -/
theorem CollectMetrics_returns_wellBehaved (N : Nat) (c : Node) (head : Nat)
    (blk : Nat → Block) (m m1 : Metrics) (hN : 2 ≤ N)
    (hA : chainPhase c m = Call.done m1 head)
    (hw : wellBehavedWindow c head N blk) (hwf : ∀ i, i < N → (blk i).wellFormed) :
    ∃ m3, CollectMetrics N c m = Result.returned m3 none := by
  have hhead := chainPhase_head_lt c m m1 head hA
  have hfetch : ∀ i ∈ List.range N, fetched c head i = some (blk i) := by
    intro i hi
    unfold fetched
    rw [hw.1 i (List.mem_range.mp hi)]
  have hall := filterMap_fetched_all c head blk (List.range N) hfetch
  have hwf1 : ∀ b ∈ (List.range N).filterMap (fetched c head), b.wellFormed := by
    intro b hb
    rw [hall] at hb
    obtain ⟨i, hi, rfl⟩ := List.mem_map.mp hb
    exact hwf i (List.mem_range.mp hi)
  obtain ⟨t, ht⟩ := foldBlocks_isSome _ {} hwf1
  have hloop := windowLoop_totals c head (List.range N) m1 {}
  rw [ht] at hloop
  obtain ⟨m2, hl⟩ : ∃ m2, windowLoop c head (List.range N) m1 {} = some (m2, t) := by
    cases hl : windowLoop c head (List.range N) m1 {} with
    | none => rw [hl] at hloop; exact absurd hloop (by simp)
    | some r =>
      obtain ⟨m2, t2⟩ := r
      rw [hl] at hloop
      have e : t2 = t := Option.some.inj hloop
      rw [e]
      exact ⟨m2, rfl⟩
  have hf := wellBehavedWindow_timestampOf c head N blk hw (N - 1) (by omega)
  have hcu := wellBehavedWindow_timestampOf c head N blk hw 0 (by omega)
  rw [sub64_zero head hhead] at hcu
  refine ⟨setBlockTime N (setAggregated N m2 t) t.totalTxs (quantity (blk (N - 1)).Timestamp)
    (quantity (blk 0).Timestamp), ?_⟩
  unfold CollectMetrics windowPhase
  rw [hA]
  dsimp only
  rw [hl]
  dsimp only
  unfold blockTimePhase
  rw [if_pos (by omega)]
  dsimp only
  rw [fetchTimestamp_of_timestampOf c _ _ _ hf]
  dsimp only
  rw [fetchTimestamp_of_timestampOf c _ _ _ hcu]

/-- C22: for every window size `N >= 2` and every well-behaved window (the `N`
blocks all served, with the same timestamp on each fetch, and timestamps
strictly increasing with the block number), whenever a cycle of the per-block
exporter and a cycle of the aggregated exporter that read the same head both
return, the per-block exporter's block time is the mean of the `N - 1`
differences between adjacent blocks' timestamps, the aggregated exporter's
average block time is (headTimestamp - oldestTimestamp) / (N - 1), and the two
are equal.  Both cycles do return, with `nil`, when no quantity field of the
blocks has exactly one byte. -/
theorem block_time_agreement (N : Nat) (c : Node) (head : Nat) (blk : Nat → Block)
    (m m1 : Metrics) (pm : PerBlockMetrics) (b1 : Metrics) (hN : 2 ≤ N)
    (hA : chainPhase c m = Call.done m1 head)
    (hP : chainPhase c pm.base = Call.done b1 head)
    (hw : wellBehavedWindow c head N blk) :
    (∀ pm1 e1 m3 e2, CollectMetricsPB N c pm = PerBlockResult.returned pm1 e1 →
      CollectMetrics N c m = Result.returned m3 e2 →
      pm1.blockTime = meanAdjacentDifference (fun i => quantity (blk i).Timestamp) N ∧
      m3.avgBlockTime = endToEndAverage (fun i => quantity (blk i).Timestamp) N ∧
      pm1.blockTime = m3.avgBlockTime) ∧
    ((∀ i, i < N → (blk i).wellFormed) →
      ∃ pm1 m3, CollectMetricsPB N c pm = PerBlockResult.returned pm1 none ∧
        CollectMetrics N c m = Result.returned m3 none) := by
  constructor
  · intro pm1 e1 m3 e2 hp ha
    have hp2 := (CollectMetricsPB_blockTime N c head blk pm b1 hN hP hw pm1 e1 hp).2
    have ha2 := (CollectMetrics_blockTime N c head blk m m1 hN hA hw m3 e2 ha).2
    exact ⟨hp2, ha2, by rw [hp2, ha2, meanAdjacentDifference_eq]⟩
  · intro hwf
    obtain ⟨pm1, hp⟩ := CollectMetricsPB_returns N c head blk pm b1 hP hw hwf
    obtain ⟨m3, ha⟩ := CollectMetrics_returns_wellBehaved N c head blk m m1 hN hA hw hwf
    exact ⟨pm1, m3, hp, ha⟩

theorem block_time_agreement_witness :
    wellBehavedWindow nodeD 100 4 blkD ∧
    ∃ pm1 m3,
      CollectMetricsPB 4 nodeD {} = PerBlockResult.returned pm1 none ∧
      CollectMetrics 4 nodeD {} = Result.returned m3 none ∧
      pm1.blockTime = 10 ∧ m3.avgBlockTime = 10 := by
  have hw : wellBehavedWindow nodeD 100 4 blkD := by
    refine ⟨?_, ?_, ?_, ?_⟩
    · intro i hi
      interval_cases i <;> rfl
    · intro i hi
      interval_cases i <;> exact ⟨_, rfl, rfl⟩
    · intro i hi
      interval_cases i <;> decide
    · intro i hi
      have hi3 : i < 3 := by omega
      interval_cases i <;> decide
  have hwf : ∀ i, i < 4 → (blkD i).wellFormed := by
    intro i hi
    interval_cases i <;> decide
  obtain ⟨m1, hA⟩ : ∃ m1, chainPhase nodeD {} = Call.done m1 100 := ⟨_, rfl⟩
  obtain ⟨b1, hP⟩ : ∃ b1, chainPhase nodeD ({} : PerBlockMetrics).base = Call.done b1 100 :=
    ⟨_, rfl⟩
  obtain ⟨hval, hret⟩ := block_time_agreement 4 nodeD 100 blkD {} m1 {} b1 (by decide) hA hP hw
  obtain ⟨pm1, m3, h1, h2⟩ := hret hwf
  obtain ⟨h3, h4, _⟩ := hval pm1 none m3 none h1 h2
  have e0 : quantity (blkD 0).Timestamp = 1030 := by decide
  have e1 : quantity (blkD 1).Timestamp = 1020 := by decide
  have e2 : quantity (blkD 2).Timestamp = 1010 := by decide
  have e3 : quantity (blkD 3).Timestamp = 1000 := by decide
  refine ⟨hw, pm1, m3, h1, h2, ?_, ?_⟩
  · rw [h3]
    unfold meanAdjacentDifference
    simp only [List.range_succ, List.range_zero, List.nil_append, List.cons_append,
      List.map_cons, List.map_nil, List.sum_cons, List.sum_nil, e0, e1, e2, e3]
    norm_num
  · rw [h4]
    unfold endToEndAverage
    simp only [e0, e3]
    norm_num

end MonadExporter
